import Mathlib

/-!
# GRASS server: path sandbox, session state machine, line buffer, transfers

A shallow embedding of the server side of the GRASS protocol
(`src/filesystem.cpp`, `src/session.cpp`, `src/ring_buffer.cpp`,
`src/config.cpp`, `src/server_manager.cpp`, `src/filetransfer.cpp`) together
with the properties established about it.

Conventions of the embedding

* a `std::string` is a `List Char`, one `Char` per byte (`Str`);
* a function that may throw `GrassException(reason)` returns
  `Except Str α`, the error carrying `reason`;
* member functions take the object as an explicit argument and return the
  updated object when they are not `const`;
* the operating system (file system, sub-processes, clock, sockets) is an
  explicit parameter: `Sys W` over a world type `W` for the file system and
  helpers, `Source` for the bytes a socket delivers to `read`.
-/

namespace grass

/-- A `std::string`, one `Char` per byte. -/
abbrev Str := List Char

deriving instance DecidableEq for Except

/-! ## std::getline with a delimiter -/

/-- Scanner behind `tokensOf`: `cur` is the token accumulated so far.
At end of input a token is produced only if some character was extracted
for it (otherwise `std::getline` sets `failbit` and the loop ends). -/
def tokensFrom (delim : Char) (cur : Str) : Str → List Str
  | [] => if cur = [] then [] else [cur]
  | c :: cs =>
    if c = delim then cur :: tokensFrom delim [] cs
    else tokensFrom delim (cur ++ [c]) cs

/-- The successive values of `token` in
`while (std::getline(stream, token, delim))` over a stream holding `s`:
each call extracts characters up to and excluding the next `delim` (which is
discarded); a call that extracts nothing at all fails and ends the loop. -/
def tokensOf (delim : Char) (s : Str) : List Str :=
  tokensFrom delim [] s

/-! ## Directory (filesystem.cpp) -/

/-- The constant `MAX_PATH_LENGTH` of filesystem.h. -/
def MAX_PATH_LENGTH : Nat := 128

/-- The class `Directory`: `_root` and `_path`. -/
structure Directory where
  root : Str
  path : List Str
deriving DecidableEq, Repr

/-- The constructor `Directory::Directory(root)`: `_path` starts empty. -/
def Directory.new (root : Str) : Directory :=
  { root := root, path := [] }

/-- The method `Directory::Update`: swaps `new_path` into `_path`. -/
def Directory.Update (d : Directory) (new_path : List Str) : Directory :=
  { d with path := new_path }

/-- Body of the `while` loop of `Directory::TokenizePath` for one `token`,
acting on `tokenized_path`. -/
def TokenizeStep (tokenized_path : List Str) (token : Str) : Except Str (List Str) :=
  if token = "".toList ∨ token = ".".toList then
    .ok tokenized_path
  else if token = "..".toList then
    if tokenized_path.length > 0 then
      .ok tokenized_path.dropLast
    else
      .error "Access denied".toList
  else
    .ok (tokenized_path ++ [token])

/-- The loop of `Directory::TokenizePath` over the remaining tokens. -/
def TokenizeLoop : List Str → List Str → Except Str (List Str)
  | tokenized_path, [] => .ok tokenized_path
  | tokenized_path, token :: rest =>
    match TokenizeStep tokenized_path token with
    | .error e => .error e
    | .ok next => TokenizeLoop next rest

/-- The method `Directory::TokenizePath` (const: the directory is only read). -/
def Directory.TokenizePath (d : Directory) (relative_path : Str) : Except Str (List Str) :=
  if relative_path.length ≥ 1 ∧ relative_path.head? = some '/' then
    .error "Access denied".toList
  else
    TokenizeLoop d.path (tokensOf '/' relative_path)

/-- The method `Directory::PathFromVector`. -/
def Directory.PathFromVector (d : Directory) (path_vector : List Str) : Except Str Str :=
  let path := path_vector.foldl (fun acc dir => acc ++ ("/".toList ++ dir)) d.root
  if path.length > MAX_PATH_LENGTH then
    .error "The path is too long".toList
  else
    .ok path

/-- The method `Directory::PathFromRoot`. -/
def Directory.PathFromRoot (d : Directory) (relative_path : Str) : Except Str Str :=
  if relative_path.length ≥ 1 ∧ relative_path.head? = some '/' then
    .error "Access denied".toList
  else
    match d.TokenizePath relative_path with
    | .error e => .error e
    | .ok v => d.PathFromVector v

/-- The call `s.find_last_of(c)`: index of the last occurrence of `c`, `none`
for `std::string::npos`. -/
def find_last_of (c : Char) : Str → Option Nat
  | [] => none
  | x :: xs =>
    match find_last_of c xs with
    | some i => some (i + 1)
    | none => if x = c then some 0 else none

/-- The function `ExtractFilename`: `path.substr(index + 1)`, where
`npos + 1` wraps around to 0 when there is no slash. -/
def ExtractFilename (path : Str) : Str :=
  match find_last_of '/' path with
  | some index => path.drop (index + 1)
  | none => path.drop 0

/-! ### Reference definition of path tokenizing (from the specification) -/

/-- Reference step on the segment vector: skip empty and `.` tokens, pop the
last segment on `..`, push any other token. -/
def segStep (acc : List Str) (token : Str) : List Str :=
  if token = [] ∨ token = ['.'] then acc
  else if token = ['.', '.'] then acc.dropLast
  else acc ++ [token]

/-- Whether, folding the tokens from `acc`, some `..` token is reached while
the accumulated segment vector is empty. -/
def escapes : List Str → List Str → Bool
  | _, [] => false
  | acc, token :: rest =>
    (token == ['.', '.'] && acc.isEmpty) || escapes (segStep acc token) rest

/-- Reference definition of tokenizing: split `rel` on `/`, start from the
current working directory and fold; fail when `rel` begins with `/` or a `..`
token is reached at depth zero. -/
def TokenizePathRef (cwd : List Str) (rel : Str) : Except Str (List Str) :=
  if rel.head? = some '/' ∨ escapes cwd (rel.splitOn '/') = true then
    .error "Access denied".toList
  else .ok ((rel.splitOn '/').foldl segStep cwd)

/-! ### Paths under the root -/

/-- A path segment that names a proper child: not empty, not `.`, not `..`,
and without `/`. -/
def GoodSegment (seg : Str) : Prop :=
  seg ≠ [] ∧ seg ≠ ['.'] ∧ seg ≠ ['.', '.'] ∧ '/' ∉ seg

/-- The text `/seg1/seg2/...` of a list of segments. -/
def segmentsText : List Str → Str
  | [] => []
  | seg :: rest => '/' :: (seg ++ segmentsText rest)

/-! ## RingBuffer (ring_buffer.cpp) and the socket it reads from -/

/-- The constant `RingBuffer::SIZE`. -/
def SIZE : Nat := 4096

/-- The class `RingBuffer`: the two indices and the array `_buf`, the array
being given by its content at each index below `SIZE`. -/
structure RingBuffer where
  read_idx : Nat
  write_idx : Nat
  buf : Nat → Char

/-- The constructor `RingBuffer()`: both indices are 0; the array is not
initialised, `junk` is whatever it holds. -/
def RingBuffer.new (junk : Nat → Char) : RingBuffer :=
  { read_idx := 0, write_idx := 0, buf := junk }

/-- The method `RingBuffer::empty`. -/
def RingBuffer.empty (rb : RingBuffer) : Bool :=
  rb.read_idx == rb.write_idx

/-- The method `RingBuffer::full`. -/
def RingBuffer.full (rb : RingBuffer) : Bool :=
  rb.read_idx == (rb.write_idx + 1) % SIZE

/-- Number of live bytes: write cursor minus read cursor, modulo `SIZE`. -/
def RingBuffer.live (rb : RingBuffer) : Nat :=
  (rb.write_idx + SIZE - rb.read_idx) % SIZE

/-- The loop of `RingBuffer::findNewline` started at index `i`; `fuel` bounds
the number of iterations. -/
def RingBuffer.findNewlineFrom (rb : RingBuffer) : Nat → Nat → Option Nat
  | 0, _ => none
  | fuel + 1, i =>
    if i = rb.write_idx then none
    else if rb.buf i = '\n' then some i
    else rb.findNewlineFrom fuel ((i + 1) % SIZE)

/-- The method `RingBuffer::findNewline`. With both indices below `SIZE` the
loop ends within `SIZE` iterations. -/
def RingBuffer.findNewline (rb : RingBuffer) : Option Nat :=
  rb.findNewlineFrom SIZE rb.read_idx

/-- The bytes `buf[start], ..., buf[start + len - 1]`, as built by
`std::string(&_buf[start], len)`. -/
def bytesAt (buf : Nat → Char) (start len : Nat) : Str :=
  (List.range len).map (fun k => buf (start + k))

/-- First branch of `RingBuffer::consume` (`end >= _read_idx`). -/
def RingBuffer.consumeDirect (rb : RingBuffer) (end_ : Nat) : Str × RingBuffer :=
  (bytesAt rb.buf rb.read_idx (end_ - rb.read_idx),
   { rb with read_idx := (end_ + 1) % SIZE })

/-- The method `RingBuffer::consume`. In the second branch `_read_idx` is set
to 0 before the recursive call, which therefore takes the first branch. -/
def RingBuffer.consume (rb : RingBuffer) (end_ : Nat) : Str × RingBuffer :=
  if end_ ≥ rb.read_idx then
    rb.consumeDirect end_
  else
    let ret := bytesAt rb.buf rb.read_idx (SIZE - rb.read_idx)
    let r := ({ rb with read_idx := 0 } : RingBuffer).consumeDirect end_
    (ret ++ r.1, r.2)

/-- What one call of `read` on the socket meets. -/
inductive SysRead where
  /-- `n` bytes of the stream have arrived: `read` returns at most `n`. -/
  | ready (n : Nat)
  /-- Nothing has arrived (`EAGAIN` on the non-blocking socket). -/
  | eagain
  /-- The peer has closed the connection: `read` returns 0. -/
  | eof
  /-- Any other error: `read` returns -1 with another `errno`. -/
  | failure
deriving DecidableEq, Repr

/-- The socket as seen by the buffer: the bytes the peer sends, in order, and
what each coming `read` call meets. With the script exhausted nothing more
has arrived. -/
structure Source where
  stream : Str
  script : List SysRead
deriving DecidableEq, Repr

/-- Return value of `read`. -/
inductive ReadResult where
  /-- A non-negative return value, with the bytes stored (none for 0). -/
  | received (bs : Str)
  /-- Return -1 with `errno == EAGAIN`. -/
  | eagain
  /-- Return -1 with another `errno`. -/
  | failure
deriving DecidableEq, Repr

/-- The call `read(fd, p, max)` meeting `ev`: result and remaining stream. -/
def sysRead (ev : SysRead) (stream : Str) (max : Nat) : ReadResult × Str :=
  match ev with
  | .ready n =>
    let k := min n (min max stream.length)
    if max = 0 then (.received [], stream)
    else if k = 0 then (.eagain, stream)
    else (.received (stream.take k), stream.drop k)
  | .eagain => (.eagain, stream)
  | .eof => (.received [], stream)
  | .failure => (.failure, stream)

/-- The array after `read` stored `bs` from index `at_` on. -/
def storeAt (buf : Nat → Char) (at_ : Nat) (bs : Str) : Nat → Char :=
  fun i => if at_ ≤ i ∧ i < at_ + bs.length then bs.getD (i - at_) (buf i) else buf i

/-- State after `RingBuffer::receiveFromSocket`: the buffer, the value of
`socket_closed`, the socket, and the exception thrown if any. -/
structure Recv where
  rb : RingBuffer
  socket_closed : Bool
  source : Source
  error : Option Str

/-- The method `RingBuffer::receiveFromSocket`; each `read` takes the next
entry of the script. -/
def RingBuffer.receiveFromSocket (rb : RingBuffer) (socket_closed : Bool) (stream : Str) :
    List SysRead → Recv
  | [] =>
    if rb.full then ⟨rb, socket_closed, ⟨stream, []⟩, none⟩
    else ⟨rb, false, ⟨stream, []⟩, none⟩
  | ev :: rest =>
    if rb.full then ⟨rb, socket_closed, ⟨stream, ev :: rest⟩, none⟩
    else if rb.write_idx < rb.read_idx then
      let max_recv_size := rb.read_idx - rb.write_idx - 1
      match sysRead ev stream max_recv_size with
      | (.failure, stream1) => ⟨rb, false, ⟨stream1, rest⟩, some "read() failed".toList⟩
      | (.eagain, stream1) => ⟨rb, false, ⟨stream1, rest⟩, none⟩
      | (.received bs, stream1) =>
        if bs.length = 0 then ⟨rb, true, ⟨stream1, rest⟩, none⟩
        else
          ⟨{ rb with buf := storeAt rb.buf rb.write_idx bs,
                     write_idx := rb.write_idx + bs.length },
           false, ⟨stream1, rest⟩, none⟩
    else
      let max_recv_size := SIZE - rb.write_idx
      match sysRead ev stream max_recv_size with
      | (.failure, stream1) => ⟨rb, false, ⟨stream1, rest⟩, some "read() failed".toList⟩
      | (.eagain, stream1) => ⟨rb, false, ⟨stream1, rest⟩, none⟩
      | (.received bs, stream1) =>
        if bs.length = 0 then ⟨rb, true, ⟨stream1, rest⟩, none⟩
        else
          let rb1 : RingBuffer :=
            { rb with buf := storeAt rb.buf rb.write_idx bs,
                      write_idx := (rb.write_idx + bs.length) % SIZE }
          if max_recv_size = bs.length then
            rb1.receiveFromSocket false stream1 rest
          else
            ⟨rb1, false, ⟨stream1, rest⟩, none⟩

/-- State after `RingBuffer::nextLine`: the returned line if any, the buffer,
the value of `socket_closed`, the socket, and the exception thrown if any. -/
structure NextLine where
  line : Option Str
  rb : RingBuffer
  socket_closed : Bool
  source : Source
  error : Option Str

/-- The method `RingBuffer::nextLine`. -/
def RingBuffer.nextLine (rb : RingBuffer) (socket_closed : Bool) (src : Source) : NextLine :=
  match rb.findNewline with
  | some e => ⟨some (rb.consume e).1, (rb.consume e).2, socket_closed, src, none⟩
  | none =>
    let r := rb.receiveFromSocket socket_closed src.stream src.script
    match r.error with
    | some err => ⟨none, r.rb, r.socket_closed, r.source, some err⟩
    | none =>
      match r.rb.findNewline with
      | some e => ⟨some (r.rb.consume e).1, (r.rb.consume e).2, r.socket_closed, r.source, none⟩
      | none => ⟨none, r.rb, r.socket_closed, r.source, none⟩

/-! ## Config and ServerManager as seen by a session -/

/-- The class `Config`: `_credentials` as a finite map from user names to
passwords, `_portNumber`, `_directory`. -/
structure Config where
  credentials : Str → Option Str
  portNumber : Nat
  directory : Str

/-- The method `Config::checkLogin`. -/
def Config.checkLogin (c : Config) (username password : Str) : Bool :=
  match c.credentials username with
  | some passwordOfUser => passwordOfUser == password
  | none => false

/-- The `ServerManager` behind the reference `_server` of a session: its
configuration, and the `username()` of the other sessions of `_sessions`, those
iterated before this session and those iterated after it. -/
structure ServerManager where
  config : Config
  before : List Str
  after : List Str

/-- The method `ServerManager::checkLogin`. -/
def ServerManager.checkLogin (srv : ServerManager) (username password : Str) : Bool :=
  srv.config.checkLogin username password

/-- The body of `ServerManager::loggedUsers`, over the `username()` of each
session of `_sessions` in iteration order. -/
def loggedUsersOf (usernames : List Str) : Str :=
  let users := usernames.filter (fun username => !username.isEmpty)
  let sorted := users.insertionSort (fun a b => a ≤ b)
  sorted.foldl (fun result user => result ++ (user ++ " ".toList)) []

/-! ## The operating system as seen by the command handlers -/

/-- The values of `errno` that the code tells apart. -/
inductive Errno where
  | ENOENT
  | EEXIST
  | other
deriving DecidableEq, Repr

/-- The file type bits of `st_mode`, as tested by `S_ISDIR` and `S_ISREG`. -/
inductive FileType where
  | directory
  | regular
  | other
deriving DecidableEq, Repr

/-- System calls and helper routines used by the command handlers, over a
world `W` (file system, processes, sockets, clock). -/
structure Sys (W : Type) where
  /-- The call `stat(path, &sb)`: the file type, or `errno`. -/
  stat : W → Str → Except Errno FileType
  /-- The call `popen(cmd, "r")` followed by the `fgets` loop: the text
  accumulated in `result`, or `none` when `popen` returns null. -/
  popen : W → Str → Option Str × W
  /-- The call `mkdir(path, mask)`: `none` on success, else `errno`. -/
  mkdir : W → Str → Option Errno × W
  /-- Whether `fts_open` succeeds on the directory. -/
  fts_open : W → Str → Bool
  /-- The traversal of `RemoveDirectoryRecursively`, calling `remove`. -/
  fts_remove : W → Str → W
  /-- The call `open(path, O_RDONLY | O_NOFOLLOW)`: a descriptor if any. -/
  open_read : W → Str → Option Nat
  /-- The call `fstat(fd, &stat)`: `st_size` if it succeeds. -/
  fstat_size : W → Nat → Option Nat
  /-- The call `open(path, O_WRONLY | O_NOFOLLOW | O_CREAT | O_TRUNC, ...)`. -/
  open_write : W → Str → Option Nat × W
  /-- The method `FileTransfer::run` on descriptor, size and direction
  (`true` for get): the port of the listening socket, the worker thread being
  started, or the exception rethrown by the network helpers. -/
  transfer_run : W → Nat → Nat → Bool → Except Str Nat × W
  /-- The function `SearchDirectory(dir, pattern)`. -/
  search_directory : W → Str → Str → Except Str (List Str)
  /-- The text produced by `gettimeofday`, `localtime` and `strftime`. -/
  date : W → Str

/-- The function `Stat`. -/
def Stat {W : Type} (sys : Sys W) (w : W) (path : Str) : Except Str FileType :=
  match sys.stat w path with
  | .ok sb => .ok sb
  | .error .ENOENT => .error "No such file or directory".toList
  | .error _ => .error "stat() failed".toList

/-- The function `RemoveDirectoryRecursively`: the constructor of
`DirectoryTraverser` throws when `fts_open` fails. -/
def RemoveDirectoryRecursively {W : Type} (sys : Sys W) (w : W) (dir : Str) :
    Except Str Unit × W :=
  if sys.fts_open w dir then (.ok (), sys.fts_remove w dir)
  else (.error "fts_open() failed".toList, w)

/-! ## Character classes and number conversions of the C library -/

/-- The function `isspace` in the "C" locale, as used by `operator>>`. -/
def isspace (c : Char) : Bool :=
  c = ' ' ∨ c = '\t' ∨ c = '\n' ∨ c = '\x0b' ∨ c = '\x0c' ∨ c = '\r'

/-- Scanner behind `splitArgs`: `cur` is the word read so far. -/
def wordsFrom (cur : Str) : Str → List Str
  | [] => if cur = [] then [] else [cur]
  | c :: cs =>
    if isspace c then
      (if cur = [] then wordsFrom [] cs else cur :: wordsFrom [] cs)
    else wordsFrom (cur ++ [c]) cs

/-- The vector built from `std::istream_iterator<std::string>` over `cmd`:
the maximal runs of non-whitespace characters, in order. -/
def splitArgs (cmd : Str) : List Str :=
  wordsFrom [] cmd

/-- The constant `ULONG_MAX` (64-bit `unsigned long`). -/
def ULONG_MAX : Nat := 2 ^ 64 - 1

/-- The call `std::strtoul(s, nullptr, 10)`: leading white space, an optional
sign, then the longest run of decimal digits; 0 when there is no digit,
`ULONG_MAX` on overflow, and the negation modulo 2^64 after a minus sign. -/
def strtoul (s : Str) : Nat :=
  let s1 := s.dropWhile isspace
  let neg := s1.head? = some '-'
  let s2 := if s1.head? = some '-' ∨ s1.head? = some '+' then s1.drop 1 else s1
  let digits := s2.takeWhile Char.isDigit
  let value := digits.foldl (fun acc c => 10 * acc + (c.toNat - '0'.toNat)) 0
  if value > ULONG_MAX then ULONG_MAX
  else if neg then (2 ^ 64 - value) % 2 ^ 64
  else value

/-- Decimal text of a number, as written by `operator<<`. -/
def decimal (n : Nat) : Str :=
  (Nat.repr n).toList

/-- The call `s.find_first_not_of(chars) != npos`. -/
def hasCharOutside (chars : Str) (s : Str) : Bool :=
  s.any (fun c => !chars.contains c)

/-! ## Session (session.cpp) -/

/-- The constant `ERROR_LENGTH`. -/
def ERROR_LENGTH : Nat := 2048

/-- The array `Session::PRIVILEGED_COMMANDS`. -/
def PRIVILEGED_COMMANDS : List Str :=
  ["ls".toList, "cd".toList, "mkdir".toList, "rm".toList, "get".toList, "put".toList,
   "grep".toList, "date".toList, "whoami".toList, "w".toList, "logout".toList]

/-- The struct `Session::state`. -/
structure SessionState where
  username : Option Str
  login_attempt : Option Str
deriving DecidableEq, Repr

/-- The class `Session`: `_state`, `_directory` and `_buffer` (the reference
`_server` and the socket are passed separately). -/
structure Session where
  state : SessionState
  directory : Directory
  buffer : RingBuffer

/-- The constructor `Session::Session(server, socket_fd)`. -/
def Session.new (srv : ServerManager) (junk : Nat → Char) : Session :=
  { state := { username := none, login_attempt := none },
    directory := Directory.new srv.config.directory,
    buffer := RingBuffer.new junk }

/-- The method `Session::username`. -/
def Session.username (s : Session) : Str :=
  match s.state.username with
  | some name => name
  | none => "".toList

/-- The method `ServerManager::loggedUsers`, called from session `s`. -/
def ServerManager.loggedUsers (srv : ServerManager) (s : Session) : Str :=
  loggedUsersOf (srv.before ++ [s.username] ++ srv.after)

/-- What a command handler leaves behind: the returned text or the message of
the `GrassException` thrown, the session and the world. -/
structure Outcome (W : Type) where
  result : Except Str Str
  session : Session
  world : W

/-- The method `Session::executePass`; `attempt` is
`_state.login_attempt.value()`. -/
def Session.executePass {W : Type} (srv : ServerManager) (w : W) (s : Session)
    (attempt pass : Str) : Outcome W :=
  if !srv.checkLogin attempt pass then
    ⟨.ok "Wrong credentials".toList,
     { s with state := { s.state with login_attempt := none } }, w⟩
  else
    ⟨.ok "".toList,
     { s with state := { username := s.state.login_attempt, login_attempt := none } }, w⟩

/-- The method `Session::executePing`. -/
def Session.executePing {W : Type} (sys : Sys W) (w : W) (s : Session) (host : Str) :
    Outcome W :=
  if hasCharOutside "abcdefghijklmnopqrstuvwxyz0123456789.-:".toList host then
    ⟨.error "Invalid hostname".toList, s, w⟩
  else
    match sys.popen w ("ping -c 1 ".toList ++ host ++ " 2>&1".toList) with
    | (none, w1) => ⟨.error "ping() failed".toList, s, w1⟩
    | (some result, w1) => ⟨.ok result, s, w1⟩

/-- The method `Session::executeLs`. -/
def Session.executeLs {W : Type} (sys : Sys W) (w : W) (s : Session) : Outcome W :=
  match s.directory.PathFromRoot "".toList with
  | .error e => ⟨.error e, s, w⟩
  | .ok path =>
    match sys.popen w ("ls -l \x27".toList ++ path ++ "\x27".toList) with
    | (none, w1) => ⟨.error "ls() failed".toList, s, w1⟩
    | (some result, w1) => ⟨.ok result, s, w1⟩

/-- The method `Session::executeCd`. -/
def Session.executeCd {W : Type} (sys : Sys W) (w : W) (s : Session) (relative_path : Str) :
    Outcome W :=
  match s.directory.TokenizePath relative_path with
  | .error e => ⟨.error e, s, w⟩
  | .ok path_vector =>
    match s.directory.PathFromVector path_vector with
    | .error e => ⟨.error e, s, w⟩
    | .ok path_string =>
      match Stat sys w path_string with
      | .error e => ⟨.error e, s, w⟩
      | .ok st_mode =>
        if st_mode ≠ .directory then ⟨.error "Not a directory".toList, s, w⟩
        else ⟨.ok "".toList, { s with directory := s.directory.Update path_vector }, w⟩

/-- The method `Session::executeMkdir`. -/
def Session.executeMkdir {W : Type} (sys : Sys W) (w : W) (s : Session) (relative_path : Str) :
    Outcome W :=
  if hasCharOutside
      "abcdefghijklmnopqrstuvwxyzABCDEFGHIJKLMNOPQRSTUVWXYZ0123456789-_".toList
      relative_path then
    ⟨.error "Invalid directory name".toList, s, w⟩
  else
    match s.directory.PathFromRoot relative_path with
    | .error e => ⟨.error e, s, w⟩
    | .ok path =>
      match sys.mkdir w path with
      | (none, w1) => ⟨.ok "".toList, s, w1⟩
      | (some .ENOENT, w1) => ⟨.error "No such file or directory".toList, s, w1⟩
      | (some .EEXIST, w1) => ⟨.error "Directory already exists".toList, s, w1⟩
      | (some _, w1) => ⟨.error "mkdir() failed".toList, s, w1⟩

/-- The method `Session::executeRm`. -/
def Session.executeRm {W : Type} (sys : Sys W) (w : W) (s : Session) (relative_path : Str) :
    Outcome W :=
  if relative_path = ".".toList ∨ relative_path = "..".toList then
    ⟨.error "Refusing to remove \x27.\x27 or \x27..\x27 directory".toList, s, w⟩
  else
    match s.directory.PathFromRoot relative_path with
    | .error e => ⟨.error e, s, w⟩
    | .ok path =>
      match Stat sys w path with
      | .error e => ⟨.error e, s, w⟩
      | .ok _ =>
        match RemoveDirectoryRecursively sys w path with
        | (.error e, w1) => ⟨.error e, s, w1⟩
        | (.ok _, w1) => ⟨.ok "".toList, s, w1⟩

/-- The method `Session::executeGet`, with the constructor
`FileTransfer::FileTransfer(path)`. -/
def Session.executeGet {W : Type} (sys : Sys W) (w : W) (s : Session) (filename : Str) :
    Outcome W :=
  match s.directory.PathFromRoot filename with
  | .error e => ⟨.error e, s, w⟩
  | .ok path =>
    match Stat sys w path with
    | .error e => ⟨.error e, s, w⟩
    | .ok st_mode =>
      if st_mode ≠ .regular then ⟨.error "Not a file".toList, s, w⟩
      else
        match sys.open_read w path with
        | none => ⟨.error "Failed to open file for get()".toList, s, w⟩
        | some file_fd =>
          match sys.fstat_size w file_fd with
          | none => ⟨.error "Failed to get file size".toList, s, w⟩
          | some file_size =>
            match sys.transfer_run w file_fd file_size true with
            | (.error e, w1) => ⟨.error e, s, w1⟩
            | (.ok port, w1) =>
              ⟨.ok ("get port: ".toList ++ decimal port ++ " size: ".toList ++
                  decimal file_size), s, w1⟩

/-- The method `Session::executePut`, with the constructor
`FileTransfer::FileTransfer(path, size)`. -/
def Session.executePut {W : Type} (sys : Sys W) (w : W) (s : Session) (path : Str)
    (size : Nat) : Outcome W :=
  let filename := ExtractFilename path
  match s.directory.PathFromRoot filename with
  | .error e => ⟨.error e, s, w⟩
  | .ok absolute_path =>
    match sys.open_write w absolute_path with
    | (none, w1) => ⟨.error "Failed to open file for put()".toList, s, w1⟩
    | (some file_fd, w1) =>
      match sys.transfer_run w1 file_fd size false with
      | (.error e, w2) => ⟨.error e, s, w2⟩
      | (.ok port, w2) => ⟨.ok ("put port: ".toList ++ decimal port), s, w2⟩

/-- The method `Session::executeGrep`. -/
def Session.executeGrep {W : Type} (sys : Sys W) (w : W) (s : Session) (pattern : Str) :
    Outcome W :=
  match s.directory.PathFromRoot "".toList with
  | .error e => ⟨.error e, s, w⟩
  | .ok path =>
    match sys.search_directory w path pattern with
    | .error e => ⟨.error e, s, w⟩
    | .ok files_found =>
      let sorted := files_found.insertionSort (fun a b => a ≤ b)
      ⟨.ok (sorted.foldl (fun ss f => ss ++ (f ++ ['\n'])) []), s, w⟩

/-- The method `Session::executeDate`. -/
def Session.executeDate {W : Type} (sys : Sys W) (w : W) (s : Session) : Outcome W :=
  ⟨.ok (sys.date w), s, w⟩

/-- The method `Session::executeWhoami`. -/
def Session.executeWhoami {W : Type} (w : W) (s : Session) : Outcome W :=
  ⟨.ok s.username, s, w⟩

/-- The method `Session::executeW`. -/
def Session.executeW {W : Type} (srv : ServerManager) (w : W) (s : Session) : Outcome W :=
  ⟨.ok (srv.loggedUsers s), s, w⟩

/-- The method `Session::executeLogout`. -/
def Session.executeLogout {W : Type} (w : W) (s : Session) : Outcome W :=
  ⟨.ok "".toList, { s with state := { s.state with username := none } }, w⟩

/-- The method `Session::ValidatePathArg`: the message thrown, if any. -/
def ValidatePathArg (args : List Str) : Option Str :=
  if args.length < 2 then some "Missing argument".toList
  else if (args.getD 1 []).length > MAX_PATH_LENGTH then some "The path is too long".toList
  else none

/-- The method `Session::executePrivileged`. -/
def Session.executePrivileged {W : Type} (sys : Sys W) (srv : ServerManager) (w : W)
    (s : Session) (args : List Str) : Outcome W :=
  let arg0 := args.getD 0 []
  let arg1 := args.getD 1 []
  if arg0 = "ls".toList then s.executeLs sys w
  else if arg0 = "cd".toList then
    match ValidatePathArg args with
    | some e => ⟨.error e, s, w⟩
    | none => s.executeCd sys w arg1
  else if arg0 = "mkdir".toList then
    match ValidatePathArg args with
    | some e => ⟨.error e, s, w⟩
    | none => s.executeMkdir sys w arg1
  else if arg0 = "rm".toList then
    match ValidatePathArg args with
    | some e => ⟨.error e, s, w⟩
    | none => s.executeRm sys w arg1
  else if arg0 = "get".toList then
    match ValidatePathArg args with
    | some e => ⟨.error e, s, w⟩
    | none => s.executeGet sys w arg1
  else if arg0 = "put".toList then
    if args.length < 3 then ⟨.error "Missing arguments".toList, s, w⟩
    else if arg1.length > MAX_PATH_LENGTH then ⟨.error "The path is too long".toList, s, w⟩
    else
      let size := strtoul (args.getD 2 [])
      if size = 0 then ⟨.error "Invalid size".toList, s, w⟩
      else s.executePut sys w arg1 size
  else if arg0 = "grep".toList then
    if args.length < 2 then ⟨.error "Missing pattern".toList, s, w⟩
    else s.executeGrep sys w arg1
  else if arg0 = "date".toList then s.executeDate sys w
  else if arg0 = "whoami".toList then s.executeWhoami w
  else if arg0 = "w".toList then s.executeW srv w
  else if arg0 = "logout".toList then s.executeLogout w
  else ⟨.error "Invalid command".toList, s, w⟩

/-- The method `Session::execute`. -/
def Session.execute {W : Type} (sys : Sys W) (srv : ServerManager) (w : W) (s : Session)
    (cmd : Str) : Outcome W :=
  if cmd.isEmpty then ⟨.ok "".toList, s, w⟩
  else
    let args := splitArgs cmd
    if args.isEmpty then ⟨.ok "".toList, s, w⟩
    else
      let arg0 := args.getD 0 []
      match s.state.login_attempt with
      | some attempt =>
        if arg0 ≠ "pass".toList then
          ⟨.ok "Login interrupted".toList,
           { s with state := { s.state with login_attempt := none } }, w⟩
        else if args.length < 2 then ⟨.ok "Missing password".toList, s, w⟩
        else s.executePass srv w attempt (args.getD 1 [])
      | none =>
        if arg0 = "login".toList then
          if args.length < 2 then ⟨.ok "Missing username".toList, s, w⟩
          else
            ⟨.ok "".toList,
             { s with state := { s.state with login_attempt := some (args.getD 1 []) } }, w⟩
        else if arg0 = "ping".toList then
          if args.length < 2 then ⟨.ok "Missing host".toList, s, w⟩
          else s.executePing sys w (args.getD 1 [])
        else if arg0 = "exit".toList then ⟨.ok "".toList, s, w⟩
        else if arg0 ∈ PRIVILEGED_COMMANDS then
          (if s.state.username.isSome then s.executePrivileged sys srv w args
           else ⟨.error "Access denied".toList, s, w⟩)
        else ⟨.error "Invalid command".toList, s, w⟩

/-- A `std::string` read through `c_str()` as a C string: the bytes before the
first NUL. -/
def c_str (s : Str) : Str :=
  s.takeWhile (fun c => c ≠ '\x00')

/-- The function `log`: the text printed on `stderr`, or `none` when `strcpy`
writes past the `ERROR_LENGTH` bytes of `log_message` (the text and its
terminating NUL do not fit), after which the behaviour is undefined. -/
def log (err_message : Str) : Option Str :=
  if (c_str err_message).length + 1 > ERROR_LENGTH then none
  else some (c_str err_message ++ "\n".toList)

/-- What the body of the loop of `Session::onNewData` produces for one line
that is answered. -/
structure Reply (W : Type) where
  session : Session
  world : W
  /-- The bytes passed to `write(_socket_fd, ...)`. -/
  peer : Str
  /-- The bytes printed on `std::cout`. -/
  cout : Str
  /-- The bytes printed on `stderr` by `log`. -/
  cerr : Str

/-- Result of the body of the loop of `Session::onNewData` for one line. -/
inductive LineStep (W : Type) where
  /-- The line is `exit`: `onNewData` returns `true`. -/
  | exit
  /-- The copy in `log` ran out of bounds. -/
  | undefined
  /-- The line was executed and answered. -/
  | replied (r : Reply W)

/-- The end of the loop body of `Session::onNewData`: print and send
`response`. -/
def sendResponse {W : Type} (s : Session) (w : W) (response cerr : Str) : Reply W :=
  { session := s, world := w,
    peer := response ++ "\n".toList,
    cout := if response ≠ "".toList then response ++ "\n".toList else [],
    cerr := cerr }

/-- The body of the loop of `Session::onNewData` for the line `cmd`. -/
def Session.handleLine {W : Type} (sys : Sys W) (srv : ServerManager) (w : W) (s : Session)
    (cmd : Str) : LineStep W :=
  if cmd = "exit".toList then .exit
  else
    let out := s.execute sys srv w cmd
    match out.result with
    | .ok response => .replied (sendResponse out.session out.world response [])
    | .error what =>
      let err_cmd := cmd.takeWhile (fun c => c ≠ ' ')
      match log (err_cmd ++ "\n".toList) with
      | none => .undefined
      | some logged =>
        .replied (sendResponse out.session out.world
          ("Error: ".toList ++ err_cmd ++ ": ".toList ++ what ++ "\n".toList) logged)

/-- The result of `Session::onNewData`. -/
inductive Ending where
  /-- The value returned to the dispatcher. -/
  | returned (terminate : Bool)
  /-- The `GrassException` that escapes (thrown by `nextLine`). -/
  | threw (what : Str)
  /-- The copy in `log` ran out of bounds. -/
  | undefined
  /-- The bound on the number of iterations was reached. -/
  | unfinished
deriving DecidableEq, Repr

/-- State after `Session::onNewData`, with everything written so far. -/
structure NewData (W : Type) where
  ending : Ending
  session : Session
  world : W
  source : Source
  peer : Str
  cout : Str
  cerr : Str

/-- The loop of `Session::onNewData`; `fuel` bounds the number of
iterations. -/
def Session.onNewDataLoop {W : Type} (sys : Sys W) (srv : ServerManager) :
    Nat → Bool → W → Session → Source → Str → Str → Str → NewData W
  | 0, _, w, s, src, peer, cout, cerr => ⟨.unfinished, s, w, src, peer, cout, cerr⟩
  | fuel + 1, socket_closed, w, s, src, peer, cout, cerr =>
    let nl := s.buffer.nextLine socket_closed src
    let s1 : Session := { s with buffer := nl.rb }
    match nl.error with
    | some what => ⟨.threw what, s1, w, nl.source, peer, cout, cerr⟩
    | none =>
      match nl.line with
      | none => ⟨.returned nl.socket_closed, s1, w, nl.source, peer, cout, cerr⟩
      | some cmd =>
        match s1.handleLine sys srv w cmd with
        | .exit => ⟨.returned true, s1, w, nl.source, peer, cout, cerr⟩
        | .undefined => ⟨.undefined, s1, w, nl.source, peer, cout, cerr⟩
        | .replied r =>
          Session.onNewDataLoop sys srv fuel nl.socket_closed r.world r.session nl.source
            (peer ++ r.peer) (cout ++ r.cout) (cerr ++ r.cerr)

/-- The method `Session::onNewData`. Every line returned by `nextLine` removes
at least its newline from the bytes held by the buffer and the socket, so
`SIZE` plus the length of the stream bounds the number of iterations. -/
def Session.onNewData {W : Type} (sys : Sys W) (srv : ServerManager) (w : W) (s : Session)
    (src : Source) : NewData W :=
  Session.onNewDataLoop sys srv (SIZE + src.stream.length) false w s src [] [] []

/-! ## Sequences of lines and credential checks -/

/-- The arguments with which `Session::execute` calls `checkLogin` (through
`executePass`) when it executes `cmd` in the session `s`, if it does: the
control flow of `execute` down to the call of `executePass`. -/
def Session.credentialCheck (s : Session) (cmd : Str) : Option (Str × Str) :=
  if cmd.isEmpty then none
  else
    let args := splitArgs cmd
    if args.isEmpty then none
    else
      match s.state.login_attempt with
      | some attempt =>
        if args.getD 0 [] ≠ "pass".toList then none
        else if args.length < 2 then none
        else some (attempt, args.getD 1 [])
      | none => none

/-- The lines of a list executed one after the other by `Session::execute`:
the world and the session after the last one. -/
def Session.executeAll {W : Type} (sys : Sys W) (srv : ServerManager) :
    W → Session → List Str → W × Session
  | w, s, [] => (w, s)
  | w, s, cmd :: rest =>
    Session.executeAll sys srv (s.execute sys srv w cmd).world
      (s.execute sys srv w cmd).session rest

/-! ## Reachable working directories -/

/-- The working directories reachable from the empty one by successful `cd`
commands (`Session::executeCd` returning normally), in any session rooted at
`root` and whatever the state of the file system at each command. -/
inductive CdReachable {W : Type} (sys : Sys W) (root : Str) : List Str → Prop where
  | start : CdReachable sys root []
  | cd (s : Session) (w : W) (rel : Str) (cwd next : List Str) :
      CdReachable sys root cwd →
      s.directory = { root := root, path := cwd } →
      (∃ reply, (s.executeCd sys w rel).result = .ok reply) →
      (s.executeCd sys w rel).session.directory.path = next →
      CdReachable sys root next

/-- A word of a command line: not empty and free of white space. -/
def IsWord (u : Str) : Prop :=
  u ≠ [] ∧ ∀ c ∈ u, isspace c = false

instance (u : Str) : Decidable (IsWord u) := by
  unfold IsWord; infer_instance

/-- The string `valid_characters` of `Session::executeMkdir`. -/
def valid_characters : Str :=
  "abcdefghijklmnopqrstuvwxyzABCDEFGHIJKLMNOPQRSTUVWXYZ0123456789-_".toList

/-! ## A small concrete server, used to exercise the statements -/

/-- A file system in which every path names a directory, every sub-process
prints `out`, and every system call succeeds. -/
def demoSys : Sys Unit :=
  { stat := fun _ _ => .ok .directory,
    popen := fun _ _ => (some "out\n".toList, ()),
    mkdir := fun _ _ => (none, ()),
    fts_open := fun _ _ => true,
    fts_remove := fun _ _ => (),
    open_read := fun _ _ => some 3,
    fstat_size := fun _ _ => some 5,
    open_write := fun _ _ => (some 4, ()),
    transfer_run := fun _ _ _ _ => (.ok 4242, ()),
    search_directory := fun _ _ _ => .ok ["b".toList, "a".toList],
    date := fun _ => "now".toList }

/-- A server rooted at `/srv` with the single account `alice` / `secret` and
one other session, logged in as `bob`. -/
def demoServer : ServerManager :=
  { config :=
      { credentials := fun u => if u = "alice".toList then some "secret".toList else none,
        portNumber := 4000,
        directory := "/srv".toList },
    before := ["bob".toList],
    after := [] }

/-- A buffer holding `hi`, a carriage return and a newline across the end of
the array, followed by one more byte. -/
def demoRing : RingBuffer :=
  { read_idx := 4094, write_idx := 3,
    buf := fun i =>
      if i = 4094 then 'h' else if i = 4095 then 'i' else if i = 0 then '\r'
      else if i = 1 then '\n' else 'x' }

/-- The 4096 bytes of 2048 lines `a`. -/
def demoLines : Str :=
  (List.replicate 2048 "a\n".toList).flatten

/-- A fresh session of `demoServer`. -/
def demoSession : Session :=
  Session.new demoServer (fun _ => 'x')

/-- The demo session after the lines `login alice` and `pass secret`. -/
def demoAlice : Session :=
  ((demoSession.execute demoSys demoServer () "login alice".toList).session.execute
    demoSys demoServer () "pass secret".toList).session

/-- The session `demoAlice` after the further line `login bob`. -/
def demoAliceLoginBob : Session :=
  (demoAlice.execute demoSys demoServer () "login bob".toList).session

/-- A small disk: `/srv` is a directory, `/srv/docs` is a directory or, after
it was removed and a file of that name was stored, a regular file; the paths
opened for writing are recorded. -/
structure DemoDisk where
  docsIsDir : Bool
  opened : List Str
deriving DecidableEq, Repr

/-- The system calls over `DemoDisk`: `open` for writing fails on a directory
and succeeds elsewhere. -/
def demoDiskSys : Sys DemoDisk :=
  { stat := fun w p =>
      if p = "/srv".toList then .ok .directory
      else if p = "/srv/docs".toList then
        .ok (if w.docsIsDir then .directory else .regular)
      else .error .ENOENT,
    popen := fun w _ => (none, w),
    mkdir := fun w _ => (some .other, w),
    fts_open := fun _ _ => false,
    fts_remove := fun w _ => w,
    open_read := fun _ _ => none,
    fstat_size := fun _ _ => none,
    open_write := fun w p =>
      if p = "/srv".toList ∨ (p = "/srv/docs".toList ∧ w.docsIsDir = true) then (none, w)
      else (some 4, { w with opened := w.opened ++ [p] }),
    transfer_run := fun w _ _ _ => (.ok 4242, w),
    search_directory := fun _ _ _ => .ok [],
    date := fun _ => [] }

/-- The session `demoAlice` after `cd docs`, executed while `/srv/docs` was a
directory. -/
def demoAliceInDocs : Session :=
  (demoAlice.execute demoDiskSys demoServer { docsIsDir := true, opened := [] }
    "cd docs".toList).session

/-! ## FileTransfer (filetransfer.cpp) -/

/-- The constant `BUFFER_SIZE` of filetransfer.cpp. -/
def BUFFER_SIZE : Nat := 4096

/-- The `while (received_bytes > 0)` loop of the put branch of
`FileTransfer::transferWorker`: `bs` holds the bytes of the last `read`
(`received_bytes` of them), `total` is `total_bytes`, `written` the bytes written
to the file so far. Each further `read(data_socket, buf, sizeof(buf))` takes the
next entry of the script; the loop ends when a `read` returns no byte (end of
file, error, or nothing more ever arrives). -/
def transferPutLoop (file_size : Nat) (bs : Str) (total : Nat) (written stream : Str) :
    List SysRead → Str × Source
  | [] =>
    if 0 < bs.length then (written ++ bs, ⟨stream, []⟩) else (written, ⟨stream, []⟩)
  | ev :: rest =>
    if 0 < bs.length then
      if total + bs.length ≥ file_size then (written ++ bs, ⟨stream, ev :: rest⟩)
      else
        match sysRead ev stream BUFFER_SIZE with
        | (.received bs1, stream1) =>
          transferPutLoop file_size bs1 (total + bs.length) (written ++ bs) stream1 rest
        | (_, stream1) => (written ++ bs, ⟨stream1, rest⟩)
    else (written, ⟨stream, ev :: rest⟩)

/-- State after `FileTransfer::transferWorker`: the bytes written to the file
(put), the bytes sent to the peer (get), and the data socket. -/
structure Transferred where
  written : Str
  sent : Str
  source : Source

/-- The method `FileTransfer::transferWorker` once the peer is connected, over
the content `file` of the open file and the data socket `src`. For get,
`sendfile` sends the first `file_size` bytes of the file. For put, the first
`read` asks 4200 bytes for the array `buf` of `BUFFER_SIZE` bytes: the result is
`none` when more bytes than the array holds are stored. (The `printf` of
`strlen(buf)` is left out.) -/
def transferWorker (file_size : Nat) (is_get : Bool) (file : Str) (src : Source) :
    Option Transferred :=
  if is_get then some ⟨[], file.take file_size, src⟩
  else
    match src.script with
    | [] => some ⟨[], [], src⟩
    | ev :: rest =>
      match sysRead ev src.stream 4200 with
      | (.received bs, stream1) =>
        if bs.length > BUFFER_SIZE then none
        else
          let r := transferPutLoop file_size bs 0 [] stream1 rest
          some ⟨r.1, [], r.2⟩
      | (_, stream1) => some ⟨[], [], ⟨stream1, rest⟩⟩

/-! ## Config::parseFromFile (config.cpp) -/

/-- The call `s.find(pat)`: the first position at which `pat` occurs in `s`,
`none` for `npos`. -/
def find (pat : Str) : Str → Option Nat
  | [] => if pat = [] then some 0 else none
  | c :: t =>
    if pat.isPrefixOf (c :: t) then some 0
    else (find pat t).map (fun i => i + 1)

/-- The method `Config::removeComments`. -/
def Config.removeComments (line : Str) : Str :=
  match find "#".toList line with
  | some index => line.take index
  | none => line

/-- The call `std::stoi(s)`: leading white space, an optional sign, then the
longest run of decimal digits; `none` when it throws (no digit, or a value
outside the range of `int`). -/
def stoi (s : Str) : Option Int :=
  let s1 := s.dropWhile isspace
  let neg := s1.head? = some '-'
  let s2 := if s1.head? = some '-' ∨ s1.head? = some '+' then s1.drop 1 else s1
  let digits := s2.takeWhile Char.isDigit
  let value : Int := digits.foldl (fun acc c => 10 * acc + ((c.toNat - '0'.toNat : Nat) : Int)) 0
  if digits = [] then none
  else
    let v : Int := if neg then - value else value
    if v < - 2 ^ 31 ∨ v > 2 ^ 31 - 1 then none else some v

/-- The local variables `directory`, `credentials` and `port` of
`Config::parseFromFile`. -/
structure ConfigVars where
  directory : Str
  credentials : Str → Option Str
  port : Int

/-- One iteration of the loop of `Config::parseFromFile`, on the line read by
`getline`. With `index == npos`, `substr(0, index)` is the whole line and
`substr(index + 1)` is `substr(0)`, the whole line again. -/
def Config.parseLine (vars : ConfigVars) (line0 : Str) : ConfigVars :=
  let line := Config.removeComments line0
  let vars1 : ConfigVars :=
    if find "base ".toList line = some 0 then { vars with directory := line.drop 5 } else vars
  let vars2 : ConfigVars :=
    if find "port ".toList line = some 0 then
      { vars1 with port := (stoi (line.drop 5)).getD (-1) }
    else vars1
  if find "user ".toList line = some 0 then
    let line := line.drop 5
    let index := find " ".toList line
    if ¬ (index = some 0 ∨ index = some line.length) then
      let username := match index with
        | some i => line.take i
        | none => line
      let password := match index with
        | some i => line.drop (i + 1)
        | none => line
      if find " ".toList password = none then
        { vars2 with
          credentials := fun u => if u = username then some password else vars2.credentials u }
      else vars2
    else vars2
  else vars2

/-- The method `Config::parseFromFile`, over the text of the file (the empty
text when the file cannot be opened). -/
def Config.parseFromFile (text : Str) : Except Str Config :=
  let vars := (tokensOf '\n' text).foldl Config.parseLine ⟨[], fun _ => none, -1⟩
  if vars.port > 65535 ∨ vars.port < 0 then .error "Port number out of range".toList
  else if vars.directory = [] then
    .error "Invalid config file: base directory should be specified".toList
  else .ok ⟨vars.credentials, vars.port.toNat, vars.directory⟩

/-! ## The last call of `nextLine` made by `onNewData` -/

/-- A line of 4095 bytes `a` followed by its newline. -/
def demoLongLine : Str :=
  List.replicate 4095 'a' ++ ['\n']

/-- A configuration file whose second `user` line carries only a name. -/
def demoConfigText : Str :=
  "base /srv\nport 4000\nuser alice secret\nuser bob\n".toList

/-- Successive calls of `RingBuffer::nextLine` on the same socket, as the
dispatcher makes them each time the socket is ready: the result of the first
call that returns a line or throws, or of call number `n + 1`. -/
def RingBuffer.nextLineRepeat : Nat → RingBuffer → Bool → Source → NextLine
  | 0, rb, socket_closed, src => rb.nextLine socket_closed src
  | n + 1, rb, socket_closed, src =>
    let nl := rb.nextLine socket_closed src
    if nl.line.isSome ∨ nl.error.isSome then nl
    else RingBuffer.nextLineRepeat n nl.rb nl.socket_closed nl.source

/-- A buffer holding 4095 bytes `a`: it is full and holds no newline. -/
def demoFullRing : RingBuffer :=
  { read_idx := 0, write_idx := 4095, buf := fun _ => 'a' }

/-- The demo session with the buffer `demoFullRing`. -/
def demoFullSession : Session :=
  { demoSession with buffer := demoFullRing }

/-- A peer that sends 4095 bytes `a` and then `a`, a newline and the line
`exit`, received in two reads. -/
def demoFlood : Source :=
  ⟨List.replicate 4095 'a' ++ "a\nexit\n".toList, [.ready 4095, .ready 7]⟩

/-- System calls over a world that records the sizes handed to
`FileTransfer::run`; everything else as in `demoSys`. -/
def demoSizeSys : Sys (List Nat) :=
  { stat := fun _ _ => .ok .directory,
    popen := fun w _ => (some "out\n".toList, w),
    mkdir := fun w _ => (none, w),
    fts_open := fun _ _ => true,
    fts_remove := fun w _ => w,
    open_read := fun _ _ => some 3,
    fstat_size := fun _ _ => some 5,
    open_write := fun w _ => (some 4, w),
    transfer_run := fun w _ size _ => (.ok 4242, w ++ [size]),
    search_directory := fun _ _ _ => .ok [],
    date := fun _ => "now".toList }

end grass

/-! # Theorems -/

namespace grass

/-! ## Path tokenizing -/

theorem TokenizeStep_nil (acc : List Str) : TokenizeStep acc [] = .ok acc := by
  simp [TokenizeStep]

theorem TokenizeLoop_cons_nil (acc : List Str) (ts : List Str) :
    TokenizeLoop acc ([] :: ts) = TokenizeLoop acc ts := by
  simp [TokenizeLoop, TokenizeStep_nil]

theorem TokenizeStep_eq (acc : List Str) (t : Str) :
    TokenizeStep acc t =
      if (t == ['.', '.'] && acc.isEmpty) = true then .error "Access denied".toList
      else .ok (segStep acc t) := by
  unfold TokenizeStep segStep
  by_cases h1 : t = [] ∨ t = ['.']
  · rcases h1 with h1 | h1 <;> subst h1 <;> simp
  · have h1a : ¬ (t = "".toList ∨ t = ".".toList) := h1
    rw [if_neg h1a, if_neg h1]
    by_cases h2 : t = ['.', '.']
    · have h2a : t = "..".toList := h2
      rw [if_pos h2a, if_pos h2]
      cases acc <;> simp [h2]
    · have h2a : ¬ t = "..".toList := h2
      rw [if_neg h2a, if_neg h2]
      simp [h2]

theorem TokenizeLoop_eq (toks : List Str) (acc : List Str) :
    TokenizeLoop acc toks =
      if escapes acc toks = true then .error "Access denied".toList
      else .ok (toks.foldl segStep acc) := by
  induction toks generalizing acc with
  | nil => simp [TokenizeLoop, escapes]
  | cons t ts ih =>
    rw [TokenizeLoop, TokenizeStep_eq]
    by_cases h : (t == ['.', '.'] && acc.isEmpty) = true
    · simp [escapes, h]
    · simp only [h, if_false, escapes, Bool.false_or, List.foldl_cons, Bool.false_eq_true]
      exact ih _

theorem TokenizeLoop_tokensFrom (s : Str) (cur : Str) (acc : List Str) :
    TokenizeLoop acc (tokensFrom '/' cur s) =
      TokenizeLoop acc (List.modifyHead (fun x => cur ++ x) (s.splitOn '/')) := by
  induction s generalizing cur acc with
  | nil =>
    simp only [tokensFrom, List.splitOn, List.splitOnP_nil, List.modifyHead, List.append_nil]
    by_cases h : cur = []
    · subst h; simp [TokenizeLoop_cons_nil]
    · simp [h]
  | cons c cs ih =>
    simp only [tokensFrom, List.splitOn, List.splitOnP_cons]
    by_cases h : c = '/'
    · subst h
      simp only [if_true, beq_self_eq_true, List.modifyHead, List.append_nil]
      have h0 := fun a => ih [] a
      simp only [List.splitOn, List.nil_append] at h0
      have hid : List.modifyHead (fun x : Str => x) (List.splitOnP (fun x => x == '/') cs)
          = List.splitOnP (fun x => x == '/') cs := by
        cases List.splitOnP (fun x => x == '/') cs <;> rfl
      rw [hid] at h0
      simp only [TokenizeLoop]
      cases TokenizeStep acc cur with
      | error e => rfl
      | ok nxt => exact h0 nxt
    · have hb : (c == '/') = false := by simpa using h
      simp only [if_neg h, hb, Bool.false_eq_true, if_false]
      rw [ih]
      simp only [List.splitOn]
      congr 1
      cases List.splitOnP (fun x => x == '/') cs <;> simp [List.modifyHead]

/-- C2: `Directory::TokenizePath` coincides with the reference definition
(split on `/`, fold from the current working directory, skipping empty and `.`
tokens, popping on `..`, pushing the rest); it fails, with "Access denied", if
and only if the argument begins with `/` or a `..` token is reached while the
accumulated vector is empty, and otherwise returns the folded vector. The
directory is only read: the function has no other result. -/
theorem TokenizePath_eq_reference (d : Directory) (rel : Str) :
    d.TokenizePath rel = TokenizePathRef d.path rel ∧
    ((∃ e, d.TokenizePath rel = .error e) ↔
      (rel.head? = some '/' ∨ escapes d.path (rel.splitOn '/') = true)) ∧
    (∀ e, d.TokenizePath rel = .error e → e = "Access denied".toList) ∧
    (¬ (rel.head? = some '/' ∨ escapes d.path (rel.splitOn '/') = true) →
      d.TokenizePath rel = .ok ((rel.splitOn '/').foldl segStep d.path)) := by
  have key : d.TokenizePath rel = TokenizePathRef d.path rel := by
    unfold Directory.TokenizePath TokenizePathRef tokensOf
    by_cases h : rel.head? = some '/'
    · have hl : rel.length ≥ 1 := by
        cases rel with
        | nil => simp at h
        | cons a l => simp
      simp [h, hl]
    · rw [if_neg (fun hh => h hh.2), TokenizeLoop_tokensFrom, TokenizeLoop_eq]
      have hid : List.modifyHead (fun x : Str => [] ++ x) (rel.splitOn '/') = rel.splitOn '/' := by
        cases rel.splitOn '/' <;> simp [List.modifyHead]
      rw [hid]
      simp [h]
  refine ⟨key, ?_, ?_, ?_⟩
  · rw [key]; unfold TokenizePathRef
    by_cases h : rel.head? = some '/' ∨ escapes d.path (rel.splitOn '/') = true
    · simp only [h, if_true, iff_true]; exact ⟨_, rfl⟩
    · simp only [h, if_false, iff_false]; rintro ⟨e, he⟩; cases he
  · intro e he
    rw [key] at he; unfold TokenizePathRef at he
    by_cases h : rel.head? = some '/' ∨ escapes d.path (rel.splitOn '/') = true
    · rw [if_pos h] at he; cases he; rfl
    · rw [if_neg h] at he; cases he
  · intro h
    rw [key]; unfold TokenizePathRef; rw [if_neg h]

end grass

namespace grass

/-! ## Sandbox closure -/

theorem tokensFrom_no_delim (s : Str) (cur : Str) (hcur : '/' ∉ cur) :
    ∀ t ∈ tokensFrom '/' cur s, '/' ∉ t := by
  induction s generalizing cur with
  | nil =>
    intro t ht
    simp only [tokensFrom] at ht
    by_cases h : cur = []
    · simp [h] at ht
    · simp [h] at ht; subst ht; exact hcur
  | cons c cs ih =>
    intro t ht
    simp only [tokensFrom] at ht
    by_cases h : c = '/'
    · simp only [h, if_true, List.mem_cons] at ht
      rcases ht with ht | ht
      · subst ht; exact hcur
      · exact ih [] (by simp) t ht
    · rw [if_neg h] at ht
      refine ih (cur ++ [c]) ?_ t ht
      simp only [List.mem_append, List.mem_singleton, not_or]
      exact ⟨hcur, fun hc => h hc.symm⟩

theorem TokenizeStep_good (acc v : List Str) (t : Str)
    (hacc : ∀ x ∈ acc, GoodSegment x) (ht : '/' ∉ t)
    (h : TokenizeStep acc t = .ok v) : ∀ x ∈ v, GoodSegment x := by
  rw [TokenizeStep_eq] at h
  by_cases hc : (t == ['.', '.'] && acc.isEmpty) = true
  · rw [if_pos hc] at h; cases h
  · rw [if_neg hc] at h
    injection h with h
    subst h
    unfold segStep
    by_cases h1 : t = [] ∨ t = ['.']
    · rw [if_pos h1]; exact hacc
    · rw [if_neg h1]
      by_cases h2 : t = ['.', '.']
      · rw [if_pos h2]
        intro x hx
        exact hacc x (List.mem_of_mem_dropLast hx)
      · rw [if_neg h2]
        intro x hx
        rcases List.mem_append.mp hx with hx | hx
        · exact hacc x hx
        · have hxt : x = t := by simpa using hx
          subst hxt
          exact ⟨fun e => h1 (Or.inl e), fun e => h1 (Or.inr e), h2, ht⟩

theorem TokenizeLoop_good (toks : List Str) (acc v : List Str)
    (hacc : ∀ x ∈ acc, GoodSegment x) (ht : ∀ t ∈ toks, '/' ∉ t)
    (h : TokenizeLoop acc toks = .ok v) : ∀ x ∈ v, GoodSegment x := by
  induction toks generalizing acc with
  | nil =>
    simp only [TokenizeLoop] at h
    injection h with h
    subst h; exact hacc
  | cons t ts ih =>
    simp only [TokenizeLoop] at h
    cases hs : TokenizeStep acc t with
    | error e => rw [hs] at h; cases h
    | ok nxt =>
      rw [hs] at h
      exact ih nxt (TokenizeStep_good acc nxt t hacc (ht t (by simp)) hs)
        (fun t1 h1 => ht t1 (List.mem_cons_of_mem _ h1)) h

theorem TokenizePath_good (d : Directory) (rel : Str) (v : List Str)
    (hd : ∀ x ∈ d.path, GoodSegment x) (h : d.TokenizePath rel = .ok v) :
    ∀ x ∈ v, GoodSegment x := by
  unfold Directory.TokenizePath at h
  by_cases hc : rel.length ≥ 1 ∧ rel.head? = some '/'
  · rw [if_pos hc] at h; cases h
  · rw [if_neg hc] at h
    exact TokenizeLoop_good _ _ _ hd (tokensFrom_no_delim rel [] (by simp)) h

theorem foldl_segments (v : List Str) (acc : Str) :
    v.foldl (fun acc dir => acc ++ ("/".toList ++ dir)) acc = acc ++ segmentsText v := by
  induction v generalizing acc with
  | nil => simp [segmentsText]
  | cons seg rest ih =>
    rw [List.foldl_cons, ih]
    simp [segmentsText, String.toList]

theorem PathFromVector_eq (d : Directory) (v : List Str) (p : Str)
    (h : d.PathFromVector v = .ok p) : p = d.root ++ segmentsText v := by
  unfold Directory.PathFromVector at h
  simp only [foldl_segments] at h
  by_cases hc : (d.root ++ segmentsText v).length > MAX_PATH_LENGTH
  · rw [if_pos hc] at h; cases h
  · rw [if_neg hc] at h
    injection h with h
    exact h.symm

theorem PathFromRoot_eq (d : Directory) (rel p : Str) (h : d.PathFromRoot rel = .ok p) :
    ∃ v, d.TokenizePath rel = .ok v ∧ p = d.root ++ segmentsText v := by
  unfold Directory.PathFromRoot at h
  by_cases hc : rel.length ≥ 1 ∧ rel.head? = some '/'
  · rw [if_pos hc] at h; cases h
  · rw [if_neg hc] at h
    cases ht : d.TokenizePath rel with
    | error e => rw [ht] at h; cases h
    | ok v =>
      rw [ht] at h
      exact ⟨v, rfl, PathFromVector_eq d v p h⟩

theorem executeCd_ok {W : Type} (sys : Sys W) (w : W) (s : Session) (rel reply : Str)
    (h : (s.executeCd sys w rel).result = .ok reply) :
    ∃ v, s.directory.TokenizePath rel = .ok v ∧
      (s.executeCd sys w rel).session.directory = s.directory.Update v := by
  unfold Session.executeCd at h ⊢
  cases ht : s.directory.TokenizePath rel with
  | error e => rw [ht] at h; cases h
  | ok v =>
    simp only [ht] at h ⊢
    cases hp : s.directory.PathFromVector v with
    | error e => rw [hp] at h; cases h
    | ok ps =>
      simp only [hp] at h ⊢
      cases hs : Stat sys w ps with
      | error e => rw [hs] at h; cases h
      | ok m =>
        simp only [hs] at h ⊢
        by_cases hm : m ≠ .directory
        · rw [if_pos hm] at h; cases h
        · rw [if_neg hm]
          exact ⟨v, rfl, rfl⟩

theorem CdReachable_good {W : Type} (sys : Sys W) (root : Str) (cwd : List Str)
    (h : CdReachable sys root cwd) : ∀ seg ∈ cwd, GoodSegment seg := by
  induction h with
  | start => intro seg hs; cases hs
  | cd s w rel cwd next _ hdir hok hnext ih =>
    obtain ⟨reply, hreply⟩ := hok
    obtain ⟨v, hv, hupd⟩ := executeCd_ok sys w s rel reply hreply
    rw [hupd] at hnext
    simp only [Directory.Update] at hnext
    subst hnext
    refine TokenizePath_good s.directory rel v ?_ hv
    rw [hdir]; exact ih

/-- C1 (sandbox closure): for every root and every working directory reachable
from the empty one by successful `cd` commands, the working directory consists
of proper segments (not empty, not `.`, not `..`, without `/`), and every path
returned by `Directory::PathFromRoot` for a client-supplied relative path is
the root followed by `/` + segment for a list of proper segments, hence lies
lexically under the root; so is the path of the working directory itself. -/
theorem sandbox_closure {W : Type} (sys : Sys W) (root : Str) (cwd : List Str)
    (h : CdReachable sys root cwd) :
    (∀ seg ∈ cwd, GoodSegment seg) ∧
    (∀ p, ({ root := root, path := cwd } : Directory).PathFromVector cwd = .ok p →
      p = root ++ segmentsText cwd) ∧
    ∀ rel p, ({ root := root, path := cwd } : Directory).PathFromRoot rel = .ok p →
      ∃ segs : List Str, (∀ seg ∈ segs, GoodSegment seg) ∧ p = root ++ segmentsText segs := by
  have hgood := CdReachable_good sys root cwd h
  refine ⟨hgood, ?_, ?_⟩
  · intro p hp
    exact PathFromVector_eq _ cwd p hp
  · intro rel p hp
    obtain ⟨v, hv, hpv⟩ := PathFromRoot_eq _ rel p hp
    exact ⟨v, TokenizePath_good _ rel v hgood hv, hpv⟩

end grass

namespace grass

/-- Witness for C1: after `cd a` under `/srv`, the relative path `b/../c`
resolves to `/srv/a/c`. -/
theorem sandbox_closure_witness :
    ∃ segs : List Str, (∀ seg ∈ segs, GoodSegment seg) ∧
      "/srv/a/c".toList = "/srv".toList ++ segmentsText segs :=
  (sandbox_closure demoSys "/srv".toList ["a".toList]
    (CdReachable.cd demoSession () "a".toList [] ["a".toList] CdReachable.start rfl
      ⟨_, rfl⟩ rfl)).2.2
    "b/../c".toList "/srv/a/c".toList (by decide)

end grass

namespace grass

/-! ## Session state machine -/

theorem wordsFrom_append_word (u : Str) (hu : ∀ c ∈ u, isspace c = false) (cur rest : Str) :
    wordsFrom cur (u ++ rest) = wordsFrom (cur ++ u) rest := by
  induction u generalizing cur with
  | nil => simp
  | cons c cs ih =>
    have hc : isspace c = false := hu c (by simp)
    have hcons : (c :: cs) ++ rest = c :: (cs ++ rest) := rfl
    rw [hcons]
    simp only [wordsFrom, hc, Bool.false_eq_true, if_false]
    rw [ih (fun x hx => hu x (List.mem_cons_of_mem _ hx))]
    simp

theorem splitArgs_two (a u : Str) (ha : IsWord a) (hu : IsWord u) :
    splitArgs (a ++ ' ' :: u) = [a, u] := by
  unfold splitArgs
  rw [wordsFrom_append_word a ha.2]
  have hsp : isspace ' ' = true := by decide
  simp only [List.nil_append, wordsFrom, hsp, if_true, if_neg ha.1]
  have h2 := wordsFrom_append_word u hu.2 [] []
  simp only [List.append_nil, List.nil_append] at h2
  rw [h2]
  simp [wordsFrom, hu.1]

theorem execute_of_args {W : Type} (sys : Sys W) (srv : ServerManager) (w : W) (s : Session)
    (cmd c : Str) (rest : List Str) (h : splitArgs cmd = c :: rest) :
    s.execute sys srv w cmd =
      match s.state.login_attempt with
      | some attempt =>
        if c ≠ "pass".toList then
          ⟨.ok "Login interrupted".toList,
           { s with state := { s.state with login_attempt := none } }, w⟩
        else if (c :: rest).length < 2 then ⟨.ok "Missing password".toList, s, w⟩
        else s.executePass srv w attempt ((c :: rest).getD 1 [])
      | none =>
        if c = "login".toList then
          if (c :: rest).length < 2 then ⟨.ok "Missing username".toList, s, w⟩
          else
            ⟨.ok "".toList,
             { s with state :=
                { s.state with login_attempt := some ((c :: rest).getD 1 []) } }, w⟩
        else if c = "ping".toList then
          if (c :: rest).length < 2 then ⟨.ok "Missing host".toList, s, w⟩
          else s.executePing sys w ((c :: rest).getD 1 [])
        else if c = "exit".toList then ⟨.ok "".toList, s, w⟩
        else if c ∈ PRIVILEGED_COMMANDS then
          (if s.state.username.isSome then s.executePrivileged sys srv w (c :: rest)
           else ⟨.error "Access denied".toList, s, w⟩)
        else ⟨.error "Invalid command".toList, s, w⟩ := by
  have hne : cmd.isEmpty = false := by
    cases cmd with
    | nil => simp [splitArgs, wordsFrom] at h
    | cons a l => rfl
  unfold Session.execute
  simp only [hne, h, Bool.false_eq_true, if_false, List.isEmpty_cons, List.getD_cons_zero]

theorem head_args (cmd c : Str) (h : (splitArgs cmd).head? = some c) :
    ∃ rest, splitArgs cmd = c :: rest := by
  cases hs : splitArgs cmd with
  | nil => rw [hs] at h; cases h
  | cons a l =>
    rw [hs] at h
    simp only [List.head?_cons, Option.some.injEq] at h
    exact ⟨l, by rw [h]⟩

theorem privileged_not_special (c : Str) (hp : c ∈ PRIVILEGED_COMMANDS) :
    c ≠ "login".toList ∧ c ≠ "ping".toList ∧ c ≠ "exit".toList ∧ c ≠ "pass".toList := by
  simp only [PRIVILEGED_COMMANDS, List.mem_cons, List.mem_singleton, List.not_mem_nil,
    or_false] at hp
  rcases hp with h | h | h | h | h | h | h | h | h | h | h <;> subst h <;> decide

theorem execute_anonymous_privileged {W : Type} (sys : Sys W) (srv : ServerManager) (w : W)
    (s : Session) (line c : Str)
    (hu : s.state.username = none) (hl : s.state.login_attempt = none)
    (hc : (splitArgs line).head? = some c) (hp : c ∈ PRIVILEGED_COMMANDS) :
    s.execute sys srv w line = ⟨.error "Access denied".toList, s, w⟩ := by
  obtain ⟨rest, hargs⟩ := head_args line c hc
  obtain ⟨h1, h2, h3, _⟩ := privileged_not_special c hp
  rw [execute_of_args sys srv w s line c rest hargs, hl]
  simp only [if_neg h1, if_neg h2, if_neg h3, if_pos hp, hu, Option.isSome_none,
    Bool.false_eq_true, if_false]

/-- C3: in the Anonymous state (no authenticated user, no pending login) every
line whose first token is one of the eleven privileged commands makes
`Session::execute` throw "Access denied", leaving the session (state and
working directory) and the world unchanged; for the line `ls` the bytes
written to the peer are exactly "Error: ls: Access denied" followed by two
newlines. -/
theorem anonymous_privileged_denied {W : Type} (sys : Sys W) (srv : ServerManager) (w : W)
    (s : Session) (line c : Str)
    (hu : s.state.username = none) (hl : s.state.login_attempt = none)
    (hc : (splitArgs line).head? = some c) (hp : c ∈ PRIVILEGED_COMMANDS) :
    s.execute sys srv w line = ⟨.error "Access denied".toList, s, w⟩ ∧
    ∃ r, s.handleLine sys srv w "ls".toList = .replied r ∧
      r.peer = "Error: ls: Access denied\n\n".toList ∧ r.session = s ∧ r.world = w := by
  refine ⟨execute_anonymous_privileged sys srv w s line c hu hl hc hp, ?_⟩
  have hls := execute_anonymous_privileged sys srv w s "ls".toList "ls".toList hu hl
    (by decide) (by decide)
  have hne : ¬ ("ls".toList = "exit".toList) := by decide
  unfold Session.handleLine
  rw [if_neg hne, hls]
  exact ⟨_, rfl, rfl, rfl, rfl⟩

/-- Witness for C3: a fresh session receiving `cd ..`. -/
theorem anonymous_privileged_denied_witness :
    demoSession.execute demoSys demoServer () "cd ..".toList =
        ⟨.error "Access denied".toList, demoSession, ()⟩ ∧
    ∃ r, demoSession.handleLine demoSys demoServer () "ls".toList = .replied r ∧
      r.peer = "Error: ls: Access denied\n\n".toList ∧ r.session = demoSession ∧ r.world = () :=
  anonymous_privileged_denied demoSys demoServer () demoSession "cd ..".toList "cd".toList
    rfl rfl (by decide) (by decide)

end grass

namespace grass

/-! ## Login -/

theorem checkLogin_iff (srv : ServerManager) (u p : Str) :
    srv.checkLogin u p = true ↔ srv.config.credentials u = some p := by
  unfold ServerManager.checkLogin Config.checkLogin
  cases h : srv.config.credentials u with
  | none => simp
  | some pw => simp

theorem execute_login {W : Type} (sys : Sys W) (srv : ServerManager) (w : W) (s : Session)
    (u : Str) (hu : IsWord u) (hl : s.state.login_attempt = none) :
    s.execute sys srv w ("login ".toList ++ u) =
      ⟨.ok [], { s with state := { s.state with login_attempt := some u } }, w⟩ := by
  have hargs : splitArgs ("login ".toList ++ u) = ["login".toList, u] :=
    splitArgs_two "login".toList u (by decide) hu
  rw [execute_of_args sys srv w s _ _ _ hargs, hl]
  simp

theorem execute_pass {W : Type} (sys : Sys W) (srv : ServerManager) (w : W) (s : Session)
    (u p : Str) (hp : IsWord p) (hl : s.state.login_attempt = some u) :
    s.execute sys srv w ("pass ".toList ++ p) =
      if srv.config.credentials u = some p then
        ⟨.ok [], { s with state := { username := some u, login_attempt := none } }, w⟩
      else
        ⟨.ok "Wrong credentials".toList,
         { s with state := { s.state with login_attempt := none } }, w⟩ := by
  have hargs : splitArgs ("pass ".toList ++ p) = ["pass".toList, p] :=
    splitArgs_two "pass".toList p (by decide) hp
  rw [execute_of_args sys srv w s _ _ _ hargs, hl]
  simp only [ne_eq, not_true_eq_false, if_false, List.length_cons, List.length_nil]
  unfold Session.executePass
  by_cases hc : srv.config.credentials u = some p
  · have hck : srv.checkLogin u p = true := (checkLogin_iff srv u p).2 hc
    simp [hc, hck, hl]
  · have hck : srv.checkLogin u p = false := by
      cases h : srv.checkLogin u p with
      | false => rfl
      | true => exact absurd ((checkLogin_iff srv u p).1 h) hc
    simp [hc, hck]

theorem execute_whoami {W : Type} (sys : Sys W) (srv : ServerManager) (w : W) (s : Session)
    (u : Str) (hu : s.state.username = some u) (hl : s.state.login_attempt = none) :
    s.execute sys srv w "whoami".toList = ⟨.ok u, s, w⟩ := by
  have hargs : splitArgs "whoami".toList = ["whoami".toList] := by decide
  rw [execute_of_args sys srv w s _ _ _ hargs, hl]
  have h1 : ¬ ("whoami".toList = "login".toList) := by decide
  have h2 : ¬ ("whoami".toList = "ping".toList) := by decide
  have h3 : ¬ ("whoami".toList = "exit".toList) := by decide
  have h4 : "whoami".toList ∈ PRIVILEGED_COMMANDS := by decide
  simp only [if_neg h1, if_neg h2, if_neg h3, if_pos h4, hu, Option.isSome_some, if_true]
  unfold Session.executePrivileged
  have g1 : ¬ ("whoami".toList = "ls".toList) := by decide
  have g2 : ¬ ("whoami".toList = "cd".toList) := by decide
  have g3 : ¬ ("whoami".toList = "mkdir".toList) := by decide
  have g4 : ¬ ("whoami".toList = "rm".toList) := by decide
  have g5 : ¬ ("whoami".toList = "get".toList) := by decide
  have g6 : ¬ ("whoami".toList = "put".toList) := by decide
  have g7 : ¬ ("whoami".toList = "grep".toList) := by decide
  have g8 : ¬ ("whoami".toList = "date".toList) := by decide
  simp only [List.getD_cons_zero, if_neg g1, if_neg g2, if_neg g3, if_neg g4, if_neg g5,
    if_neg g6, if_neg g7, if_neg g8, if_true]
  unfold Session.executeWhoami Session.username
  simp [hu]

/-- C4 (amended): for every user name `u` and password `p` that are words,
`login u` in the Anonymous state gives an empty reply and the state
AwaitingPassword(u); `pass p` then gives an empty reply and the state
Authenticated(u) if and only if the credential table maps `u` to `p`; after
that `whoami` returns exactly `u`, and the bytes written to the peer are `u`
followed by ONE newline (the session, the world and the working directory
being otherwise unchanged). -/
theorem login_success {W : Type} (sys : Sys W) (srv : ServerManager) (w : W) (s : Session)
    (u p : Str) (hu : IsWord u) (hp : IsWord p)
    (hanon : s.state = { username := none, login_attempt := none }) :
    s.execute sys srv w ("login ".toList ++ u) =
      ⟨.ok [], { s with state := { username := none, login_attempt := some u } }, w⟩ ∧
    (((({ s with state := { username := none, login_attempt := some u } } : Session).execute
          sys srv w ("pass ".toList ++ p)) =
        ⟨.ok [], { s with state := { username := some u, login_attempt := none } }, w⟩) ↔
      srv.config.credentials u = some p) ∧
    (({ s with state := { username := some u, login_attempt := none } } : Session).execute
        sys srv w "whoami".toList).result = .ok u ∧
    ∃ r, ({ s with state := { username := some u, login_attempt := none } } : Session).handleLine
        sys srv w "whoami".toList = .replied r ∧ r.peer = u ++ ['\n'] ∧
      r.session = { s with state := { username := some u, login_attempt := none } } := by
  have hl : s.state.login_attempt = none := by rw [hanon]
  refine ⟨?_, ?_, ?_, ?_⟩
  · rw [execute_login sys srv w s u hu hl, hanon]
  · rw [execute_pass sys srv w _ u p hp rfl]
    by_cases hc : srv.config.credentials u = some p
    · simp [hc]
    · simp only [hc, if_false, iff_false]
      intro h
      have h2 := congrArg Outcome.result h
      simp only [Except.ok.injEq] at h2
      exact absurd h2 (by decide)
  · rw [execute_whoami sys srv w _ u rfl rfl]
  · have hne : ¬ ("whoami".toList = "exit".toList) := by decide
    unfold Session.handleLine
    rw [if_neg hne, execute_whoami sys srv w _ u rfl rfl]
    exact ⟨_, rfl, rfl, rfl⟩

/-- Witness for C4: `login alice`, `pass secret`, `whoami` on the demo
server. -/
theorem login_success_witness :
    demoSession.execute demoSys demoServer () "login alice".toList =
      ⟨.ok [], { demoSession with
        state := { username := none, login_attempt := some "alice".toList } }, ()⟩ ∧
    (((({ demoSession with state := { username := none, login_attempt := some "alice".toList } }
          : Session).execute demoSys demoServer () "pass secret".toList) =
        ⟨.ok [], { demoSession with
          state := { username := some "alice".toList, login_attempt := none } }, ()⟩) ↔
      demoServer.config.credentials "alice".toList = some "secret".toList) ∧
    (({ demoSession with state := { username := some "alice".toList, login_attempt := none } }
        : Session).execute demoSys demoServer () "whoami".toList).result = .ok "alice".toList ∧
    ∃ r, ({ demoSession with state := { username := some "alice".toList, login_attempt := none } }
        : Session).handleLine demoSys demoServer () "whoami".toList = .replied r ∧
      r.peer = "alice\n".toList ∧
      r.session = { demoSession with
        state := { username := some "alice".toList, login_attempt := none } } :=
  login_success demoSys demoServer () demoSession "alice".toList "secret".toList
    (by decide) (by decide) rfl

/-- Counterexample to C4 as stated: after `login alice` and `pass secret` on
the demo server, the bytes written for `whoami` are `alice` and one newline,
not `alice` and two newlines. Besides, for the empty user name the line
`login ` is answered "Missing username" and no login becomes pending. -/
theorem whoami_wire_counterexample :
    (∃ r, (((demoSession.execute demoSys demoServer () "login alice".toList).session.execute
        demoSys demoServer () "pass secret".toList).session.handleLine
        demoSys demoServer () "whoami".toList) = .replied r ∧
      r.session.state = { username := some "alice".toList, login_attempt := none } ∧
      r.peer = "alice\n".toList ∧ r.peer ≠ "alice\n\n".toList) ∧
    (demoSession.execute demoSys demoServer () ("login ".toList ++ [])).result =
      .ok "Missing username".toList ∧
    (demoSession.execute demoSys demoServer () ("login ".toList ++ [])).session.state =
      { username := none, login_attempt := none } :=
  ⟨⟨_, rfl, by decide, by decide, by decide⟩, by decide, by decide⟩

end grass

namespace grass

/-! ## Failed and interrupted logins -/

/-- C5 (amended): in every state in which a login for `u` is pending, `pass p`
with a password that the credential table does not map `u` to is answered
"Wrong credentials", clears the pending login and leaves the authenticated
user as it was before the `login` line; when no user was authenticated the
session is then Anonymous and every following privileged command is refused
with "Access denied". -/
theorem failed_pass_clears_pending {W : Type} (sys : Sys W) (srv : ServerManager) (w : W)
    (s : Session) (u p : Str) (hp : IsWord p)
    (hl : s.state.login_attempt = some u)
    (hbad : srv.config.credentials u ≠ some p) :
    s.execute sys srv w ("pass ".toList ++ p) =
      ⟨.ok "Wrong credentials".toList,
       { s with state := { username := s.state.username, login_attempt := none } }, w⟩ ∧
    (s.state.username = none →
      ∀ line c, (splitArgs line).head? = some c → c ∈ PRIVILEGED_COMMANDS →
        ({ s with state := { username := s.state.username, login_attempt := none } }
            : Session).execute sys srv w line =
          ⟨.error "Access denied".toList,
           { s with state := { username := s.state.username, login_attempt := none } }, w⟩) := by
  refine ⟨?_, ?_⟩
  · rw [execute_pass sys srv w s u p hp hl, if_neg hbad]
  · intro hu line c hc hpriv
    exact execute_anonymous_privileged sys srv w _ line c hu rfl hc hpriv

/-- Witness for C5: a fresh session with `login alice` pending receives
`pass wrong`. -/
theorem failed_pass_clears_pending_witness :
    (demoSession.execute demoSys demoServer () "login alice".toList).session.execute
        demoSys demoServer () "pass wrong".toList =
      ⟨.ok "Wrong credentials".toList,
       { (demoSession.execute demoSys demoServer () "login alice".toList).session with
         state := { username := none, login_attempt := none } }, ()⟩ ∧
    ((demoSession.execute demoSys demoServer () "login alice".toList).session.state.username
        = none →
      ∀ line c, (splitArgs line).head? = some c → c ∈ PRIVILEGED_COMMANDS →
        ({ (demoSession.execute demoSys demoServer () "login alice".toList).session with
            state := { username := none, login_attempt := none } }
            : Session).execute demoSys demoServer () line =
          ⟨.error "Access denied".toList,
           { (demoSession.execute demoSys demoServer () "login alice".toList).session with
             state := { username := none, login_attempt := none } }, ()⟩) :=
  failed_pass_clears_pending demoSys demoServer ()
    (demoSession.execute demoSys demoServer () "login alice".toList).session
    "alice".toList "wrong".toList (by decide) rfl (by decide)

/-- Counterexample to C5 as stated: a session authenticated as `alice` in
which `login bob` is pending answers `pass x` with "Wrong credentials" and is
still authenticated as `alice`: the following `whoami` is not refused.
Besides, for the empty password the line `pass ` is answered "Missing
password" and the login stays pending. -/
theorem failed_pass_counterexample :
    demoAliceLoginBob.state =
      { username := some "alice".toList, login_attempt := some "bob".toList } ∧
    demoServer.config.credentials "bob".toList ≠ some "x".toList ∧
    (demoAliceLoginBob.execute demoSys demoServer () "pass x".toList).result =
      .ok "Wrong credentials".toList ∧
    (demoAliceLoginBob.execute demoSys demoServer () "pass x".toList).session.state =
      { username := some "alice".toList, login_attempt := none } ∧
    ((demoAliceLoginBob.execute demoSys demoServer () "pass x".toList).session.execute
      demoSys demoServer () "whoami".toList).result = .ok "alice".toList ∧
    demoServer.config.credentials "bob".toList ≠ some [] ∧
    (demoAliceLoginBob.execute demoSys demoServer () ("pass ".toList ++ [])).result =
      .ok "Missing password".toList ∧
    (demoAliceLoginBob.execute demoSys demoServer () ("pass ".toList ++ [])).session.state =
      { username := some "alice".toList, login_attempt := some "bob".toList } := by
  refine ⟨by decide, by decide, by decide, by decide, by decide, by decide, by decide,
    by decide⟩

/-- C6 (amended): in every state in which a login is pending, every line
whose first token is not `pass` is answered "Login interrupted" without being
run (the world and the working directory are untouched), the pending login is
cleared and the authenticated user is left as it was before the `login` line;
when no user was authenticated the session is then Anonymous. -/
theorem interrupted_login_clears_pending {W : Type} (sys : Sys W) (srv : ServerManager)
    (w : W) (s : Session) (u line c : Str)
    (hl : s.state.login_attempt = some u)
    (hc : (splitArgs line).head? = some c) (hne : c ≠ "pass".toList) :
    s.execute sys srv w line =
      ⟨.ok "Login interrupted".toList,
       { s with state := { username := s.state.username, login_attempt := none } }, w⟩ ∧
    (s.state.username = none →
      (s.execute sys srv w line).session.state = { username := none, login_attempt := none }) := by
  obtain ⟨rest, hargs⟩ := head_args line c hc
  have h : s.execute sys srv w line =
      ⟨.ok "Login interrupted".toList,
       { s with state := { username := s.state.username, login_attempt := none } }, w⟩ := by
    rw [execute_of_args sys srv w s line c rest hargs, hl]
    simp only [if_pos hne]
  refine ⟨h, ?_⟩
  intro hu
  rw [h, hu]

/-- Witness for C6: a fresh session with `login alice` pending receives
`cd ..`. -/
theorem interrupted_login_clears_pending_witness :
    (demoSession.execute demoSys demoServer () "login alice".toList).session.execute
        demoSys demoServer () "cd ..".toList =
      ⟨.ok "Login interrupted".toList,
       { (demoSession.execute demoSys demoServer () "login alice".toList).session with
         state := { username := none, login_attempt := none } }, ()⟩ ∧
    ((demoSession.execute demoSys demoServer () "login alice".toList).session.state.username
        = none →
      ((demoSession.execute demoSys demoServer () "login alice".toList).session.execute
        demoSys demoServer () "cd ..".toList).session.state =
        { username := none, login_attempt := none }) :=
  interrupted_login_clears_pending demoSys demoServer ()
    (demoSession.execute demoSys demoServer () "login alice".toList).session
    "alice".toList "cd ..".toList "cd".toList rfl (by decide) (by decide)

/-- Counterexample to C6 as stated: a session authenticated as `alice` in
which `login bob` is pending answers `ls` with "Login interrupted" and is
still authenticated as `alice`, not Anonymous. -/
theorem interrupted_login_counterexample :
    demoAliceLoginBob.state.login_attempt = some "bob".toList ∧
    (splitArgs "ls".toList).head? = some "ls".toList ∧
    (demoAliceLoginBob.execute demoSys demoServer () "ls".toList).result =
      .ok "Login interrupted".toList ∧
    (demoAliceLoginBob.execute demoSys demoServer () "ls".toList).session.state =
      { username := some "alice".toList, login_attempt := none } ∧
    (demoAliceLoginBob.execute demoSys demoServer () "ls".toList).session.state ≠
      { username := none, login_attempt := none } := by
  refine ⟨by decide, by decide, by decide, by decide, by decide⟩

/-! ## Error replies -/

/-- C10 (failing inputs): in a fresh session the lines ` ls` (leading space)
and `ls` TAB `-l` both have `ls` as first argument token and both raise
"Access denied", but the bytes written name the prefix of the line before its
first space character: the empty string in the first case, the whole line in
the second. -/
theorem error_reply_names_text_before_space :
    (splitArgs " ls".toList).head? = some "ls".toList ∧
    (demoSession.execute demoSys demoServer () " ls".toList).result =
      .error "Access denied".toList ∧
    (∃ r, demoSession.handleLine demoSys demoServer () " ls".toList = .replied r ∧
      r.peer = "Error: : Access denied\n\n".toList ∧
      r.peer ≠ "Error: ls: Access denied\n\n".toList) ∧
    (splitArgs "ls\t-l".toList).head? = some "ls".toList ∧
    (demoSession.execute demoSys demoServer () "ls\t-l".toList).result =
      .error "Access denied".toList ∧
    (∃ r, demoSession.handleLine demoSys demoServer () "ls\t-l".toList = .replied r ∧
      r.peer = "Error: ls\t-l: Access denied\n\n".toList ∧
      r.peer ≠ "Error: ls: Access denied\n\n".toList) := by
  refine ⟨by decide, by decide, ⟨_, rfl, by decide, by decide⟩, by decide, by decide,
    ⟨_, rfl, by decide, by decide⟩⟩

end grass

namespace grass

/-! ## RingBuffer: a line already held by the buffer -/

theorem findNewlineFrom_first (rb : RingBuffer) (k : Nat) (hk : k < rb.live)
    (hnl : rb.buf ((rb.read_idx + k) % SIZE) = '\n')
    (hfirst : ∀ j < k, rb.buf ((rb.read_idx + j) % SIZE) ≠ '\n') :
    ∀ (d fuel j : Nat), j + d = k → d < fuel →
      rb.findNewlineFrom fuel ((rb.read_idx + j) % SIZE) = some ((rb.read_idx + k) % SIZE) := by
  have hlive : ∀ j, j ≤ k → (rb.read_idx + j) % SIZE ≠ rb.write_idx := by
    intro j hj h
    unfold RingBuffer.live at hk
    simp only [SIZE] at hk h
    omega
  intro d
  induction d with
  | zero =>
    intro fuel j hj hf
    have hjk : j = k := by omega
    subst hjk
    obtain ⟨f, rfl⟩ : ∃ f, fuel = f + 1 := ⟨fuel - 1, by omega⟩
    simp only [RingBuffer.findNewlineFrom, if_neg (hlive j (le_refl j)), hnl, if_true]
  | succ d ih =>
    intro fuel j hj hf
    obtain ⟨f, rfl⟩ : ∃ f, fuel = f + 1 := ⟨fuel - 1, by omega⟩
    have hjk : j < k := by omega
    simp only [RingBuffer.findNewlineFrom, if_neg (hlive j (by omega)), if_neg (hfirst j hjk)]
    have hstep : ((rb.read_idx + j) % SIZE + 1) % SIZE = (rb.read_idx + (j + 1)) % SIZE := by
      simp only [SIZE]; omega
    rw [hstep]
    exact ih f (j + 1) (by omega) (by omega)

theorem findNewline_first (rb : RingBuffer) (k : Nat)
    (hr : rb.read_idx < SIZE) (hk : k < rb.live)
    (hnl : rb.buf ((rb.read_idx + k) % SIZE) = '\n')
    (hfirst : ∀ j < k, rb.buf ((rb.read_idx + j) % SIZE) ≠ '\n') :
    rb.findNewline = some ((rb.read_idx + k) % SIZE) := by
  have hkS : k < SIZE := by
    unfold RingBuffer.live at hk
    simp only [SIZE] at hk ⊢
    omega
  have h := findNewlineFrom_first rb k hk hnl hfirst k SIZE 0 (by omega) hkS
  have h0 : (rb.read_idx + 0) % SIZE = rb.read_idx := by
    simp only [SIZE] at hr ⊢; omega
  rw [h0] at h
  exact h

theorem bytesAt_eq_map (buf : Nat → Char) (start len : Nat) (f : Nat → Char)
    (h : ∀ j < len, buf (start + j) = f j) :
    bytesAt buf start len = (List.range len).map f := by
  unfold bytesAt
  apply List.map_congr_left
  intro j hj
  exact h j (List.mem_range.mp hj)

theorem consume_first (rb : RingBuffer) (k : Nat)
    (hr : rb.read_idx < SIZE) (hk : k < SIZE) :
    rb.consume ((rb.read_idx + k) % SIZE) =
      ((List.range k).map (fun j => rb.buf ((rb.read_idx + j) % SIZE)),
       { rb with read_idx := (rb.read_idx + k + 1) % SIZE }) := by
  unfold RingBuffer.consume
  by_cases hwrap : rb.read_idx + k < SIZE
  · have he : (rb.read_idx + k) % SIZE = rb.read_idx + k := Nat.mod_eq_of_lt hwrap
    rw [he, if_pos (by omega)]
    unfold RingBuffer.consumeDirect
    have hlen : rb.read_idx + k - rb.read_idx = k := by omega
    rw [hlen]
    congr 1
    apply bytesAt_eq_map
    intro j hj
    rw [Nat.mod_eq_of_lt (by omega)]
  · have he : (rb.read_idx + k) % SIZE = rb.read_idx + k - SIZE := by
      simp only [SIZE] at hr hk hwrap ⊢; omega
    rw [he, if_neg (by simp only [SIZE] at hr hk hwrap ⊢; omega)]
    unfold RingBuffer.consumeDirect
    simp only
    have hsplit : k = (SIZE - rb.read_idx) + (rb.read_idx + k - SIZE) := by
      simp only [SIZE] at hr hk hwrap ⊢; omega
    have hnext : (rb.read_idx + k - SIZE + 1) % SIZE = (rb.read_idx + k + 1) % SIZE := by
      simp only [SIZE] at hr hk hwrap ⊢; omega
    rw [hnext]
    refine Prod.ext ?_ rfl
    show bytesAt rb.buf rb.read_idx (SIZE - rb.read_idx) ++
        bytesAt rb.buf 0 (rb.read_idx + k - SIZE - 0) =
      (List.range k).map (fun j => rb.buf ((rb.read_idx + j) % SIZE))
    have hmap : (List.range k).map (fun j => rb.buf ((rb.read_idx + j) % SIZE)) =
        (List.range ((SIZE - rb.read_idx) + (rb.read_idx + k - SIZE))).map
          (fun j => rb.buf ((rb.read_idx + j) % SIZE)) := by
      rw [← hsplit]
    rw [hmap, List.range_add, List.map_append, List.map_map]
    have hA : bytesAt rb.buf rb.read_idx (SIZE - rb.read_idx) =
        (List.range (SIZE - rb.read_idx)).map (fun j => rb.buf ((rb.read_idx + j) % SIZE)) := by
      apply bytesAt_eq_map
      intro j hj
      rw [Nat.mod_eq_of_lt (by omega)]
    have hB : bytesAt rb.buf 0 (rb.read_idx + k - SIZE - 0) =
        (List.range (rb.read_idx + k - SIZE)).map
          ((fun j => rb.buf ((rb.read_idx + j) % SIZE)) ∘ fun x => SIZE - rb.read_idx + x) := by
      have hsub : rb.read_idx + k - SIZE - 0 = rb.read_idx + k - SIZE := by omega
      rw [hsub]
      apply bytesAt_eq_map
      intro j hj
      have hidx : (rb.read_idx + (SIZE - rb.read_idx + j)) % SIZE = 0 + j := by
        simp only [SIZE] at hr hk hwrap hj ⊢; omega
      simp only [Function.comp, hidx]
    rw [hA, hB]

/-- C9: when the live bytes of the buffer contain a newline, the first one
being `k` bytes after the read cursor, `RingBuffer::nextLine` returns exactly
the `k` live bytes before it (taken modulo `SIZE`, so also when the range wraps
past the end of the array, and with carriage returns kept), moves the read
cursor just past that newline modulo 4096, and leaves the write cursor, the
array, the closed flag and the socket untouched (no read is performed). -/
theorem nextLine_buffered_line (rb : RingBuffer) (socket_closed : Bool) (src : Source)
    (k : Nat) (hr : rb.read_idx < SIZE) (hk : k < rb.live)
    (hnl : rb.buf ((rb.read_idx + k) % SIZE) = '\n')
    (hfirst : ∀ j < k, rb.buf ((rb.read_idx + j) % SIZE) ≠ '\n') :
    rb.nextLine socket_closed src =
      { line := some ((List.range k).map (fun j => rb.buf ((rb.read_idx + j) % SIZE))),
        rb := { rb with read_idx := (rb.read_idx + k + 1) % 4096 },
        socket_closed := socket_closed,
        source := src,
        error := none } := by
  have hkS : k < SIZE := by
    unfold RingBuffer.live at hk
    simp only [SIZE] at hk ⊢
    omega
  have h4 : (rb.read_idx + k + 1) % 4096 = (rb.read_idx + k + 1) % SIZE := rfl
  rw [h4]
  unfold RingBuffer.nextLine
  rw [findNewline_first rb k hr hk hnl hfirst]
  simp only [consume_first rb k hr hkS]

/-- Witness for C9: the line `hi` and a carriage return, held across the end
of the array (read cursor 4094, newline at index 1). -/
theorem nextLine_buffered_line_witness :
    (demoRing.nextLine false ⟨"rest".toList, [.ready 4]⟩).line = some ['h', 'i', '\r'] ∧
    (demoRing.nextLine false ⟨"rest".toList, [.ready 4]⟩).rb.read_idx = 2 ∧
    (demoRing.nextLine false ⟨"rest".toList, [.ready 4]⟩).rb.write_idx = 3 ∧
    (demoRing.nextLine false ⟨"rest".toList, [.ready 4]⟩).source = ⟨"rest".toList, [.ready 4]⟩ := by
  have h := nextLine_buffered_line demoRing false ⟨"rest".toList, [.ready 4]⟩ 3
    (by decide) (by decide) (by decide) (by decide)
  rw [h]
  exact ⟨by decide, by decide, rfl, rfl⟩

/-! ## RingBuffer: a read that fills the array up to its end -/

theorem findNewline_of_empty (rb : RingBuffer) (h : rb.read_idx = rb.write_idx) :
    rb.findNewline = none := by
  unfold RingBuffer.findNewline
  have hS : SIZE = 4095 + 1 := rfl
  rw [hS, RingBuffer.findNewlineFrom, if_pos h]

theorem not_full_of_empty (rb : RingBuffer) (h : rb.read_idx = rb.write_idx) :
    rb.full = false := by
  unfold RingBuffer.full
  rw [h]
  simp only [SIZE, beq_eq_false_iff_ne, ne_eq]
  omega

theorem receive_full_first_read (rb : RingBuffer) (socket_closed : Bool) (stream : Str)
    (hr : rb.read_idx = 0) (hw : rb.write_idx = 0) (hlen : SIZE ≤ stream.length) :
    rb.receiveFromSocket socket_closed stream [.ready SIZE] =
      ⟨{ rb with buf := storeAt rb.buf 0 (stream.take SIZE), write_idx := 0 }, false,
       ⟨stream.drop SIZE, []⟩, none⟩ := by
  have hfull : rb.full = false := not_full_of_empty rb (by rw [hr, hw])
  have hmin : min SIZE (min SIZE stream.length) = SIZE := by
    simp only [SIZE] at hlen ⊢; omega
  have hS1 : ¬ (SIZE = 0) := by simp [SIZE]
  have hlen2 : (List.take SIZE stream).length = SIZE := by
    rw [List.length_take]; exact Nat.min_eq_left hlen
  have hmod : (0 + SIZE) % SIZE = 0 := by simp
  unfold RingBuffer.receiveFromSocket
  simp only [hfull, Bool.false_eq_true, if_false, hw, hr, Nat.lt_irrefl, sysRead, hmin,
    hS1, hlen2, hmod, Nat.sub_zero, if_true]
  have hfull2 : (RingBuffer.mk 0 0 (storeAt rb.buf 0 (List.take SIZE stream))).full = false :=
    not_full_of_empty _ rfl
  unfold RingBuffer.receiveFromSocket
  simp only [hfull2, Bool.false_eq_true, if_false]

theorem nextLine_full_first_read (rb : RingBuffer) (socket_closed : Bool) (stream : Str)
    (hr : rb.read_idx = 0) (hw : rb.write_idx = 0) (hlen : SIZE ≤ stream.length) :
    rb.nextLine socket_closed ⟨stream, [.ready SIZE]⟩ =
      ⟨none, { rb with buf := storeAt rb.buf 0 (stream.take SIZE), write_idx := 0 }, false,
       ⟨stream.drop SIZE, []⟩, none⟩ := by
  unfold RingBuffer.nextLine
  rw [findNewline_of_empty rb (by rw [hr, hw])]
  simp only [receive_full_first_read rb socket_closed stream hr hw hlen]
  rw [findNewline_of_empty _ (by simp [hr])]

theorem nextLine_idle (rb : RingBuffer) (socket_closed : Bool) (stream : Str)
    (h : rb.read_idx = rb.write_idx) :
    rb.nextLine socket_closed ⟨stream, []⟩ = ⟨none, rb, false, ⟨stream, []⟩, none⟩ := by
  unfold RingBuffer.nextLine
  rw [findNewline_of_empty rb h]
  simp only [RingBuffer.receiveFromSocket, not_full_of_empty rb h, Bool.false_eq_true, if_false]
  rw [findNewline_of_empty rb h]

theorem demoLines_length : demoLines.length = 4096 := by
  unfold demoLines
  rw [List.length_flatten, List.map_replicate, List.sum_replicate]
  rfl

/-- C7 (failing input): the peer sends 2048 lines `a`, 4096 bytes in all, and
the first `read` returns all of them. The write cursor wraps onto the read
cursor, so the buffer looks empty: `nextLine` returns no line, the socket has
nothing left, and the next call returns no line either. All 2048 lines are
lost. -/
theorem nextLine_loses_full_read :
    demoLines.length = 4096 ∧
    ((RingBuffer.new (fun _ => 'x')).nextLine false ⟨demoLines, [.ready 4096]⟩).line = none ∧
    ((RingBuffer.new (fun _ => 'x')).nextLine false ⟨demoLines, [.ready 4096]⟩).error = none ∧
    ((RingBuffer.new (fun _ => 'x')).nextLine false ⟨demoLines, [.ready 4096]⟩).source =
      ⟨[], []⟩ ∧
    ((RingBuffer.new (fun _ => 'x')).nextLine false ⟨demoLines, [.ready 4096]⟩).rb.read_idx = 0 ∧
    ((RingBuffer.new (fun _ => 'x')).nextLine false ⟨demoLines, [.ready 4096]⟩).rb.write_idx = 0 ∧
    ((((RingBuffer.new (fun _ => 'x')).nextLine false ⟨demoLines, [.ready 4096]⟩).rb).nextLine
      false ⟨[], []⟩).line = none := by
  have hlen : SIZE ≤ demoLines.length := by rw [demoLines_length]; exact Nat.le_refl _
  have h := nextLine_full_first_read (RingBuffer.new (fun _ => 'x')) false demoLines rfl rfl hlen
  have h4 : (4096 : Nat) = SIZE := rfl
  have hdrop : List.drop SIZE demoLines = [] :=
    List.drop_eq_nil_of_le (by rw [demoLines_length]; exact Nat.le_refl _)
  rw [h4, h, hdrop]
  refine ⟨by rw [← h4]; exact demoLines_length, rfl, rfl, rfl, rfl, rfl, ?_⟩
  rw [nextLine_idle _ false [] rfl]

/-- C8 (failing input): from the empty buffer a `read` that returns the 4096
bytes asked for leaves the write cursor on the read cursor: 4096 bytes were
accepted and the live byte count is still 0, the buffer being taken for
empty. -/
theorem receive_full_read_wraps_onto_read_cursor :
    (RingBuffer.new (fun _ => 'x')).live = 0 ∧
    ((RingBuffer.new (fun _ => 'x')).receiveFromSocket false (List.replicate 4096 'y')
      [.ready 4096]).source.stream = [] ∧
    ((RingBuffer.new (fun _ => 'x')).receiveFromSocket false (List.replicate 4096 'y')
      [.ready 4096]).rb.write_idx = 0 ∧
    ((RingBuffer.new (fun _ => 'x')).receiveFromSocket false (List.replicate 4096 'y')
      [.ready 4096]).rb.read_idx = 0 ∧
    ((RingBuffer.new (fun _ => 'x')).receiveFromSocket false (List.replicate 4096 'y')
      [.ready 4096]).rb.live = 0 ∧
    ((RingBuffer.new (fun _ => 'x')).receiveFromSocket false (List.replicate 4096 'y')
      [.ready 4096]).rb.empty = true := by
  have hlen : SIZE ≤ (List.replicate 4096 'y').length := by
    rw [List.length_replicate]; exact Nat.le_refl _
  have h := receive_full_first_read (RingBuffer.new (fun _ => 'x')) false
    (List.replicate 4096 'y') rfl rfl hlen
  have h4 : (4096 : Nat) = SIZE := rfl
  have hdrop : List.drop SIZE (List.replicate SIZE 'y') = [] :=
    List.drop_eq_nil_of_le (by rw [List.length_replicate])
  rw [h4] at h ⊢
  rw [h, hdrop]
  exact ⟨by decide, rfl, rfl, rfl, by decide, rfl⟩

end grass

namespace grass

/-! ## Unknown commands and blank lines -/

/-- C18: in the Anonymous and Authenticated states (no login pending), every
line whose first token is not `login`, `ping`, `exit` or one of the eleven
privileged commands (so also `pass`) makes `Session::execute` throw "Invalid
command" and leaves the session (authentication state, working directory) and
the world unchanged. -/
theorem unknown_command_invalid {W : Type} (sys : Sys W) (srv : ServerManager) (w : W)
    (s : Session) (line c : Str)
    (hl : s.state.login_attempt = none)
    (hc : (splitArgs line).head? = some c)
    (h1 : c ≠ "login".toList) (h2 : c ≠ "ping".toList) (h3 : c ≠ "exit".toList)
    (h4 : c ∉ PRIVILEGED_COMMANDS) :
    s.execute sys srv w line = ⟨.error "Invalid command".toList, s, w⟩ := by
  obtain ⟨rest, hargs⟩ := head_args line c hc
  rw [execute_of_args sys srv w s line c rest hargs, hl]
  simp only [if_neg h1, if_neg h2, if_neg h3, if_neg h4]

/-- Witness for C18: `pass secret` sent to the authenticated demo session, in
which no login is pending. -/
theorem unknown_command_invalid_witness :
    demoAlice.execute demoSys demoServer () "pass secret".toList =
      ⟨.error "Invalid command".toList, demoAlice, ()⟩ :=
  unknown_command_invalid demoSys demoServer () demoAlice "pass secret".toList "pass".toList
    (by decide) (by decide) (by decide) (by decide) (by decide) (by decide)

theorem wordsFrom_blank (line : Str) (h : ∀ c ∈ line, isspace c = true) :
    wordsFrom [] line = [] := by
  induction line with
  | nil => simp [wordsFrom]
  | cons c cs ih =>
    have hc : isspace c = true := h c (by simp)
    simp only [wordsFrom, hc, if_true]
    exact ih (fun x hx => h x (List.mem_cons_of_mem _ hx))

theorem execute_blank {W : Type} (sys : Sys W) (srv : ServerManager) (w : W) (s : Session)
    (line : Str) (h : ∀ c ∈ line, isspace c = true) :
    s.execute sys srv w line = ⟨.ok [], s, w⟩ := by
  unfold Session.execute
  by_cases he : line.isEmpty = true
  · simp only [he, if_true]; rfl
  · have hs : splitArgs line = [] := wordsFrom_blank line h
    simp only [he, hs, List.isEmpty_nil, if_true, Bool.false_eq_true, if_false]
    rfl

/-- C19: in every session state (a pending login included) a line that is
empty or consists only of white space is answered with the empty reply, the
bytes written to the peer being exactly one newline, and the session
(authentication state, pending login, working directory) and the world are
unchanged. -/
theorem blank_line_empty_reply {W : Type} (sys : Sys W) (srv : ServerManager) (w : W)
    (s : Session) (line : Str) (h : ∀ c ∈ line, isspace c = true) :
    s.execute sys srv w line = ⟨.ok [], s, w⟩ ∧
    s.handleLine sys srv w line =
      .replied { session := s, world := w, peer := ['\n'], cout := [], cerr := [] } := by
  have hx := execute_blank sys srv w s line h
  refine ⟨hx, ?_⟩
  have hne : ¬ (line = "exit".toList) := by
    intro he
    have := h 'e' (by rw [he]; decide)
    exact absurd this (by decide)
  unfold Session.handleLine
  rw [if_neg hne, hx]
  rfl

/-- Witness for C19: a line of two spaces and a tab while `login bob` is
pending in a session authenticated as `alice`. -/
theorem blank_line_empty_reply_witness :
    demoAliceLoginBob.execute demoSys demoServer () "  \t".toList =
      ⟨.ok [], demoAliceLoginBob, ()⟩ ∧
    demoAliceLoginBob.handleLine demoSys demoServer () "  \t".toList =
      .replied { session := demoAliceLoginBob, world := (), peer := ['\n'], cout := [],
                 cerr := [] } :=
  blank_line_empty_reply demoSys demoServer () demoAliceLoginBob "  \t".toList (by decide)

/-! ## Length of paths -/

theorem PathFromVector_eq_ite (d : Directory) (v : List Str) :
    d.PathFromVector v =
      (if (d.root ++ segmentsText v).length ≤ 128 then .ok (d.root ++ segmentsText v)
       else .error "The path is too long".toList) := by
  unfold Directory.PathFromVector
  simp only [foldl_segments, MAX_PATH_LENGTH]
  by_cases h : (d.root ++ segmentsText v).length ≤ 128
  · rw [if_pos h, if_neg (by omega)]
  · rw [if_neg h, if_pos (by omega)]

/-- C13: `Directory::PathFromVector` returns the root followed by `/` + s for
each segment s when that text is at most 128 bytes long, and fails, with "The
path is too long", if and only if it is longer. A path of exactly 128 bytes is
accepted and one of 129 bytes is rejected. -/
theorem PathFromVector_length_limit (d : Directory) (v : List Str) :
    d.PathFromVector v =
      (if (d.root ++ segmentsText v).length ≤ 128 then .ok (d.root ++ segmentsText v)
       else .error "The path is too long".toList) ∧
    ((∃ e, d.PathFromVector v = .error e) ↔ 128 < (d.root ++ segmentsText v).length) ∧
    (∀ e, d.PathFromVector v = .error e → e = "The path is too long".toList) ∧
    (({ root := List.replicate 120 'r', path := [] } : Directory).PathFromVector
        ["abc".toList, "def".toList] =
      .ok (List.replicate 120 'r' ++ "/abc/def".toList)) ∧
    (List.replicate 120 'r' ++ "/abc/def".toList).length = 128 ∧
    (({ root := List.replicate 120 'r', path := [] } : Directory).PathFromVector
        ["abc".toList, "defg".toList] =
      .error "The path is too long".toList) ∧
    (List.replicate 120 'r' ++ "/abc/defg".toList).length = 129 := by
  have key := PathFromVector_eq_ite d v
  have hlen (t : Str) : (List.replicate 120 'r' ++ t).length = 120 + t.length := by
    rw [List.length_append, List.length_replicate]
  refine ⟨key, ?_, ?_, ?_, ?_, ?_, ?_⟩
  · rw [key]
    by_cases h : (d.root ++ segmentsText v).length ≤ 128
    · rw [if_pos h]
      constructor
      · rintro ⟨e, he⟩; cases he
      · intro h2; omega
    · rw [if_neg h]
      exact ⟨fun _ => by omega, fun _ => ⟨_, rfl⟩⟩
  · intro e he
    rw [key] at he
    by_cases h : (d.root ++ segmentsText v).length ≤ 128
    · rw [if_pos h] at he; cases he
    · rw [if_neg h] at he; cases he; rfl
  · rw [PathFromVector_eq_ite]
    have hseg : segmentsText ["abc".toList, "def".toList] = "/abc/def".toList := by decide
    rw [hseg, if_pos (by rw [hlen]; decide)]
  · rw [hlen]; decide
  · rw [PathFromVector_eq_ite]
    have hseg : segmentsText ["abc".toList, "defg".toList] = "/abc/defg".toList := by decide
    rw [hseg, if_neg (by rw [hlen]; decide)]
  · rw [hlen]; decide

end grass

namespace grass

/-! ## The cd command -/

theorem execute_authenticated_privileged {W : Type} (sys : Sys W) (srv : ServerManager)
    (w : W) (s : Session) (line c u : Str) (rest : List Str)
    (hu : s.state.username = some u) (hl : s.state.login_attempt = none)
    (hargs : splitArgs line = c :: rest) (hp : c ∈ PRIVILEGED_COMMANDS) :
    s.execute sys srv w line = s.executePrivileged sys srv w (c :: rest) := by
  obtain ⟨h1, h2, h3, _⟩ := privileged_not_special c hp
  rw [execute_of_args sys srv w s line c rest hargs, hl]
  simp only [if_neg h1, if_neg h2, if_neg h3, if_pos hp, hu, Option.isSome_some, if_true]

theorem executePrivileged_cd {W : Type} (sys : Sys W) (srv : ServerManager) (w : W)
    (s : Session) (rest : List Str) :
    s.executePrivileged sys srv w ("cd".toList :: rest) =
      match ValidatePathArg ("cd".toList :: rest) with
      | some e => ⟨.error e, s, w⟩
      | none => s.executeCd sys w (rest.getD 0 []) := by
  have g1 : ¬ ("cd".toList = "ls".toList) := by decide
  unfold Session.executePrivileged
  simp only [List.getD_cons_zero, if_neg g1, if_true, List.getD_cons_succ]

theorem executeCd_cases {W : Type} (sys : Sys W) (w : W) (s : Session) (rel : Str) :
    (∃ e, s.executeCd sys w rel = ⟨.error e, s, w⟩) ∨
    (∃ v p, s.directory.TokenizePath rel = .ok v ∧ s.directory.PathFromVector v = .ok p ∧
      Stat sys w p = .ok .directory ∧
      s.executeCd sys w rel = ⟨.ok [], { s with directory := s.directory.Update v }, w⟩) := by
  unfold Session.executeCd
  cases ht : s.directory.TokenizePath rel with
  | error e => exact Or.inl ⟨e, rfl⟩
  | ok v =>
    dsimp only
    cases hp : s.directory.PathFromVector v with
    | error e => exact Or.inl ⟨e, rfl⟩
    | ok ps =>
      dsimp only
      cases hs : Stat sys w ps with
      | error e => exact Or.inl ⟨e, rfl⟩
      | ok m =>
        dsimp only
        by_cases hm : m = .directory
        · subst hm
          refine Or.inr ⟨v, ps, rfl, hp, hs, ?_⟩
          simp
        · refine Or.inl ⟨"Not a directory".toList, ?_⟩
          simp [hm]

/-- C15 (cd is atomic): in an authenticated session, for every line whose
command is `cd`, if the command raises an error (whichever: missing argument,
path too long, access denied, no such file, not a directory) the session
(working directory, authentication state) and the world are exactly what they
were; the working directory is replaced, by the result of `TokenizePath`, only
when tokenizing, joining and the directory check all succeed. -/
theorem cd_atomic {W : Type} (sys : Sys W) (srv : ServerManager) (w : W) (s : Session)
    (line u : Str) (rest : List Str)
    (hu : s.state.username = some u) (hl : s.state.login_attempt = none)
    (hargs : splitArgs line = "cd".toList :: rest) :
    (∀ e, (s.execute sys srv w line).result = .error e →
      s.execute sys srv w line = ⟨.error e, s, w⟩) ∧
    (∀ r, (s.execute sys srv w line).result = .ok r →
      ∃ rel v p, rest.head? = some rel ∧ s.directory.TokenizePath rel = .ok v ∧
        s.directory.PathFromVector v = .ok p ∧ Stat sys w p = .ok .directory ∧
        s.execute sys srv w line =
          ⟨.ok [], { s with directory := s.directory.Update v }, w⟩) := by
  have hex := execute_authenticated_privileged sys srv w s line "cd".toList u rest hu hl hargs
    (by decide)
  rw [hex, executePrivileged_cd]
  cases hv : ValidatePathArg ("cd".toList :: rest) with
  | some e =>
    simp only
    refine ⟨fun e1 h1 => ?_, fun r h1 => ?_⟩
    · simp only [Except.error.injEq] at h1
      rw [h1]
    · cases h1
  | none =>
    simp only
    have hrest : rest.head? = some (rest.getD 0 []) := by
      cases rest with
      | nil => simp [ValidatePathArg] at hv
      | cons a l => simp
    rcases executeCd_cases sys w s (rest.getD 0 []) with ⟨e, he⟩ | ⟨v, p, h1, h2, h3, h4⟩
    · rw [he]
      refine ⟨fun e1 h1 => ?_, fun r h1 => ?_⟩
      · simp only [Except.error.injEq] at h1
        rw [h1]
      · cases h1
    · rw [h4]
      refine ⟨fun e1 h5 => ?_, fun r _ => ⟨_, v, p, hrest, h1, h2, h3, rfl⟩⟩
      cases h5

/-- Witness for C15: `cd a/b` in the authenticated demo session. -/
theorem cd_atomic_witness :
    (∀ e, (demoAlice.execute demoSys demoServer () "cd a/b".toList).result = .error e →
      demoAlice.execute demoSys demoServer () "cd a/b".toList = ⟨.error e, demoAlice, ()⟩) ∧
    (∀ r, (demoAlice.execute demoSys demoServer () "cd a/b".toList).result = .ok r →
      ∃ rel v p, ["a/b".toList].head? = some rel ∧ demoAlice.directory.TokenizePath rel = .ok v ∧
        demoAlice.directory.PathFromVector v = .ok p ∧ Stat demoSys () p = .ok .directory ∧
        demoAlice.execute demoSys demoServer () "cd a/b".toList =
          ⟨.ok [], { demoAlice with directory := demoAlice.directory.Update v }, ()⟩) :=
  cd_atomic demoSys demoServer () demoAlice "cd a/b".toList "alice".toList ["a/b".toList]
    (by decide) (by decide) (by decide)

theorem TokenizePath_dotdot_root (d : Directory) (h : d.path = []) :
    d.TokenizePath "..".toList = .error "Access denied".toList := by
  unfold Directory.TokenizePath
  rw [h]
  rfl

/-- C14: in an authenticated session whose working directory is empty, the
line `cd ..` makes the server write exactly "Error: cd: Access denied" and two
newlines, and the session (empty working directory, authenticated user) and
the world are unchanged. -/
theorem cd_dotdot_at_root_denied {W : Type} (sys : Sys W) (srv : ServerManager) (w : W)
    (s : Session) (u : Str)
    (hu : s.state.username = some u) (hl : s.state.login_attempt = none)
    (hp : s.directory.path = []) :
    s.execute sys srv w "cd ..".toList = ⟨.error "Access denied".toList, s, w⟩ ∧
    ∃ r, s.handleLine sys srv w "cd ..".toList = .replied r ∧
      r.peer = "Error: cd: Access denied\n\n".toList ∧ r.session = s ∧ r.world = w := by
  have hex : s.execute sys srv w "cd ..".toList = ⟨.error "Access denied".toList, s, w⟩ := by
    rw [execute_authenticated_privileged sys srv w s "cd ..".toList "cd".toList u
      ["..".toList] hu hl (by decide) (by decide), executePrivileged_cd]
    have hv : ValidatePathArg ["cd".toList, "..".toList] = none := by decide
    simp only [hv, List.getD_cons_zero]
    unfold Session.executeCd
    rw [TokenizePath_dotdot_root s.directory hp]
  refine ⟨hex, ?_⟩
  have hne : ¬ ("cd ..".toList = "exit".toList) := by decide
  unfold Session.handleLine
  rw [if_neg hne, hex]
  exact ⟨_, rfl, rfl, rfl, rfl⟩

/-- Witness for C14: the authenticated demo session, still at the root. -/
theorem cd_dotdot_at_root_denied_witness :
    demoAlice.execute demoSys demoServer () "cd ..".toList =
      ⟨.error "Access denied".toList, demoAlice, ()⟩ ∧
    ∃ r, demoAlice.handleLine demoSys demoServer () "cd ..".toList = .replied r ∧
      r.peer = "Error: cd: Access denied\n\n".toList ∧ r.session = demoAlice ∧ r.world = () :=
  cd_dotdot_at_root_denied demoSys demoServer () demoAlice "alice".toList
    (by decide) (by decide) (by decide)

end grass

namespace grass

/-! ## Round trip of cd -/

theorem hasCharOutside_false (chars s : Str) (h : hasCharOutside chars s = false) :
    ∀ c ∈ s, c ∈ chars := by
  intro c hc
  unfold hasCharOutside at h
  rw [List.any_eq_false] at h
  have := h c hc
  simpa using this

theorem valid_characters_plain :
    ∀ c ∈ valid_characters, c ≠ '/' ∧ c ≠ '.' ∧ isspace c = false := by
  decide

theorem valid_name_chars (d : Str) (h : hasCharOutside valid_characters d = false) :
    ∀ c ∈ d, c ≠ '/' ∧ c ≠ '.' ∧ isspace c = false :=
  fun c hc => valid_characters_plain c (hasCharOutside_false valid_characters d h c hc)

theorem tokensFrom_plain (d : Str) (hd : '/' ∉ d) (cur : Str) :
    tokensFrom '/' cur d = if cur ++ d = [] then [] else [cur ++ d] := by
  induction d generalizing cur with
  | nil => simp [tokensFrom]
  | cons c cs ih =>
    have hc : ¬ (c = '/') := fun he => hd (by rw [he]; simp)
    have hcs : '/' ∉ cs := fun h => hd (List.mem_cons_of_mem _ h)
    simp only [tokensFrom, if_neg hc]
    rw [ih hcs]
    simp

theorem segmentsText_append (a : List Str) (d : Str) :
    segmentsText (a ++ [d]) = segmentsText a ++ '/' :: d := by
  induction a with
  | nil => simp [segmentsText]
  | cons x xs ih => simp [segmentsText, ih]

theorem TokenizePath_name (dir : Directory) (d : Str) (hd : d ≠ [])
    (hchars : hasCharOutside valid_characters d = false) :
    dir.TokenizePath d = .ok (dir.path ++ [d]) := by
  have hall := valid_name_chars d hchars
  have hslash : '/' ∉ d := fun h => (hall '/' h).1 rfl
  have hhead : ¬ (d.length ≥ 1 ∧ d.head? = some '/') := by
    rintro ⟨_, h2⟩
    cases d with
    | nil => cases h2
    | cons a l =>
      simp only [List.head?_cons, Option.some.injEq] at h2
      exact (hall a (by simp)).1 h2
  have hdot : ∀ t : Str, (∀ c ∈ t, c = '.') → t ≠ [] → d ≠ t := by
    intro t ht hne he
    subst he
    cases d with
    | nil => exact hne rfl
    | cons a l => exact (hall a (by simp)).2.1 (ht a (by simp))
  unfold Directory.TokenizePath tokensOf
  rw [if_neg hhead, tokensFrom_plain d hslash]
  simp only [List.nil_append, if_neg hd, TokenizeLoop]
  rw [TokenizeStep_eq]
  have h2 : d ≠ ['.', '.'] := hdot _ (by simp) (by simp)
  have h1 : d ≠ ['.'] := hdot _ (by simp) (by simp)
  simp [segStep, hd, h1, h2]

theorem TokenizePath_dotdot_pop (dir : Directory) (c : List Str) (d : Str)
    (h : dir.path = c ++ [d]) :
    dir.TokenizePath "..".toList = .ok c := by
  unfold Directory.TokenizePath
  have hhead : ¬ ("..".toList.length ≥ 1 ∧ "..".toList.head? = some '/') := by decide
  have htok : tokensOf '/' "..".toList = ["..".toList] := by decide
  rw [if_neg hhead, htok, h]
  simp only [TokenizeLoop]
  rw [TokenizeStep_eq]
  simp [segStep]

theorem Stat_directory {W : Type} (sys : Sys W) (w : W) (p : Str)
    (h : sys.stat w p = .ok .directory) : Stat sys w p = .ok .directory := by
  unfold Stat
  rw [h]

theorem executeCd_success {W : Type} (sys : Sys W) (w : W) (s : Session) (rel : Str)
    (v : List Str)
    (ht : s.directory.TokenizePath rel = .ok v)
    (hlen : (s.directory.root ++ segmentsText v).length ≤ 128)
    (hdir : sys.stat w (s.directory.root ++ segmentsText v) = .ok .directory) :
    s.executeCd sys w rel = ⟨.ok [], { s with directory := s.directory.Update v }, w⟩ := by
  unfold Session.executeCd
  rw [ht]
  dsimp only
  rw [PathFromVector_eq_ite, if_pos hlen]
  dsimp only
  rw [Stat_directory sys w _ hdir]
  simp

/-- C16 (round trip): in an authenticated session with working directory c,
for every directory name d accepted by mkdir (not empty, characters in
`[A-Za-z0-9_-]`) such that the joined path of c ++ [d] is at most 128 bytes and
names an existing directory (its parent, the path of c, being a directory as
in any file system), `cd d` and then `cd ..` both succeed with an empty reply
and leave the session, working directory included, exactly as it was. -/
theorem cd_then_dotdot_roundtrip {W : Type} (sys : Sys W) (srv : ServerManager) (w : W)
    (s : Session) (u d : Str)
    (hu : s.state.username = some u) (hl : s.state.login_attempt = none)
    (hd : d ≠ []) (hchars : hasCharOutside valid_characters d = false)
    (hlen : (s.directory.root ++ segmentsText (s.directory.path ++ [d])).length ≤ 128)
    (hdir : sys.stat w (s.directory.root ++ segmentsText (s.directory.path ++ [d]))
      = .ok .directory)
    (hparent : sys.stat w (s.directory.root ++ segmentsText s.directory.path)
      = .ok .directory) :
    s.execute sys srv w ("cd ".toList ++ d) =
      ⟨.ok [], { s with directory := s.directory.Update (s.directory.path ++ [d]) }, w⟩ ∧
    ({ s with directory := s.directory.Update (s.directory.path ++ [d]) } : Session).execute
      sys srv w "cd ..".toList = ⟨.ok [], s, w⟩ := by
  have hall := valid_name_chars d hchars
  have hword : IsWord d := ⟨hd, fun c hc => (hall c hc).2.2⟩
  have hsplit : (s.directory.root ++ segmentsText (s.directory.path ++ [d])).length =
      (s.directory.root ++ segmentsText s.directory.path).length + 1 + d.length := by
    rw [segmentsText_append]
    simp only [List.length_append, List.length_cons]
    omega
  have hdlen : ¬ (d.length > MAX_PATH_LENGTH) := by
    simp only [MAX_PATH_LENGTH]; omega
  constructor
  · have hargs : splitArgs ("cd ".toList ++ d) = ["cd".toList, d] :=
      splitArgs_two "cd".toList d (by decide) hword
    rw [execute_authenticated_privileged sys srv w s _ "cd".toList u [d] hu hl hargs
      (by decide), executePrivileged_cd]
    have hv : ValidatePathArg ["cd".toList, d] = none := by
      simp [ValidatePathArg, hdlen]
    simp only [hv, List.getD_cons_zero]
    exact executeCd_success sys w s d _ (TokenizePath_name s.directory d hd hchars) hlen hdir
  · rw [execute_authenticated_privileged sys srv w
      ({ s with directory := s.directory.Update (s.directory.path ++ [d]) } : Session)
      "cd ..".toList "cd".toList u ["..".toList] hu hl (by decide) (by decide),
      executePrivileged_cd]
    have hv : ValidatePathArg ["cd".toList, "..".toList] = none := by decide
    simp only [hv, List.getD_cons_zero]
    rw [executeCd_success sys w
      ({ s with directory := s.directory.Update (s.directory.path ++ [d]) } : Session)
      "..".toList s.directory.path
      (TokenizePath_dotdot_pop _ s.directory.path d rfl) (by
        show (s.directory.root ++ segmentsText s.directory.path).length ≤ 128
        omega) hparent]
    cases s with
    | mk st dir buf =>
      cases dir
      rfl

/-- Witness for C16: `cd docs` then `cd ..` in the authenticated demo
session. -/
theorem cd_then_dotdot_roundtrip_witness :
    demoAlice.execute demoSys demoServer () ("cd ".toList ++ "docs".toList) =
      ⟨.ok [], { demoAlice with
        directory := demoAlice.directory.Update (demoAlice.directory.path ++ ["docs".toList]) },
       ()⟩ ∧
    ({ demoAlice with
        directory := demoAlice.directory.Update (demoAlice.directory.path ++ ["docs".toList]) }
      : Session).execute demoSys demoServer () "cd ..".toList = ⟨.ok [], demoAlice, ()⟩ :=
  cd_then_dotdot_roundtrip demoSys demoServer () demoAlice "alice".toList "docs".toList
    (by decide) (by decide) (by decide) (by decide) (by decide) rfl rfl

end grass

namespace grass

/-! ## The list of logged users -/

theorem foldl_users (l : List Str) (acc : Str) :
    l.foldl (fun result user => result ++ (user ++ " ".toList)) acc =
      acc ++ (l.map (fun user => user ++ [' '])).flatten := by
  induction l generalizing acc with
  | nil => simp
  | cons x xs ih =>
    rw [List.foldl_cons, ih]
    simp [String.toList]

theorem filter_nonempty (l : List Str) :
    l.filter (fun username => !username.isEmpty) = l.filter (fun n => decide (n ≠ [])) := by
  apply List.filter_congr
  intro x _
  cases x <;> simp

theorem loggedUsersOf_perm (a b : List Str) (h : a.Perm b) :
    loggedUsersOf a = loggedUsersOf b := by
  unfold loggedUsersOf
  have hf : (a.filter (fun username => !username.isEmpty)).Perm
      (b.filter (fun username => !username.isEmpty)) := h.filter _
  have hs : List.insertionSort (fun x y : Str => x ≤ y)
        (a.filter (fun username => !username.isEmpty)) =
      List.insertionSort (fun x y : Str => x ≤ y)
        (b.filter (fun username => !username.isEmpty)) := by
    apply List.eq_of_perm_of_sorted (r := fun x y : Str => x ≤ y)
    · exact ((List.perm_insertionSort _ _).trans hf).trans (List.perm_insertionSort _ _).symm
    · exact List.sorted_insertionSort _ _
    · exact List.sorted_insertionSort _ _
  simp only [hs]

/-- C12: the text built by `ServerManager::loggedUsers` is the concatenation,
in ascending lexicographic order (of the bytes), of every non-empty `Session::username()` of
the session table, each followed by one space, one occurrence per session; it
does not depend on the order in which the sessions are iterated. With sessions
authenticated as alice and bob it is `alice bob `, in either order. -/
theorem loggedUsers_sorted_concat (usernames : List Str) :
    (∃ l : List Str, l.Perm (usernames.filter (fun n => decide (n ≠ []))) ∧
      l.Sorted (fun a b => a ≤ b) ∧
      loggedUsersOf usernames = (l.map (fun user => user ++ [' '])).flatten) ∧
    (∀ a b : Str, a < b ↔ List.Lex (fun x y : Char => x < y) a b) ∧
    (∀ other : List Str, other.Perm usernames →
      loggedUsersOf other = loggedUsersOf usernames) ∧
    (∀ (srv other : ServerManager) (s : Session),
      srv.loggedUsers s = loggedUsersOf (srv.before ++ [s.username] ++ srv.after) ∧
      ((other.before ++ [s.username] ++ other.after).Perm
          (srv.before ++ [s.username] ++ srv.after) →
        other.loggedUsers s = srv.loggedUsers s)) ∧
    loggedUsersOf ["alice".toList, "bob".toList] = "alice bob ".toList ∧
    loggedUsersOf ["bob".toList, [], "alice".toList] = "alice bob ".toList ∧
    loggedUsersOf ["bob".toList, "alice".toList, "bob".toList] = "alice bob bob ".toList ∧
    (demoAlice.execute demoSys demoServer () "w".toList).result =
      .ok "alice bob ".toList := by
  refine ⟨?_, fun _ _ => Iff.rfl, ?_, ?_, by decide, by decide, by decide, by decide⟩
  · refine ⟨List.insertionSort (fun a b : Str => a ≤ b)
      (usernames.filter (fun n => decide (n ≠ []))), List.perm_insertionSort _ _,
      List.sorted_insertionSort _ _, ?_⟩
    unfold loggedUsersOf
    simp only [foldl_users, filter_nonempty, List.nil_append]
  · intro other h
    exact loggedUsersOf_perm other usernames h
  · intro srv other s
    exact ⟨rfl, fun h => loggedUsersOf_perm _ _ h⟩

end grass

namespace grass

/-! ## One password attempt per login -/

theorem executeLs_state {W : Type} (sys : Sys W) (w : W) (s : Session) :
    (s.executeLs sys w).session.state = s.state := by
  unfold Session.executeLs
  repeat' split
  all_goals rfl

theorem executeCd_state {W : Type} (sys : Sys W) (w : W) (s : Session) (rel : Str) :
    (s.executeCd sys w rel).session.state = s.state := by
  unfold Session.executeCd
  repeat' split
  all_goals rfl

theorem executeMkdir_state {W : Type} (sys : Sys W) (w : W) (s : Session) (rel : Str) :
    (s.executeMkdir sys w rel).session.state = s.state := by
  unfold Session.executeMkdir
  repeat' split
  all_goals rfl

theorem executeRm_state {W : Type} (sys : Sys W) (w : W) (s : Session) (rel : Str) :
    (s.executeRm sys w rel).session.state = s.state := by
  unfold Session.executeRm
  repeat' split
  all_goals rfl

theorem executeGet_state {W : Type} (sys : Sys W) (w : W) (s : Session) (rel : Str) :
    (s.executeGet sys w rel).session.state = s.state := by
  unfold Session.executeGet
  repeat' split
  all_goals rfl

theorem executePut_state {W : Type} (sys : Sys W) (w : W) (s : Session) (rel : Str)
    (size : Nat) : (s.executePut sys w rel size).session.state = s.state := by
  unfold Session.executePut
  dsimp only
  repeat' split
  all_goals rfl

theorem executeGrep_state {W : Type} (sys : Sys W) (w : W) (s : Session) (pat : Str) :
    (s.executeGrep sys w pat).session.state = s.state := by
  unfold Session.executeGrep
  repeat' split
  all_goals rfl

theorem executePrivileged_login_attempt {W : Type} (sys : Sys W) (srv : ServerManager)
    (w : W) (s : Session) (args : List Str) :
    (s.executePrivileged sys srv w args).session.state.login_attempt =
      s.state.login_attempt := by
  unfold Session.executePrivileged
  dsimp only
  by_cases h1 : args.getD 0 [] = "ls".toList
  · rw [if_pos h1, executeLs_state]
  rw [if_neg h1]
  by_cases h2 : args.getD 0 [] = "cd".toList
  · rw [if_pos h2]
    cases ValidatePathArg args with
    | some e => rfl
    | none => dsimp only; rw [executeCd_state]
  rw [if_neg h2]
  by_cases h3 : args.getD 0 [] = "mkdir".toList
  · rw [if_pos h3]
    cases ValidatePathArg args with
    | some e => rfl
    | none => dsimp only; rw [executeMkdir_state]
  rw [if_neg h3]
  by_cases h4 : args.getD 0 [] = "rm".toList
  · rw [if_pos h4]
    cases ValidatePathArg args with
    | some e => rfl
    | none => dsimp only; rw [executeRm_state]
  rw [if_neg h4]
  by_cases h5 : args.getD 0 [] = "get".toList
  · rw [if_pos h5]
    cases ValidatePathArg args with
    | some e => rfl
    | none => dsimp only; rw [executeGet_state]
  rw [if_neg h5]
  by_cases h6 : args.getD 0 [] = "put".toList
  · rw [if_pos h6]
    by_cases g1 : args.length < 3
    · rw [if_pos g1]
    rw [if_neg g1]
    by_cases g2 : (args.getD 1 []).length > MAX_PATH_LENGTH
    · rw [if_pos g2]
    rw [if_neg g2]
    by_cases g3 : strtoul (args.getD 2 []) = 0
    · rw [if_pos g3]
    rw [if_neg g3, executePut_state]
  rw [if_neg h6]
  by_cases h7 : args.getD 0 [] = "grep".toList
  · rw [if_pos h7]
    by_cases g1 : args.length < 2
    · rw [if_pos g1]
    rw [if_neg g1, executeGrep_state]
  rw [if_neg h7]
  by_cases h8 : args.getD 0 [] = "date".toList
  · rw [if_pos h8]; rfl
  rw [if_neg h8]
  by_cases h9 : args.getD 0 [] = "whoami".toList
  · rw [if_pos h9]; rfl
  rw [if_neg h9]
  by_cases h10 : args.getD 0 [] = "w".toList
  · rw [if_pos h10]; rfl
  rw [if_neg h10]
  by_cases h11 : args.getD 0 [] = "logout".toList
  · rw [if_pos h11]; rfl
  rw [if_neg h11]

theorem execute_sets_login {W : Type} (sys : Sys W) (srv : ServerManager) (w : W)
    (s : Session) (cmd user : Str)
    (hl : s.state.login_attempt = none)
    (h : (s.execute sys srv w cmd).session.state.login_attempt = some user) :
    ∃ rest, splitArgs cmd = "login".toList :: user :: rest := by
  cases hargs : splitArgs cmd with
  | nil =>
    have hb : s.execute sys srv w cmd = ⟨.ok [], s, w⟩ := by
      unfold Session.execute
      by_cases he : cmd.isEmpty = true
      · simp only [he, if_true]; rfl
      · simp only [he, hargs, List.isEmpty_nil, if_true, Bool.false_eq_true, if_false]; rfl
    rw [hb, hl] at h
    cases h
  | cons c rest =>
    rw [execute_of_args sys srv w s cmd c rest hargs, hl] at h
    dsimp only at h
    by_cases h1 : c = "login".toList
    · rw [if_pos h1] at h
      by_cases h2 : (c :: rest).length < 2
      · rw [if_pos h2, hl] at h; cases h
      · rw [if_neg h2] at h
        cases rest with
        | nil => simp at h2
        | cons a l =>
          simp only [List.getD_cons_succ, List.getD_cons_zero, Option.some.injEq] at h
          exact ⟨l, by rw [h1, h]⟩
    · rw [if_neg h1] at h
      by_cases h2 : c = "ping".toList
      · rw [if_pos h2] at h
        by_cases h3 : (c :: rest).length < 2
        · rw [if_pos h3, hl] at h; cases h
        · rw [if_neg h3] at h
          unfold Session.executePing at h
          revert h
          repeat' split
          all_goals (intro h; rw [hl] at h; cases h)
      · rw [if_neg h2] at h
        by_cases h3 : c = "exit".toList
        · rw [if_pos h3, hl] at h; cases h
        · rw [if_neg h3] at h
          by_cases h4 : c ∈ PRIVILEGED_COMMANDS
          · rw [if_pos h4] at h
            by_cases h5 : s.state.username.isSome = true
            · rw [if_pos h5, executePrivileged_login_attempt, hl] at h; cases h
            · rw [if_neg h5, hl] at h; cases h
          · rw [if_neg h4, hl] at h; cases h

theorem credentialCheck_none_of_no_login (s : Session) (cmd : Str)
    (hl : s.state.login_attempt = none) : s.credentialCheck cmd = none := by
  unfold Session.credentialCheck
  rw [hl]
  by_cases h1 : cmd.isEmpty = true
  · simp [h1]
  · by_cases h2 : (splitArgs cmd).isEmpty = true
    · simp [h1, h2]
    · simp [h1, h2]

theorem execute_of_credentialCheck {W : Type} (sys : Sys W) (srv : ServerManager) (w : W)
    (s : Session) (cmd u p : Str) (h : s.credentialCheck cmd = some (u, p)) :
    s.state.login_attempt = some u ∧ s.execute sys srv w cmd = s.executePass srv w u p := by
  unfold Session.credentialCheck at h
  unfold Session.execute
  by_cases h1 : cmd.isEmpty = true
  · simp [h1] at h
  · by_cases h2 : (splitArgs cmd).isEmpty = true
    · simp [h1, h2] at h
    · cases hla : s.state.login_attempt with
      | none => simp [h1, h2, hla] at h
      | some attempt =>
        simp only [h1, h2, hla, Bool.false_eq_true, if_false] at h ⊢
        by_cases h3 : (splitArgs cmd).getD 0 [] ≠ "pass".toList
        · rw [if_pos h3] at h; cases h
        · rw [if_neg h3] at h ⊢
          by_cases h4 : (splitArgs cmd).length < 2
          · rw [if_pos h4] at h; cases h
          · rw [if_neg h4] at h ⊢
            simp only [Option.some.injEq, Prod.mk.injEq] at h
            obtain ⟨ha, hp⟩ := h
            subst ha; subst hp
            exact ⟨rfl, rfl⟩

theorem executePass_clears {W : Type} (srv : ServerManager) (w : W) (s : Session)
    (u p : Str) : (s.executePass srv w u p : Outcome W).session.state.login_attempt = none := by
  unfold Session.executePass
  split <;> rfl

theorem executeAll_login_line {W : Type} (sys : Sys W) (srv : ServerManager)
    (between : List Str) (w : W) (s : Session) (user : Str)
    (hl : s.state.login_attempt = none)
    (h : (Session.executeAll sys srv w s between).2.state.login_attempt = some user) :
    ∃ line ∈ between, ∃ name rest, splitArgs line = "login".toList :: name :: rest := by
  induction between generalizing w s with
  | nil =>
    simp only [Session.executeAll] at h
    rw [hl] at h; cases h
  | cons cmd rest ih =>
    simp only [Session.executeAll] at h
    cases hnext : (s.execute sys srv w cmd).session.state.login_attempt with
    | none =>
      obtain ⟨line, hmem, hx⟩ := ih _ _ hnext h
      exact ⟨line, List.mem_cons_of_mem _ hmem, hx⟩
    | some name =>
      obtain ⟨r, hr⟩ := execute_sets_login sys srv w s cmd name hl hnext
      exact ⟨cmd, by simp, name, r, hr⟩

end grass

namespace grass

theorem executePrivileged_ignores_credentials {W : Type} (sys : Sys W) (srv : ServerManager)
    (w : W) (s : Session) (args : List Str) (creds : Str → Option Str) :
    s.executePrivileged sys { srv with config := { srv.config with credentials := creds } }
      w args = s.executePrivileged sys srv w args := by
  unfold Session.executePrivileged Session.executeW ServerManager.loggedUsers
  rfl

theorem execute_ignores_credentials {W : Type} (sys : Sys W) (srv : ServerManager) (w : W)
    (s : Session) (cmd : Str) (creds : Str → Option Str)
    (h : s.credentialCheck cmd = none) :
    s.execute sys { srv with config := { srv.config with credentials := creds } } w cmd =
      s.execute sys srv w cmd := by
  unfold Session.credentialCheck at h
  unfold Session.execute
  by_cases h1 : cmd.isEmpty = true
  · simp only [h1, if_true]
  · simp only [h1, Bool.false_eq_true, if_false] at h ⊢
    by_cases h2 : (splitArgs cmd).isEmpty = true
    · simp only [h2, if_true]
    · simp only [h2, Bool.false_eq_true, if_false] at h ⊢
      cases hla : s.state.login_attempt with
      | none =>
        dsimp only
        rw [executePrivileged_ignores_credentials]
      | some attempt =>
        rw [hla] at h
        dsimp only at h ⊢
        by_cases h3 : (splitArgs cmd).getD 0 [] ≠ "pass".toList
        · rw [if_pos h3, if_pos h3]
        · rw [if_neg h3] at h
          rw [if_neg h3, if_neg h3]
          by_cases h4 : (splitArgs cmd).length < 2
          · rw [if_pos h4, if_pos h4]
          · rw [if_neg h4] at h; cases h

theorem execute_invalid {W : Type} (sys : Sys W) (srv : ServerManager) (w : W)
    (s : Session) (line c : Str)
    (hl : s.state.login_attempt = none)
    (hc : (splitArgs line).head? = some c)
    (h1 : c ≠ "login".toList) (h2 : c ≠ "ping".toList) (h3 : c ≠ "exit".toList)
    (h4 : c ∉ PRIVILEGED_COMMANDS) :
    s.execute sys srv w line = ⟨.error "Invalid command".toList, s, w⟩ := by
  obtain ⟨rest, hargs⟩ := head_args line c hc
  rw [execute_of_args sys srv w s line c rest hargs, hl]
  simp only [if_neg h1, if_neg h2, if_neg h3, if_neg h4]

/-- C17 (one password attempt per login): a `pass` line that is checked
against the credential table clears the pending login whether or not the
credentials verify; hence, when two lines of a sequence of executed lines are
both checked, a `login <user>` line lies between them. A line executed while
no login is pending is never checked: its outcome is the same whatever the
credential table holds, and for a `pass <password>` line it is the error
"Invalid command". -/
theorem one_password_attempt_per_login {W : Type} (sys : Sys W) (srv : ServerManager)
    (w : W) (s : Session) (first second : Str) (between : List Str) (u1 p1 u2 p2 : Str)
    (h1 : s.credentialCheck first = some (u1, p1))
    (h2 : (Session.executeAll sys srv (s.execute sys srv w first).world
        (s.execute sys srv w first).session between).2.credentialCheck second
      = some (u2, p2)) :
    (s.execute sys srv w first).session.state.login_attempt = none ∧
    (∃ line ∈ between, ∃ name rest, splitArgs line = "login".toList :: name :: rest) ∧
    (∀ (t : Session) (cmd : Str), t.state.login_attempt = none →
      t.credentialCheck cmd = none) ∧
    (∀ (t : Session) (v : W) (cmd : Str) (creds : Str → Option Str),
      t.credentialCheck cmd = none →
      t.execute sys { srv with config := { srv.config with credentials := creds } } v cmd =
        t.execute sys srv v cmd) ∧
    (∀ p : Str, IsWord p →
      (s.execute sys srv w first).session.execute sys srv (s.execute sys srv w first).world
          ("pass ".toList ++ p) =
        ⟨.error "Invalid command".toList, (s.execute sys srv w first).session,
         (s.execute sys srv w first).world⟩) := by
  have hclear : (s.execute sys srv w first).session.state.login_attempt = none := by
    rw [(execute_of_credentialCheck sys srv w s first u1 p1 h1).2]
    exact executePass_clears srv w s u1 p1
  refine ⟨hclear, ?_, ?_, ?_, ?_⟩
  · have h3 := (execute_of_credentialCheck sys srv
      (Session.executeAll sys srv (s.execute sys srv w first).world
        (s.execute sys srv w first).session between).1 _ second u2 p2 h2).1
    exact executeAll_login_line sys srv between _ _ u2 hclear h3
  · intro t cmd ht
    exact credentialCheck_none_of_no_login t cmd ht
  · intro t v cmd creds ht
    exact execute_ignores_credentials sys srv v t cmd creds ht
  · intro p hp
    have hargs : splitArgs ("pass ".toList ++ p) = ["pass".toList, p] :=
      splitArgs_two "pass".toList p (by decide) hp
    exact execute_invalid sys srv _ _ _ "pass".toList hclear (by rw [hargs]; rfl)
      (by decide) (by decide) (by decide) (by decide)

/-- Witness for C17: after `login alice`, the lines `pass wrong`, `pass secret`,
`login alice`, `pass secret`: the first and the last are checked, the second
is not, and the login line lies between the two checks. -/
theorem one_password_attempt_per_login_witness :
    ((demoSession.execute demoSys demoServer () "login alice".toList).session.execute
      demoSys demoServer () "pass wrong".toList).session.state.login_attempt = none ∧
    (∃ line ∈ ["pass secret".toList, "login alice".toList], ∃ name rest,
      splitArgs line = "login".toList :: name :: rest) :=
  ⟨(one_password_attempt_per_login demoSys demoServer ()
      (demoSession.execute demoSys demoServer () "login alice".toList).session
      "pass wrong".toList "pass secret".toList
      ["pass secret".toList, "login alice".toList]
      "alice".toList "wrong".toList "alice".toList "secret".toList
      (by decide) (by decide)).1,
   (one_password_attempt_per_login demoSys demoServer ()
      (demoSession.execute demoSys demoServer () "login alice".toList).session
      "pass wrong".toList "pass secret".toList
      ["pass secret".toList, "login alice".toList]
      "alice".toList "wrong".toList "alice".toList "secret".toList
      (by decide) (by decide)).2.1⟩

end grass

namespace grass

/-! ## The exit line -/

/-- C11 (amended): in every session state, when the line returned by
`nextLine` is exactly `exit`, `Session::onNewData` returns true to the
dispatcher at once: nothing is written for that line, the session
(authentication state, pending login, working directory) and the world are
unchanged, and the buffer is left as `nextLine` left it, so no later line it
holds is executed. -/
theorem exit_line_returns_true {W : Type} (sys : Sys W) (srv : ServerManager) (fuel : Nat)
    (socket_closed : Bool) (w : W) (s : Session) (src : Source) (peer cout cerr : Str)
    (herr : (s.buffer.nextLine socket_closed src).error = none)
    (hline : (s.buffer.nextLine socket_closed src).line = some "exit".toList) :
    s.handleLine sys srv w "exit".toList = .exit ∧
    Session.onNewDataLoop sys srv (fuel + 1) socket_closed w s src peer cout cerr =
      { ending := .returned true,
        session := { s with buffer := (s.buffer.nextLine socket_closed src).rb },
        world := w,
        source := (s.buffer.nextLine socket_closed src).source,
        peer := peer, cout := cout, cerr := cerr } ∧
    (socket_closed = false →
      s.onNewData sys srv w src =
        { ending := .returned true,
          session := { s with buffer := (s.buffer.nextLine false src).rb },
          world := w,
          source := (s.buffer.nextLine false src).source,
          peer := [], cout := [], cerr := [] }) := by
  have hloop : ∀ f p c e, Session.onNewDataLoop sys srv (f + 1) socket_closed w s src p c e =
      { ending := .returned true,
        session := { s with buffer := (s.buffer.nextLine socket_closed src).rb },
        world := w,
        source := (s.buffer.nextLine socket_closed src).source,
        peer := p, cout := c, cerr := e } := by
    intro f p c e
    simp only [Session.onNewDataLoop, herr, hline, Session.handleLine, if_true]
  refine ⟨by simp [Session.handleLine], hloop fuel peer cout cerr, ?_⟩
  intro hc
  subst hc
  unfold Session.onNewData
  have hS : SIZE + src.stream.length = (4095 + src.stream.length) + 1 := by
    simp only [SIZE]; omega
  rw [hS]
  exact hloop _ [] [] []

/-- Witness for C11: the buffer receives `exit` and then `whoami` while a
login is pending; nothing is written and `whoami` is not executed. -/
theorem exit_line_returns_true_witness :
    demoAliceLoginBob.onNewData demoSys demoServer ()
        ⟨"exit\nwhoami\n".toList, [.ready 12]⟩ =
      { ending := .returned true,
        session := { demoAliceLoginBob with
          buffer := (demoAliceLoginBob.buffer.nextLine false
            ⟨"exit\nwhoami\n".toList, [.ready 12]⟩).rb },
        world := (),
        source := (demoAliceLoginBob.buffer.nextLine false
          ⟨"exit\nwhoami\n".toList, [.ready 12]⟩).source,
        peer := [], cout := [], cerr := [] } :=
  (exit_line_returns_true demoSys demoServer 0 false () demoAliceLoginBob
    ⟨"exit\nwhoami\n".toList, [.ready 12]⟩ [] [] [] (by decide) (by decide)).2.2 rfl

/-- Counterexample to C11 as stated: the line `exit` followed by a space has
the single argument token `exit`, but it is answered (one newline is written)
and `onNewData` goes on: the next line `whoami` is executed and the value
returned is false. -/
theorem exit_with_space_counterexample :
    splitArgs "exit ".toList = ["exit".toList] ∧
    (demoAlice.onNewData demoSys demoServer ()
      ⟨"exit \nwhoami\n".toList, [.ready 13]⟩).ending = .returned false ∧
    (demoAlice.onNewData demoSys demoServer ()
      ⟨"exit \nwhoami\n".toList, [.ready 13]⟩).peer = "\nalice\n".toList ∧
    (∃ r, demoAlice.handleLine demoSys demoServer () "exit ".toList = .replied r ∧
      r.peer = "\n".toList) := by
  refine ⟨by decide, by decide, by decide, ⟨_, rfl, by decide⟩⟩

end grass

namespace grass

/-! ## The file opened by put -/

theorem find_last_of_none (s : Str) (h : find_last_of '/' s = none) : '/' ∉ s := by
  induction s with
  | nil => simp
  | cons x xs ih =>
    simp only [find_last_of] at h
    cases hx : find_last_of '/' xs with
    | some i => rw [hx] at h; cases h
    | none =>
      rw [hx] at h
      by_cases hc : x = '/'
      · simp [hc] at h
      · simp only [List.mem_cons, not_or]
        exact ⟨fun e => hc e.symm, ih hx⟩

theorem find_last_of_some (s : Str) (i : Nat) (h : find_last_of '/' s = some i) :
    s = s.take i ++ '/' :: s.drop (i + 1) ∧ '/' ∉ s.drop (i + 1) := by
  induction s generalizing i with
  | nil => simp [find_last_of] at h
  | cons x xs ih =>
    simp only [find_last_of] at h
    cases hx : find_last_of '/' xs with
    | some j =>
      rw [hx] at h
      simp only [Option.some.injEq] at h
      subst h
      obtain ⟨h1, h2⟩ := ih j hx
      refine ⟨?_, ?_⟩
      · simp only [List.take_succ_cons, List.drop_succ_cons, List.cons_append]
        rw [← h1]
      · simpa using h2
    | none =>
      rw [hx] at h
      by_cases hc : x = '/'
      · simp only [hc, if_true, Option.some.injEq] at h
        subst h
        subst hc
        refine ⟨by simp, ?_⟩
        simpa using find_last_of_none xs hx
      · simp [hc] at h

theorem ExtractFilename_spec (rel : Str) :
    '/' ∉ ExtractFilename rel ∧
    ((rel = ExtractFilename rel ∧ '/' ∉ rel) ∨ ∃ pre, rel = pre ++ '/' :: ExtractFilename rel) := by
  unfold ExtractFilename
  cases h : find_last_of '/' rel with
  | none =>
    have hn := find_last_of_none rel h
    exact ⟨hn, Or.inl ⟨rfl, hn⟩⟩
  | some i =>
    obtain ⟨h1, h2⟩ := find_last_of_some rel i h
    exact ⟨h2, Or.inr ⟨rel.take i, h1⟩⟩

theorem TokenizePath_segment (dir : Directory) (d : Str) (hg : GoodSegment d) :
    dir.TokenizePath d = .ok (dir.path ++ [d]) := by
  obtain ⟨h0, h1, h2, hslash⟩ := hg
  have hhead : ¬ (d.length ≥ 1 ∧ d.head? = some '/') := by
    rintro ⟨_, h⟩
    cases d with
    | nil => cases h
    | cons a l =>
      simp only [List.head?_cons, Option.some.injEq] at h
      exact hslash (by rw [h]; simp)
  unfold Directory.TokenizePath tokensOf
  rw [if_neg hhead, tokensFrom_plain d hslash]
  simp only [List.nil_append, if_neg h0, TokenizeLoop]
  rw [TokenizeStep_eq]
  simp [segStep, h0, h1, h2]

theorem TokenizePath_empty (dir : Directory) : dir.TokenizePath [] = .ok dir.path := by
  unfold Directory.TokenizePath
  rfl

theorem TokenizePath_dot (dir : Directory) : dir.TokenizePath ['.'] = .ok dir.path := by
  unfold Directory.TokenizePath
  rfl

theorem TokenizePath_dotdot (dir : Directory) :
    dir.TokenizePath ['.', '.'] =
      if dir.path = [] then .error "Access denied".toList else .ok dir.path.dropLast := by
  unfold Directory.TokenizePath
  have hhead : ¬ (['.', '.'].length ≥ 1 ∧ ['.', '.'].head? = some '/') := by decide
  have htok : tokensOf '/' ['.', '.'] = [['.', '.']] := by decide
  rw [if_neg hhead, htok]
  simp only [TokenizeLoop]
  rw [TokenizeStep_eq]
  cases dir.path <;> simp [segStep]

theorem PathFromRoot_of_tokens (dir : Directory) (b : Str) (v : List Str) (hb : '/' ∉ b)
    (ht : dir.TokenizePath b = .ok v) :
    dir.PathFromRoot b =
      (if (dir.root ++ segmentsText v).length ≤ 128 then .ok (dir.root ++ segmentsText v)
       else .error "The path is too long".toList) := by
  have hhead : ¬ (b.length ≥ 1 ∧ b.head? = some '/') := by
    rintro ⟨_, h⟩
    cases b with
    | nil => cases h
    | cons a l =>
      simp only [List.head?_cons, Option.some.injEq] at h
      exact hb (by rw [h]; simp)
  unfold Directory.PathFromRoot
  rw [if_neg hhead, ht]
  exact PathFromVector_eq_ite dir v

end grass

namespace grass

theorem executePrivileged_put {W : Type} (sys : Sys W) (srv : ServerManager) (w : W)
    (s : Session) (rel sz : Str) (rest : List Str) :
    s.executePrivileged sys srv w ("put".toList :: rel :: sz :: rest) =
      if rel.length > MAX_PATH_LENGTH then ⟨.error "The path is too long".toList, s, w⟩
      else if strtoul sz = 0 then ⟨.error "Invalid size".toList, s, w⟩
      else s.executePut sys w rel (strtoul sz) := by
  have g1 : ¬ ("put".toList = "ls".toList) := by decide
  have g2 : ¬ ("put".toList = "cd".toList) := by decide
  have g3 : ¬ ("put".toList = "mkdir".toList) := by decide
  have g4 : ¬ ("put".toList = "rm".toList) := by decide
  have g5 : ¬ ("put".toList = "get".toList) := by decide
  have g6 : ¬ (("put".toList :: rel :: sz :: rest).length < 3) := by
    simp only [List.length_cons]; omega
  unfold Session.executePrivileged
  simp only [List.getD_cons_zero, List.getD_cons_succ, if_neg g1, if_neg g2, if_neg g3,
    if_neg g4, if_neg g5, if_true, if_neg g6]

theorem executePut_error {W : Type} (sys : Sys W) (w : W) (s : Session) (rel e : Str)
    (size : Nat) (h : s.directory.PathFromRoot (ExtractFilename rel) = .error e) :
    s.executePut sys w rel size = ⟨.error e, s, w⟩ := by
  unfold Session.executePut
  dsimp only
  rw [h]

theorem executePut_open {W : Type} (sys : Sys W) (w : W) (s : Session) (rel p : Str)
    (size : Nat) (h : s.directory.PathFromRoot (ExtractFilename rel) = .ok p) :
    s.executePut sys w rel size =
      match sys.open_write w p with
      | (none, w1) => ⟨.error "Failed to open file for put()".toList, s, w1⟩
      | (some file_fd, w1) =>
        match sys.transfer_run w1 file_fd size false with
        | (.error e, w2) => ⟨.error e, s, w2⟩
        | (.ok port, w2) => ⟨.ok ("put port: ".toList ++ decimal port), s, w2⟩ := by
  unfold Session.executePut
  dsimp only
  rw [h]

theorem executePut_refused {W : Type} (sys : Sys W) (w : W) (s : Session) (rel : Str)
    (size : Nat) (v : List Str)
    (hb : '/' ∉ ExtractFilename rel)
    (ht : s.directory.TokenizePath (ExtractFilename rel) = .ok v)
    (hdir : sys.stat w (s.directory.root ++ segmentsText v) = .ok .directory)
    (hopen : ∀ p, sys.stat w p = .ok .directory → (sys.open_write w p).1 = none) :
    ∃ e w1, s.executePut sys w rel size = ⟨.error e, s, w1⟩ := by
  have hp := PathFromRoot_of_tokens s.directory (ExtractFilename rel) v hb ht
  by_cases hlen : (s.directory.root ++ segmentsText v).length ≤ 128
  · rw [if_pos hlen] at hp
    rw [executePut_open sys w s rel _ size hp]
    have ho := hopen _ hdir
    cases hw : sys.open_write w (s.directory.root ++ segmentsText v) with
    | mk o w1 =>
      rw [hw] at ho
      simp only at ho
      subst ho
      exact ⟨_, w1, rfl⟩
  · rw [if_neg hlen] at hp
    exact ⟨_, w, executePut_error sys w s rel _ size hp⟩

/-- Where `put` does store the file in the working directory: in an
authenticated session with working directory c whose path and whose parent's
path name directories, `open` for writing being refused on a directory, every
accepted `put <rel> <size>` opens the join of the base directory with c ++ [b],
where b = ExtractFilename(rel) is the text of rel after its final `/` (all of
rel if it has none) and is a proper segment. Whatever the file system, the same
path is the one resolved whenever b is a proper segment. -/
theorem put_opens_child_of_cwd {W : Type} (sys : Sys W) (srv : ServerManager) (w : W)
    (s : Session) (line u rel sz : Str) (rest : List Str)
    (hu : s.state.username = some u) (hl : s.state.login_attempt = none)
    (hargs : splitArgs line = "put".toList :: rel :: sz :: rest)
    (hcwd : sys.stat w (s.directory.root ++ segmentsText s.directory.path) = .ok .directory)
    (hparent : sys.stat w (s.directory.root ++ segmentsText s.directory.path.dropLast)
      = .ok .directory)
    (hopen : ∀ p, sys.stat w p = .ok .directory → (sys.open_write w p).1 = none)
    (hacc : ∃ reply, (s.execute sys srv w line).result = .ok reply) :
    GoodSegment (ExtractFilename rel) ∧
    ((rel = ExtractFilename rel ∧ '/' ∉ rel) ∨
      ∃ pre, rel = pre ++ '/' :: ExtractFilename rel) ∧
    (∃ file_fd w1,
      sys.open_write w
          (s.directory.root ++ segmentsText (s.directory.path ++ [ExtractFilename rel])) =
        (some file_fd, w1) ∧
      s.execute sys srv w line =
        match sys.transfer_run w1 file_fd (strtoul sz) false with
        | (.error e, w2) => ⟨.error e, s, w2⟩
        | (.ok port, w2) => ⟨.ok ("put port: ".toList ++ decimal port), s, w2⟩) ∧
    (∀ (t : Session) (other : Str), GoodSegment (ExtractFilename other) →
      t.directory.PathFromRoot (ExtractFilename other) =
        t.directory.PathFromVector (t.directory.path ++ [ExtractFilename other])) := by
  obtain ⟨hslash, hshape⟩ := ExtractFilename_spec rel
  have hgen : ∀ (t : Session) (other : Str), GoodSegment (ExtractFilename other) →
      t.directory.PathFromRoot (ExtractFilename other) =
        t.directory.PathFromVector (t.directory.path ++ [ExtractFilename other]) := by
    intro t other hg
    rw [PathFromRoot_of_tokens t.directory _ _ hg.2.2.2 (TokenizePath_segment _ _ hg),
      PathFromVector_eq_ite]
  obtain ⟨reply, hreply⟩ := hacc
  rw [execute_authenticated_privileged sys srv w s line "put".toList u (rel :: sz :: rest)
    hu hl hargs (by decide), executePrivileged_put] at hreply ⊢
  by_cases hlen : rel.length > MAX_PATH_LENGTH
  · rw [if_pos hlen] at hreply; cases hreply
  rw [if_neg hlen] at hreply ⊢
  by_cases hsz : strtoul sz = 0
  · rw [if_pos hsz] at hreply; cases hreply
  rw [if_neg hsz] at hreply ⊢
  have hrefuse : ∀ v, s.directory.TokenizePath (ExtractFilename rel) = .ok v →
      sys.stat w (s.directory.root ++ segmentsText v) = .ok .directory → False := by
    intro v hv hd
    obtain ⟨e, w1, he⟩ := executePut_refused sys w s rel (strtoul sz) v hslash hv hd hopen
    rw [he] at hreply
    cases hreply
  have hgood : GoodSegment (ExtractFilename rel) := by
    refine ⟨?_, ?_, ?_, hslash⟩
    · intro h0
      exact hrefuse s.directory.path (by rw [h0]; exact TokenizePath_empty _) hcwd
    · intro h1
      exact hrefuse s.directory.path (by rw [h1]; exact TokenizePath_dot _) hcwd
    · intro h2
      by_cases hc : s.directory.path = []
      · have ht : s.directory.TokenizePath (ExtractFilename rel) =
            .error "Access denied".toList := by
          rw [h2, TokenizePath_dotdot, if_pos hc]
        have hhead : ¬ ((ExtractFilename rel).length ≥ 1 ∧
            (ExtractFilename rel).head? = some '/') := by
          rw [h2]; decide
        have hp : s.directory.PathFromRoot (ExtractFilename rel) =
            .error "Access denied".toList := by
          unfold Directory.PathFromRoot
          rw [if_neg hhead, ht]
        rw [executePut_error sys w s rel _ (strtoul sz) hp] at hreply
        cases hreply
      · exact hrefuse s.directory.path.dropLast
          (by rw [h2, TokenizePath_dotdot, if_neg hc]) hparent
  refine ⟨hgood, hshape, ?_, hgen⟩
  have hp := PathFromRoot_of_tokens s.directory (ExtractFilename rel) _ hslash
    (TokenizePath_segment s.directory _ hgood)
  by_cases hl2 : (s.directory.root ++
      segmentsText (s.directory.path ++ [ExtractFilename rel])).length ≤ 128
  · rw [if_pos hl2] at hp
    rw [executePut_open sys w s rel _ (strtoul sz) hp] at hreply ⊢
    cases hw : sys.open_write w
        (s.directory.root ++ segmentsText (s.directory.path ++ [ExtractFilename rel])) with
    | mk o w1 =>
      rw [hw] at hreply
      cases o with
      | none => cases hreply
      | some fd => exact ⟨fd, w1, rfl, rfl⟩
  · rw [if_neg hl2] at hp
    rw [executePut_error sys w s rel _ (strtoul sz) hp] at hreply
    cases hreply

end grass

namespace grass

theorem demoDiskSys_open_directory (w : DemoDisk) (p : Str)
    (h : demoDiskSys.stat w p = .ok .directory) : (demoDiskSys.open_write w p).1 = none := by
  unfold demoDiskSys at h ⊢
  dsimp only at h ⊢
  by_cases h1 : p = "/srv".toList
  · rw [if_pos (Or.inl h1)]
  · rw [if_neg h1] at h
    by_cases h2 : p = "/srv/docs".toList
    · rw [if_pos h2] at h
      cases hd : w.docsIsDir
      · rw [hd] at h
        simp at h
      · rw [if_pos (Or.inr ⟨h2, rfl⟩)]
    · rw [if_neg h2] at h
      cases h

/-- An instance of `put_opens_child_of_cwd`: `put a/b/notes.txt 5` at the root
of the demo disk opens `/srv/notes.txt`. -/
theorem put_opens_child_of_cwd_witness :
    ∃ file_fd w1,
      demoDiskSys.open_write { docsIsDir := true, opened := [] }
          (demoAlice.directory.root ++
            segmentsText (demoAlice.directory.path ++ [ExtractFilename "a/b/notes.txt".toList])) =
        (some file_fd, w1) ∧
      demoAlice.execute demoDiskSys demoServer { docsIsDir := true, opened := [] }
          "put a/b/notes.txt 5".toList =
        match demoDiskSys.transfer_run w1 file_fd (strtoul "5".toList) false with
        | (.error e, w2) => ⟨.error e, demoAlice, w2⟩
        | (.ok port, w2) => ⟨.ok ("put port: ".toList ++ decimal port), demoAlice, w2⟩ :=
  (put_opens_child_of_cwd demoDiskSys demoServer { docsIsDir := true, opened := [] }
    demoAlice "put a/b/notes.txt 5".toList "alice".toList "a/b/notes.txt".toList "5".toList []
    (by decide) (by decide) (by decide) (by decide) (by decide)
    (demoDiskSys_open_directory _) ⟨"put port: 4242".toList, by decide⟩).2.2.1

/-- C20 (put stores the file in cwd), code defect: the session entered `docs`
while it was a directory; `docs` has since been replaced by a regular file.
The line `put . 5` is accepted: `ExtractFilename` gives `.`, which
`PathFromRoot` resolves as a path step, so the path opened is `/srv/docs`, the
path of the working directory itself, not the join of the working directory
with the final component of the argument. While `docs` is a directory the same
line is refused only because `open` fails on a directory. With the working
directory `docs`, `put .. 5` resolves to `/srv`, the path of the parent. And
`open` takes the path as a C string: for the name `a`, NUL, `b` it is
`/srv/a`, only the beginning of the path resolved. -/
theorem put_dot_opens_cwd_path :
    demoAliceInDocs.directory.path = ["docs".toList] ∧
    demoAliceInDocs.state = { username := some "alice".toList, login_attempt := none } ∧
    ExtractFilename ".".toList = ".".toList ∧
    (demoAliceInDocs.execute demoDiskSys demoServer { docsIsDir := false, opened := [] }
      "put . 5".toList).result = .ok "put port: 4242".toList ∧
    (demoAliceInDocs.execute demoDiskSys demoServer { docsIsDir := false, opened := [] }
      "put . 5".toList).world.opened = ["/srv/docs".toList] ∧
    "/srv/docs".toList ≠
      demoAliceInDocs.directory.root ++
        segmentsText (demoAliceInDocs.directory.path ++ [ExtractFilename ".".toList]) ∧
    (demoAliceInDocs.execute demoDiskSys demoServer { docsIsDir := true, opened := [] }
      "put . 5".toList).result = .error "Failed to open file for put()".toList ∧
    demoAliceInDocs.directory.PathFromRoot (ExtractFilename "..".toList) =
      .ok "/srv".toList ∧
    (demoAlice.directory.PathFromRoot (ExtractFilename "a\x00b".toList)).map c_str =
      .ok "/srv/a".toList ∧
    demoAlice.directory.PathFromRoot (ExtractFilename "a\x00b".toList) =
      .ok (demoAlice.directory.root ++
        segmentsText (demoAlice.directory.path ++ ["a\x00b".toList])) := by
  refine ⟨by decide, by decide, by decide, by decide, by decide, by decide, by decide,
    by decide, by decide, by decide⟩

end grass

namespace grass

/-! ## C30: the copy made by `log` -/

theorem splitArgs_word (u : Str) (hu : IsWord u) : splitArgs u = [u] := by
  unfold splitArgs
  have h := wordsFrom_append_word u hu.2 [] []
  rw [List.append_nil, List.nil_append] at h
  rw [h]
  unfold wordsFrom
  rw [if_neg hu.1]

theorem replicate_isWord (n : Nat) (c : Char) (hn : 0 < n) (hc : isspace c = false) :
    IsWord (List.replicate n c) := by
  refine ⟨?_, ?_⟩
  · intro h
    have hl := congrArg List.length h
    rw [List.length_replicate, List.length_nil] at hl
    omega
  · intro d hd
    rw [List.eq_of_mem_replicate hd]
    exact hc

theorem takeWhile_replicate_a (n : Nat) (p : Char → Bool) (hp : p 'a' = true) :
    (List.replicate n 'a').takeWhile p = List.replicate n 'a' := by
  rw [List.takeWhile_eq_self_iff]
  intro d hd
  rw [List.eq_of_mem_replicate hd]
  exact hp

theorem log_overrun (n : Nat) (hn : 2047 ≤ n) :
    log ((List.replicate n 'a').takeWhile (fun c => c ≠ ' ') ++ "\n".toList) = none := by
  have h1 : (List.replicate n 'a').takeWhile (fun c => c ≠ ' ') = List.replicate n 'a' :=
    takeWhile_replicate_a n _ (by decide)
  have h2 : c_str (List.replicate n 'a' ++ "\n".toList) = List.replicate n 'a' ++ "\n".toList := by
    unfold c_str
    rw [List.takeWhile_eq_self_iff]
    intro d hd
    rcases List.mem_append.1 hd with hd | hd
    · rw [List.eq_of_mem_replicate hd]; decide
    · have : d = '\n' := by simpa using hd
      rw [this]; decide
  unfold log
  rw [h1, h2, List.length_append, List.length_replicate]
  have : ("\n".toList).length = 1 := rfl
  rw [this, if_pos (by simp only [ERROR_LENGTH]; omega)]

theorem execute_long_word {W : Type} (sys : Sys W) (srv : ServerManager) (w : W) (s : Session)
    (n : Nat) (hn : 7 ≤ n) (hl : s.state.login_attempt = none) :
    s.execute sys srv w (List.replicate n 'a') = ⟨.error "Invalid command".toList, s, w⟩ := by
  have hword : IsWord (List.replicate n 'a') := replicate_isWord n 'a' (by omega) (by decide)
  have hne : ∀ t : Str, t.length < 7 → List.replicate n 'a' ≠ t := by
    intro t ht h
    have hlen := congrArg List.length h
    rw [List.length_replicate] at hlen
    omega
  refine execute_invalid sys srv w s _ (List.replicate n 'a') hl ?_ (hne _ (by decide))
    (hne _ (by decide)) (hne _ (by decide)) ?_
  · rw [splitArgs_word _ hword]; rfl
  · intro hmem
    have : ∀ t ∈ PRIVILEGED_COMMANDS, t.length < 7 := by decide
    exact hne _ (this _ hmem) rfl

/-- C30 (error logging stays within its buffer), code defect: the line of 2047
bytes `a` can be decoded (it is shorter than 4095 bytes) and raises `Invalid
command` in an anonymous session; the text before its first space is the whole
line, so the message passed to `log` has 2048 bytes and needs 2049 with its
terminating NUL: the copy into the 2048-byte array runs out of bounds. -/
theorem log_overruns_on_long_command :
    (List.replicate 2047 'a').length ≤ SIZE - 1 ∧
    demoSession.execute demoSys demoServer () (List.replicate 2047 'a') =
      ⟨.error "Invalid command".toList, demoSession, ()⟩ ∧
    (c_str ((List.replicate 2047 'a').takeWhile (fun c => c ≠ ' ') ++ "\n".toList)).length + 1
      = ERROR_LENGTH + 1 ∧
    log ((List.replicate 2047 'a').takeWhile (fun c => c ≠ ' ') ++ "\n".toList) = none ∧
    demoSession.handleLine demoSys demoServer () (List.replicate 2047 'a') = .undefined := by
  have hex := execute_long_word demoSys demoServer () demoSession 2047 (by omega) rfl
  have hlog := log_overrun 2047 (le_refl _)
  refine ⟨?_, hex, ?_, hlog, ?_⟩
  · rw [List.length_replicate]; simp only [SIZE]; omega
  · rw [takeWhile_replicate_a 2047 _ (by decide)]
    have h2 : c_str (List.replicate 2047 'a' ++ "\n".toList)
        = List.replicate 2047 'a' ++ "\n".toList := by
      unfold c_str
      rw [List.takeWhile_eq_self_iff]
      intro d hd
      rcases List.mem_append.1 hd with hd | hd
      · rw [List.eq_of_mem_replicate hd]; decide
      · have : d = '\n' := by simpa using hd
        rw [this]; decide
    rw [h2, List.length_append, List.length_replicate]
    rfl
  · have hne : ¬ (List.replicate 2047 'a' = "exit".toList) := by
      intro h
      have hlen := congrArg List.length h
      rw [List.length_replicate] at hlen
      exact absurd hlen (by decide)
    unfold Session.handleLine
    rw [if_neg hne]
    simp only [hex, hlog]

end grass

namespace grass

/-! ## RingBuffer: cursors, flags and the reads of one pull -/

theorem findNewlineFrom_none (rb : RingBuffer)
    (hr : rb.read_idx < SIZE) (hw : rb.write_idx < SIZE)
    (hno : ∀ j < rb.live, rb.buf ((rb.read_idx + j) % SIZE) ≠ '\n') :
    ∀ (d fuel j : Nat), j + d = rb.live → d < fuel →
      rb.findNewlineFrom fuel ((rb.read_idx + j) % SIZE) = none := by
  intro d
  induction d with
  | zero =>
    intro fuel j hj hf
    obtain ⟨f, rfl⟩ : ∃ f, fuel = f + 1 := ⟨fuel - 1, by omega⟩
    have hat : (rb.read_idx + j) % SIZE = rb.write_idx := by
      unfold RingBuffer.live at hj
      simp only [SIZE] at hj hr hw ⊢
      omega
    simp only [RingBuffer.findNewlineFrom, if_pos hat]
  | succ d ih =>
    intro fuel j hj hf
    obtain ⟨f, rfl⟩ : ∃ f, fuel = f + 1 := ⟨fuel - 1, by omega⟩
    have hjl : j < rb.live := by omega
    have hat : (rb.read_idx + j) % SIZE ≠ rb.write_idx := by
      intro h
      unfold RingBuffer.live at hjl
      simp only [SIZE] at hjl hr hw h
      omega
    simp only [RingBuffer.findNewlineFrom, if_neg hat, if_neg (hno j hjl)]
    have hstep : ((rb.read_idx + j) % SIZE + 1) % SIZE = (rb.read_idx + (j + 1)) % SIZE := by
      simp only [SIZE]; omega
    rw [hstep]
    exact ih f (j + 1) (by omega) (by omega)

theorem findNewline_none (rb : RingBuffer)
    (hr : rb.read_idx < SIZE) (hw : rb.write_idx < SIZE)
    (hno : ∀ j < rb.live, rb.buf ((rb.read_idx + j) % SIZE) ≠ '\n') :
    rb.findNewline = none := by
  have hl : rb.live < SIZE := by
    unfold RingBuffer.live
    exact Nat.mod_lt _ (by simp [SIZE])
  have h := findNewlineFrom_none rb hr hw hno rb.live SIZE 0 (by omega) hl
  have h0 : (rb.read_idx + 0) % SIZE = rb.read_idx := by
    simp only [SIZE] at hr ⊢; omega
  rw [h0] at h
  exact h

end grass

namespace grass

end grass

namespace grass

theorem receive_full (rb : RingBuffer) (c : Bool) (stream : Str) (script : List SysRead)
    (hf : rb.full = true) :
    rb.receiveFromSocket c stream script = ⟨rb, c, ⟨stream, script⟩, none⟩ := by
  cases script with
  | nil => unfold RingBuffer.receiveFromSocket; rw [if_pos hf]
  | cons ev rest => unfold RingBuffer.receiveFromSocket; rw [if_pos hf]

theorem nextLine_full_stuck (rb : RingBuffer) (c : Bool) (src : Source)
    (hf : rb.full = true) (hno : rb.findNewline = none) :
    rb.nextLine c src = ⟨none, rb, c, src, none⟩ := by
  unfold RingBuffer.nextLine
  rw [hno]
  simp only [receive_full rb c src.stream src.script hf, hno]

end grass

namespace grass

/-! ## The commands leave the line buffer alone -/

end grass

namespace grass

/-! ## The value returned by `onNewData` -/

end grass

namespace grass

end grass

namespace grass

/-! ## A full buffer without a newline -/

theorem receive_append (rb : RingBuffer) (c : Bool) (stream : Str) (n : Nat)
    (rest : List SysRead) (hr : rb.read_idx = 0)
    (hlen : rb.write_idx + min n stream.length < SIZE) (hn : 0 < n) (hs : 0 < stream.length) :
    rb.receiveFromSocket c stream (.ready n :: rest) =
      ⟨{ rb with buf := storeAt rb.buf rb.write_idx (stream.take (min n stream.length)),
                 write_idx := rb.write_idx + min n stream.length },
       false, ⟨stream.drop (min n stream.length), rest⟩, none⟩ := by
  have hfull : rb.full = false := by
    unfold RingBuffer.full
    rw [beq_eq_false_iff_ne, hr]
    simp only [SIZE] at hlen ⊢
    omega
  have hlt : ¬ (rb.write_idx < rb.read_idx) := by rw [hr]; omega
  have hk : min n (min (SIZE - rb.write_idx) stream.length) = min n stream.length := by
    simp only [SIZE] at hlen ⊢
    omega
  have hmax : ¬ (SIZE - rb.write_idx = 0) := by simp only [SIZE] at hlen ⊢; omega
  have hk0 : ¬ (min n stream.length = 0) := by omega
  have hbl : (List.take (min n stream.length) stream).length = min n stream.length := by
    rw [List.length_take]; omega
  have hne : ¬ (SIZE - rb.write_idx = min n stream.length) := by
    simp only [SIZE] at hlen ⊢
    omega
  have hmod : (rb.write_idx + min n stream.length) % SIZE = rb.write_idx + min n stream.length := by
    apply Nat.mod_eq_of_lt
    simp only [SIZE] at hlen ⊢
    omega
  unfold RingBuffer.receiveFromSocket
  simp only [hfull, Bool.false_eq_true, if_false, if_neg hlt, sysRead, hk, if_neg hmax,
    if_neg hk0, hbl, if_neg hne, hmod]

theorem onNewData_full_stuck {W : Type} (sys : Sys W) (srv : ServerManager) (w : W)
    (s : Session) (src : Source) (hfull : s.buffer.full = true)
    (hno : s.buffer.findNewline = none) :
    s.onNewData sys srv w src = ⟨.returned false, s, w, src, [], [], []⟩ := by
  have hfuel : SIZE + src.stream.length = (4095 + src.stream.length) + 1 := by
    simp only [SIZE]; omega
  unfold Session.onNewData
  rw [hfuel]
  unfold Session.onNewDataLoop
  simp only [nextLine_full_stuck s.buffer false src hfull hno]

theorem live_of_full (rb : RingBuffer) (hr : rb.read_idx < SIZE) (hw : rb.write_idx < SIZE)
    (hfull : rb.full = true) : rb.live = SIZE - 1 := by
  unfold RingBuffer.full at hfull
  rw [beq_iff_eq] at hfull
  unfold RingBuffer.live
  simp only [SIZE] at hfull hr hw ⊢
  omega

/-- C26 (amended): whenever a session's line buffer is full (4095 live bytes)
and holds no newline, `Session::onNewData` reads nothing from the socket,
writes nothing, leaves the session and the world as they were and returns
false: the dispatcher keeps the session, which cannot make progress. -/
theorem full_buffer_keeps_session {W : Type} (sys : Sys W) (srv : ServerManager) (w : W)
    (s : Session) (src : Source)
    (hr : s.buffer.read_idx < SIZE) (hw : s.buffer.write_idx < SIZE)
    (hfull : s.buffer.full = true)
    (hno : ∀ j < s.buffer.live, s.buffer.buf ((s.buffer.read_idx + j) % SIZE) ≠ '\n') :
    s.buffer.live = 4095 ∧
    s.onNewData sys srv w src =
      { ending := .returned false, session := s, world := w, source := src,
        peer := [], cout := [], cerr := [] } ∧
    (s.onNewData sys srv w src).session.onNewData sys srv (s.onNewData sys srv w src).world
        (s.onNewData sys srv w src).source =
      { ending := .returned false, session := s, world := w, source := src,
        peer := [], cout := [], cerr := [] } := by
  have hnone := findNewline_none s.buffer hr hw hno
  have h := onNewData_full_stuck sys srv w s src hfull hnone
  refine ⟨live_of_full s.buffer hr hw hfull, h, ?_⟩
  rw [h]
  exact h

end grass

namespace grass

/-- Witness for C26 (amended): the session whose buffer holds 4095 bytes `a`,
with the rest of the line waiting on the socket. -/
theorem full_buffer_keeps_session_witness :
    demoFullSession.buffer.live = 4095 ∧
    demoFullSession.onNewData demoSys demoServer () ⟨"a\nexit\n".toList, [.ready 7]⟩ =
      { ending := .returned false, session := demoFullSession, world := (),
        source := ⟨"a\nexit\n".toList, [.ready 7]⟩, peer := [], cout := [], cerr := [] } :=
  ⟨(full_buffer_keeps_session demoSys demoServer () demoFullSession
      ⟨"a\nexit\n".toList, [.ready 7]⟩ (by decide) (by decide) (by decide)
      (fun _ _ => (by decide : 'a' ≠ '\n'))).1,
   (full_buffer_keeps_session demoSys demoServer () demoFullSession
      ⟨"a\nexit\n".toList, [.ready 7]⟩ (by decide) (by decide) (by decide)
      (fun _ _ => (by decide : 'a' ≠ '\n'))).2.1⟩

end grass

namespace grass

/-! ## A text received from the start of the array -/

theorem storeAt_text (buf : Nat → Char) (all : Str) (k m : Nat)
    (hk : ∀ i < k, buf i = all.getD i 'x') (hm : k + m ≤ all.length) :
    ∀ i < k + m, storeAt buf k ((all.drop k).take m) i = all.getD i 'x' := by
  intro i hi
  have hlen : ((all.drop k).take m).length = m := by
    rw [List.length_take, List.length_drop]; omega
  unfold storeAt
  rw [hlen]
  by_cases h : k ≤ i ∧ i < k + m
  · rw [if_pos h]
    have h1 : i - k < ((all.drop k).take m).length := by rw [hlen]; omega
    have h2 : i < all.length := by omega
    rw [List.getD_eq_getElem _ _ h1, List.getD_eq_getElem _ _ h2, List.getElem_take,
      List.getElem_drop]
    congr 1
    omega
  · rw [if_neg h]
    exact hk i (by omega)

theorem range_map_getD (all : Str) (p : Nat) (hp : p ≤ all.length) :
    (List.range p).map (fun j => all.getD j 'x') = all.take p := by
  apply List.ext_getElem
  · rw [List.length_map, List.length_range, List.length_take]; omega
  · intro i h1 h2
    rw [List.length_map, List.length_range] at h1
    rw [List.getElem_map, List.getElem_range, List.getElem_take,
      List.getD_eq_getElem _ _ (by omega)]

end grass

namespace grass

theorem live_from_zero (k : Nat) (buf : Nat → Char) (hk : k < SIZE) :
    (RingBuffer.mk 0 k buf).live = k := by
  unfold RingBuffer.live
  simp only [SIZE] at hk ⊢
  omega

theorem findNewline_text_none (k : Nat) (buf : Nat → Char) (all : Str) (hk : k < SIZE)
    (hbuf : ∀ i < k, buf i = all.getD i 'x') (hno : ∀ i < k, all.getD i 'x' ≠ '\n') :
    (RingBuffer.mk 0 k buf).findNewline = none := by
  apply findNewline_none _ (by show 0 < SIZE; simp [SIZE]) hk
  intro j hj
  rw [live_from_zero k buf hk] at hj
  have hidx : (0 + j) % SIZE = j := by
    simp only [SIZE] at hk ⊢; omega
  show buf ((0 + j) % SIZE) ≠ '\n'
  rw [hidx, hbuf j hj]
  exact hno j hj

theorem find_consume_text (k p : Nat) (buf : Nat → Char) (all : Str)
    (hk : k < SIZE) (hp : p < k) (hkl : k ≤ all.length)
    (hbuf : ∀ i < k, buf i = all.getD i 'x') (hnl : all.getD p 'x' = '\n')
    (hfirst : ∀ i < p, all.getD i 'x' ≠ '\n') :
    (RingBuffer.mk 0 k buf).findNewline = some ((0 + p) % SIZE) ∧
    (RingBuffer.mk 0 k buf).consume ((0 + p) % SIZE) =
      (all.take p, RingBuffer.mk ((p + 1) % SIZE) k buf) := by
  have hidx : ∀ j, j < k → (0 + j) % SIZE = j := by
    intro j hj
    simp only [SIZE] at hk ⊢; omega
  have hlive : p < (RingBuffer.mk 0 k buf).live := by rw [live_from_zero k buf hk]; exact hp
  have hfind : (RingBuffer.mk 0 k buf).findNewline = some ((0 + p) % SIZE) := by
    apply findNewline_first _ p (by show 0 < SIZE; simp [SIZE]) hlive
    · show buf ((0 + p) % SIZE) = '\n'
      rw [hidx p hp, hbuf p hp]; exact hnl
    · intro j hj
      show buf ((0 + j) % SIZE) ≠ '\n'
      rw [hidx j (by omega), hbuf j (by omega)]; exact hfirst j hj
  have hcons := consume_first (RingBuffer.mk 0 k buf) p (by show 0 < SIZE; simp [SIZE])
    (by omega)
  have hmap : (List.range p).map (fun j => buf ((0 + j) % SIZE)) = all.take p := by
    rw [← range_map_getD all p (by omega)]
    apply List.map_congr_left
    intro j hj
    have hjp := List.mem_range.mp hj
    rw [hidx j (by omega), hbuf j (by omega)]
  refine ⟨hfind, ?_⟩
  rw [hcons]
  refine Prod.ext ?_ ?_
  · exact hmap
  · show RingBuffer.mk ((0 + p + 1) % SIZE) k buf = RingBuffer.mk ((p + 1) % SIZE) k buf
    rw [Nat.zero_add]

theorem receive_text (k n : Nat) (buf : Nat → Char) (all : Str) (c : Bool)
    (rest : List SysRead) (hlen : k + min n (all.length - k) < SIZE) (hk : k < all.length)
    (hn : 0 < n) :
    (RingBuffer.mk 0 k buf).receiveFromSocket c (all.drop k) (.ready n :: rest) =
      ⟨RingBuffer.mk 0 (k + min n (all.length - k))
          (storeAt buf k ((all.drop k).take (min n (all.length - k)))),
        false, ⟨all.drop (k + min n (all.length - k)), rest⟩, none⟩ := by
  have h := receive_append (RingBuffer.mk 0 k buf) c (all.drop k) n rest rfl
    (by show k + min n (all.drop k).length < SIZE; rw [List.length_drop]; exact hlen) hn
    (by rw [List.length_drop]; omega)
  rw [List.length_drop, List.drop_drop] at h
  exact h

theorem nextLine_text_pull (k n : Nat) (buf : Nat → Char) (all : Str) (c : Bool)
    (rest : List SysRead) (hlen : k + min n (all.length - k) < SIZE) (hk : k < all.length)
    (hn : 0 < n)
    (hbuf : ∀ i < k, buf i = all.getD i 'x') (hpre : ∀ i < k, all.getD i 'x' ≠ '\n') :
    ((∀ i < k + min n (all.length - k), all.getD i 'x' ≠ '\n') →
      (RingBuffer.mk 0 k buf).nextLine c ⟨all.drop k, .ready n :: rest⟩ =
        ⟨none,
         RingBuffer.mk 0 (k + min n (all.length - k))
           (storeAt buf k ((all.drop k).take (min n (all.length - k)))),
         false, ⟨all.drop (k + min n (all.length - k)), rest⟩, none⟩) ∧
    (∀ p, p < k + min n (all.length - k) → all.getD p 'x' = '\n' →
      (∀ i < p, all.getD i 'x' ≠ '\n') →
      (RingBuffer.mk 0 k buf).nextLine c ⟨all.drop k, .ready n :: rest⟩ =
        ⟨some (all.take p),
         RingBuffer.mk ((p + 1) % SIZE) (k + min n (all.length - k))
           (storeAt buf k ((all.drop k).take (min n (all.length - k)))),
         false, ⟨all.drop (k + min n (all.length - k)), rest⟩, none⟩) := by
  have hkS : k < SIZE := by omega
  have hm : k + min n (all.length - k) ≤ all.length := by omega
  have hmS : k + min n (all.length - k) < SIZE := hlen
  have h0 := findNewline_text_none k buf all hkS hbuf hpre
  have hrecv := receive_text k n buf all c rest hlen hk hn
  have hbuf1 := storeAt_text buf all k (min n (all.length - k)) hbuf hm
  refine ⟨?_, ?_⟩
  · intro hno
    have h1 := findNewline_text_none (k + min n (all.length - k)) _ all hmS hbuf1 hno
    unfold RingBuffer.nextLine
    rw [h0]
    simp only [hrecv, h1]
  · intro p hp hnl hfirst
    obtain ⟨h1, h2⟩ := find_consume_text (k + min n (all.length - k)) p _ all hmS hp hm hbuf1
      hnl hfirst
    unfold RingBuffer.nextLine
    rw [h0]
    simp only [hrecv, h1, h2]

end grass

namespace grass

/-! ## C25: the longest line -/

theorem line_text (line : Str) (hnl : '\n' ∉ line) :
    (∀ i < line.length, (line ++ ['\n']).getD i 'x' ≠ '\n') ∧
    (line ++ ['\n']).getD line.length 'x' = '\n' ∧
    (line ++ ['\n']).length = line.length + 1 ∧
    (line ++ ['\n']).take line.length = line := by
  refine ⟨?_, ?_, ?_, ?_⟩
  · intro i hi h
    have hi2 : i < (line ++ ['\n']).length := by rw [List.length_append]; omega
    rw [List.getD_eq_getElem _ _ hi2, List.getElem_append_left hi] at h
    exact hnl (h ▸ List.getElem_mem hi)
  · have hi2 : line.length < (line ++ ['\n']).length := by
      rw [List.length_append]; exact Nat.lt_succ_self _
    rw [List.getD_eq_getElem _ _ hi2, List.getElem_append_right (Nat.le_refl _)]
    simp
  · rw [List.length_append]; rfl
  · exact List.take_left' rfl

theorem nextLineRepeat_text (line : Str) (hlen : line.length + 1 < SIZE) (hnl : '\n' ∉ line) :
    ∀ (script : List Nat) (k : Nat) (buf : Nat → Char) (c : Bool),
      k ≤ line.length → (∀ i < k, buf i = (line ++ ['\n']).getD i 'x') →
      (∀ n ∈ script, 0 < n) → line.length + 1 - k ≤ script.sum →
      ((RingBuffer.mk 0 k buf).nextLineRepeat script.length c
        ⟨(line ++ ['\n']).drop k, script.map .ready⟩).line = some line := by
  obtain ⟨hno, hat, hL, htake⟩ := line_text line hnl
  intro script
  induction script with
  | nil =>
    intro k buf c hk _ _ hsum
    simp only [List.sum_nil] at hsum
    omega
  | cons n ns ih =>
    intro k buf c hk hbuf hpos hsum
    have hn : 0 < n := hpos n (List.mem_cons_self _ _)
    have hkl : k < (line ++ ['\n']).length := by rw [hL]; omega
    have hmS : k + min n ((line ++ ['\n']).length - k) < SIZE := by rw [hL]; omega
    have hpre : ∀ i < k, (line ++ ['\n']).getD i 'x' ≠ '\n' := fun i hi => hno i (by omega)
    obtain ⟨hnone, hfound⟩ :=
      nextLine_text_pull k n buf (line ++ ['\n']) c (ns.map .ready) hmS hkl hn hbuf hpre
    rw [List.length_cons, List.map_cons, RingBuffer.nextLineRepeat]
    by_cases hall : line.length + 1 - k ≤ n
    · have hp : line.length < k + min n ((line ++ ['\n']).length - k) := by rw [hL]; omega
      have h := hfound line.length hp hat hno
      rw [htake] at h
      simp only [h, Option.isSome_some, true_or, if_true]
    · have hm : min n ((line ++ ['\n']).length - k) = n := by rw [hL]; omega
      have hno2 : ∀ i < k + min n ((line ++ ['\n']).length - k),
          (line ++ ['\n']).getD i 'x' ≠ '\n' := by
        intro i hi
        rw [hm] at hi
        exact hno i (by omega)
      have h := hnone hno2
      have hbuf1 := storeAt_text buf (line ++ ['\n']) k (min n ((line ++ ['\n']).length - k))
        hbuf (by rw [hL]; omega)
      rw [hm] at h hbuf1
      simp only [h, Option.isSome_none, Bool.false_eq_true, or_self, if_false]
      apply ih (k + n) _ false (by omega) hbuf1 (fun x hx => hpos x (List.mem_cons_of_mem _ hx))
      simp only [List.sum_cons] at hsum
      omega

/-- C25 (amended): starting from an empty `RingBuffer`, when the socket
delivers a line of exactly 4094 bytes other than newline followed by its newline
and nothing more, in one `read` or split over several reads of any sizes,
some call of `nextLine` returns that 4094-byte line intact. -/
theorem nextLine_returns_longest_line (junk : Nat → Char) (line : Str) (script : List Nat)
    (hlen : line.length = 4094) (hnl : '\n' ∉ line)
    (hpos : ∀ n ∈ script, 0 < n) (hsum : 4095 ≤ script.sum) :
    ((RingBuffer.new junk).nextLineRepeat script.length false
      ⟨line ++ ['\n'], script.map .ready⟩).line = some line := by
  have h := nextLineRepeat_text line (by rw [hlen]; simp [SIZE]) hnl script 0 junk false
    (Nat.zero_le _) (fun i hi => absurd hi (Nat.not_lt_zero i)) hpos (by rw [hlen]; exact hsum)
  exact h

/-- Witness for C25 (amended): 4094 bytes `a` and the newline, delivered in
reads of 4000 and 95 bytes. -/
theorem nextLine_returns_longest_line_witness :
    ((RingBuffer.new (fun _ => 'x')).nextLineRepeat [4000, 95].length false
      ⟨List.replicate 4094 'a' ++ ['\n'], [4000, 95].map .ready⟩).line =
      some (List.replicate 4094 'a') :=
  nextLine_returns_longest_line (fun _ => 'x') (List.replicate 4094 'a') [4000, 95]
    (List.length_replicate 4094 'a')
    (fun h => absurd (List.eq_of_mem_replicate h) (by decide))
    (by decide) (by decide)

end grass

namespace grass

theorem nextLineRepeat_full_stuck (rb : RingBuffer) (hf : rb.full = true)
    (hno : rb.findNewline = none) :
    ∀ (n : Nat) (c : Bool) (src : Source),
      rb.nextLineRepeat n c src = ⟨none, rb, c, src, none⟩ := by
  intro n
  induction n with
  | zero =>
    intro c src
    rw [RingBuffer.nextLineRepeat]
    exact nextLine_full_stuck rb c src hf hno
  | succ n ih =>
    intro c src
    rw [RingBuffer.nextLineRepeat]
    simp only [nextLine_full_stuck rb c src hf hno, Option.isSome_none, Bool.false_eq_true,
      or_self, if_false]
    exact ih c src

theorem nextLine_fills (junk : Nat → Char) (line tail : Str) (c : Bool) (rest : List SysRead)
    (hlen : line.length = 4095) (hnl : '\n' ∉ line) :
    ∃ buf1, (RingBuffer.new junk).nextLine c ⟨line ++ tail, .ready 4095 :: rest⟩ =
        ⟨none, RingBuffer.mk 0 4095 buf1, false, ⟨tail, rest⟩, none⟩ ∧
      (RingBuffer.mk 0 4095 buf1).full = true ∧
      (RingBuffer.mk 0 4095 buf1).findNewline = none := by
  have hall : (line ++ tail).length = 4095 + tail.length := by rw [List.length_append, hlen]
  have hno : ∀ i < 4095, (line ++ tail).getD i 'x' ≠ '\n' := by
    intro i hi h
    have hi1 : i < line.length := by omega
    have hi2 : i < (line ++ tail).length := by omega
    rw [List.getD_eq_getElem _ _ hi2, List.getElem_append_left hi1] at h
    exact hnl (h ▸ List.getElem_mem hi1)
  have hm : min 4095 ((line ++ tail).length - 0) = 4095 := by omega
  have hpull := (nextLine_text_pull 0 4095 junk (line ++ tail) c rest
    (by rw [hm]; simp [SIZE]) (by omega) (by decide)
    (fun i hi => absurd hi (Nat.not_lt_zero i))
    (fun i hi => absurd hi (Nat.not_lt_zero i))).1 (by rw [hm]; exact hno)
  have hbuf1 := storeAt_text junk (line ++ tail) 0 4095
    (fun i hi => absurd hi (Nat.not_lt_zero i)) (by omega)
  rw [hm] at hpull
  have hdrop : List.drop (0 + 4095) (line ++ tail) = tail := by
    rw [Nat.zero_add]
    exact List.drop_left' hlen
  rw [hdrop] at hpull
  refine ⟨storeAt junk 0 (((line ++ tail).drop 0).take 4095), hpull, ?_, ?_⟩
  · simp [RingBuffer.full, SIZE]
  · exact findNewline_text_none (0 + 4095) _ (line ++ tail) (by simp [SIZE]) hbuf1 hno

theorem replicate_no_newline (n : Nat) : '\n' ∉ List.replicate n 'a' :=
  fun h => absurd (List.eq_of_mem_replicate h) (by decide)

theorem demoLongLine_length : demoLongLine.length = 4096 := by
  unfold demoLongLine
  rw [List.length_append, List.length_replicate]
  rfl

/-- C25 (counterexample): the line of 4095 bytes `a` and its newline. Delivered
in reads of 4095 bytes and 1 byte, the 4095 bytes fill the buffer, which holds
no newline: every later call of `nextLine` returns no line and reads nothing,
the newline staying on the socket. Delivered in one `read` of 4096 bytes, the
write cursor wraps onto the read cursor and the buffer is taken for empty: no
line is returned, then or later. -/
theorem longest_line_counterexample :
    demoLongLine.length = 4096 ∧
    (∀ n : Nat,
      ((RingBuffer.new (fun _ => 'x')).nextLineRepeat n false
        ⟨demoLongLine, [.ready 4095, .ready 1]⟩).line = none ∧
      ((RingBuffer.new (fun _ => 'x')).nextLineRepeat n false
        ⟨demoLongLine, [.ready 4095, .ready 1]⟩).source = ⟨['\n'], [.ready 1]⟩) ∧
    ((RingBuffer.new (fun _ => 'x')).nextLine false ⟨demoLongLine, [.ready 4096]⟩).line = none ∧
    ((RingBuffer.new (fun _ => 'x')).nextLine false ⟨demoLongLine, [.ready 4096]⟩).source =
      ⟨[], []⟩ ∧
    ((((RingBuffer.new (fun _ => 'x')).nextLine false ⟨demoLongLine, [.ready 4096]⟩).rb).nextLine
      false ⟨[], []⟩).line = none := by
  refine ⟨demoLongLine_length, ?_, ?_⟩
  · obtain ⟨buf1, h1, hfull, hnone⟩ := nextLine_fills (fun _ => 'x') (List.replicate 4095 'a')
      ['\n'] false [.ready 1] (List.length_replicate _ _) (replicate_no_newline 4095)
    have h1b : (RingBuffer.new (fun _ => 'x')).nextLine false
        ⟨demoLongLine, [.ready 4095, .ready 1]⟩ =
        ⟨none, RingBuffer.mk 0 4095 buf1, false, ⟨['\n'], [.ready 1]⟩, none⟩ := h1
    intro n
    cases n with
    | zero =>
      rw [RingBuffer.nextLineRepeat, h1b]
      exact ⟨rfl, rfl⟩
    | succ n =>
      rw [RingBuffer.nextLineRepeat]
      simp only [h1b, Option.isSome_none, Bool.false_eq_true, or_self, if_false]
      rw [nextLineRepeat_full_stuck _ hfull hnone n false ⟨['\n'], [.ready 1]⟩]
      exact ⟨rfl, rfl⟩
  · have hlen : SIZE ≤ demoLongLine.length := by rw [demoLongLine_length]; exact Nat.le_refl _
    have h := nextLine_full_first_read (RingBuffer.new (fun _ => 'x')) false demoLongLine
      rfl rfl hlen
    have h4 : (4096 : Nat) = SIZE := rfl
    have hdrop : List.drop SIZE demoLongLine = [] :=
      List.drop_eq_nil_of_le (by rw [demoLongLine_length]; exact Nat.le_refl _)
    rw [h4, h, hdrop]
    refine ⟨rfl, rfl, ?_⟩
    rw [nextLine_idle _ false [] rfl]

end grass

namespace grass

theorem onNewData_no_line {W : Type} (sys : Sys W) (srv : ServerManager) (w : W)
    (s : Session) (src : Source) (hline : (s.buffer.nextLine false src).line = none)
    (herr : (s.buffer.nextLine false src).error = none) :
    s.onNewData sys srv w src =
      ⟨.returned (s.buffer.nextLine false src).socket_closed,
       { s with buffer := (s.buffer.nextLine false src).rb }, w,
       (s.buffer.nextLine false src).source, [], [], []⟩ := by
  have hfuel : SIZE + src.stream.length = (4095 + src.stream.length) + 1 := by
    simp only [SIZE]; omega
  unfold Session.onNewData
  rw [hfuel]
  unfold Session.onNewDataLoop
  simp only [hline, herr]

/-- C26 (counterexample): the peer sends 4095 bytes `a` and then more. The
first call of `Session::onNewData` on the new session stores the 4095 bytes:
the buffer is full and holds no newline, and the call returns false. The next
call returns false again and reads nothing, the rest of the line and the line
`exit` staying on the socket: the dispatcher keeps a session that makes no
progress. -/
theorem full_buffer_counterexample :
    (demoSession.onNewData demoSys demoServer () demoFlood).ending = .returned false ∧
    (demoSession.onNewData demoSys demoServer () demoFlood).session.buffer.full = true ∧
    (demoSession.onNewData demoSys demoServer () demoFlood).session.buffer.live = 4095 ∧
    (demoSession.onNewData demoSys demoServer () demoFlood).session.buffer.findNewline
      = none ∧
    (demoSession.onNewData demoSys demoServer () demoFlood).source =
      ⟨"a\nexit\n".toList, [.ready 7]⟩ ∧
    ((demoSession.onNewData demoSys demoServer () demoFlood).session.onNewData demoSys
      demoServer () ⟨"a\nexit\n".toList, [.ready 7]⟩).ending = .returned false ∧
    ((demoSession.onNewData demoSys demoServer () demoFlood).session.onNewData demoSys
      demoServer () ⟨"a\nexit\n".toList, [.ready 7]⟩).source =
      ⟨"a\nexit\n".toList, [.ready 7]⟩ := by
  obtain ⟨buf1, h1, hfull, hnone⟩ := nextLine_fills (fun _ => 'x') (List.replicate 4095 'a')
    "a\nexit\n".toList false [.ready 7] (List.length_replicate _ _) (replicate_no_newline 4095)
  have h1b : demoSession.buffer.nextLine false demoFlood =
      ⟨none, RingBuffer.mk 0 4095 buf1, false, ⟨"a\nexit\n".toList, [.ready 7]⟩, none⟩ := h1
  have h2 := onNewData_no_line demoSys demoServer () demoSession demoFlood
    (by rw [h1b]) (by rw [h1b])
  rw [h1b] at h2
  rw [h2]
  have h3 := onNewData_full_stuck demoSys demoServer ()
    ({ demoSession with buffer := RingBuffer.mk 0 4095 buf1 } : Session)
    ⟨"a\nexit\n".toList, [.ready 7]⟩ hfull hnone
  refine ⟨rfl, hfull, ?_, hnone, rfl, ?_, ?_⟩
  · exact live_of_full _ (by show 0 < SIZE; simp [SIZE]) (by show 4095 < SIZE; simp [SIZE]) hfull
  · show (Session.onNewData demoSys demoServer ()
      ({ demoSession with buffer := RingBuffer.mk 0 4095 buf1 } : Session)
      ⟨"a\nexit\n".toList, [.ready 7]⟩).ending = .returned false
    rw [h3]
  · show (Session.onNewData demoSys demoServer ()
      ({ demoSession with buffer := RingBuffer.mk 0 4095 buf1 } : Session)
      ⟨"a\nexit\n".toList, [.ready 7]⟩).source = _
    rw [h3]

end grass

namespace grass

/-! ## C29: the number of reads of one pull -/

theorem receive_full_read_step (rb : RingBuffer) (c : Bool) (stream : Str)
    (rest : List SysRead) (hr : rb.read_idx = 0) (hw : rb.write_idx = 0)
    (hlen : SIZE ≤ stream.length) :
    rb.receiveFromSocket c stream (.ready SIZE :: rest) =
      (RingBuffer.mk 0 0 (storeAt rb.buf 0 (stream.take SIZE))).receiveFromSocket false
        (stream.drop SIZE) rest := by
  have hfull : rb.full = false := not_full_of_empty rb (by rw [hr, hw])
  have hmin : min SIZE (min SIZE stream.length) = SIZE := by
    simp only [SIZE] at hlen ⊢; omega
  have hS1 : ¬ (SIZE = 0) := by simp [SIZE]
  have hlen2 : (List.take SIZE stream).length = SIZE := by
    rw [List.length_take]; exact Nat.min_eq_left hlen
  have hmod : (0 + SIZE) % SIZE = 0 := by simp
  rw [RingBuffer.receiveFromSocket]
  simp only [hfull, Bool.false_eq_true, if_false, hw, hr, Nat.lt_irrefl, sysRead, hmin,
    hS1, hlen2, hmod, Nat.sub_zero, if_true]

theorem receive_many_reads : ∀ (k : Nat) (rb : RingBuffer) (c : Bool) (stream : Str),
    rb.read_idx = 0 → rb.write_idx = 0 → stream.length = k * SIZE →
    (rb.receiveFromSocket c stream (List.replicate k (.ready SIZE))).source = ⟨[], []⟩ ∧
    (rb.receiveFromSocket c stream (List.replicate k (.ready SIZE))).error = none ∧
    (rb.receiveFromSocket c stream (List.replicate k (.ready SIZE))).rb.read_idx = 0 ∧
    (rb.receiveFromSocket c stream (List.replicate k (.ready SIZE))).rb.write_idx = 0 := by
  intro k
  induction k with
  | zero =>
    intro rb c stream hr hw hlen
    have hs : stream = [] := List.eq_nil_of_length_eq_zero (by rw [hlen, Nat.zero_mul])
    have hfull : rb.full = false := not_full_of_empty rb (by rw [hr, hw])
    rw [List.replicate_zero, RingBuffer.receiveFromSocket]
    rw [if_neg (by rw [hfull]; exact Bool.false_ne_true), hs]
    exact ⟨rfl, rfl, hr, hw⟩
  | succ k ih =>
    intro rb c stream hr hw hlen
    have hle : SIZE ≤ stream.length := by
      rw [hlen, Nat.succ_mul]; exact Nat.le_add_left _ _
    rw [List.replicate_succ, receive_full_read_step rb c stream _ hr hw hle]
    apply ih _ false (stream.drop SIZE) rfl rfl
    rw [List.length_drop, hlen, Nat.succ_mul, Nat.add_sub_cancel]

/-- C29 (the pull terminates in at most two reads), code defect: from the
empty buffer of a new session, with `k` times 4096 bytes waiting on the
socket and every `read` returning the 4096 bytes asked for, one call of
`receiveFromSocket` performs `k` reads, for every `k`: each read takes one entry
of the script and 4096 bytes of the stream, and all of them are taken. After
each read the write cursor is back on the read cursor, so the recursive call
enters the wrapping branch again. -/
theorem receive_reads_unbounded (k : Nat) :
    ((RingBuffer.new (fun _ => 'x')).receiveFromSocket false (List.replicate (k * SIZE) 'y')
      (List.replicate k (.ready SIZE))).source = ⟨[], []⟩ ∧
    ((RingBuffer.new (fun _ => 'x')).receiveFromSocket false (List.replicate (k * SIZE) 'y')
      (List.replicate k (.ready SIZE))).error = none ∧
    ((RingBuffer.new (fun _ => 'x')).receiveFromSocket false (List.replicate (k * SIZE) 'y')
      (List.replicate k (.ready SIZE))).rb.read_idx = 0 ∧
    ((RingBuffer.new (fun _ => 'x')).receiveFromSocket false (List.replicate (k * SIZE) 'y')
      (List.replicate k (.ready SIZE))).rb.write_idx = 0 :=
  receive_many_reads k (RingBuffer.new (fun _ => 'x')) false (List.replicate (k * SIZE) 'y')
    rfl rfl (List.length_replicate _ _)

end grass

namespace grass

/-! ## C22: the put worker -/

theorem transferWorker_overrun (file_size : Nat) (file stream : Str) (rest : List SysRead)
    (hlen : BUFFER_SIZE < stream.length) :
    transferWorker file_size false file ⟨stream, .ready 4200 :: rest⟩ = none := by
  have hk : ¬ (min 4200 (min 4200 stream.length) = 0) := by
    simp only [BUFFER_SIZE] at hlen; omega
  have hl : (List.take (min 4200 (min 4200 stream.length)) stream).length > BUFFER_SIZE := by
    rw [List.length_take]
    simp only [BUFFER_SIZE] at hlen ⊢
    omega
  have h0 : ¬ ((4200 : Nat) = 0) := by decide
  unfold transferWorker
  simp only [Bool.false_eq_true, if_false, sysRead, if_neg h0, if_neg hk, if_pos hl]

/-- C22 (put transfer is bounded by size), code defect: with declared size 5
and a peer that sends the ten bytes `0123456789` in one chunk, the put worker
writes all ten bytes, not the first five; sent in chunks of 3, 3 and 4 bytes,
it writes six bytes. The worker writes each chunk whole and compares the total
with the size only afterwards. Moreover the first `read` asks 4200 bytes for
the 4096-byte array: a first chunk of 4200 bytes runs past the array. -/
theorem put_worker_writes_past_size :
    (transferWorker 5 false [] ⟨"0123456789".toList, [.ready 10]⟩).map (fun r => r.written)
      = some "0123456789".toList ∧
    ("0123456789".toList).take (min 5 ("0123456789".toList).length) = "01234".toList ∧
    (transferWorker 5 false [] ⟨"0123456789".toList, [.ready 3, .ready 3, .ready 4]⟩).map
      (fun r => r.written) = some "012345".toList ∧
    (transferWorker 5 false [] ⟨"0123456789".toList, [.ready 3, .ready 3, .ready 4]⟩).map
      (fun r => r.source) = some ⟨"6789".toList, [.ready 4]⟩ ∧
    (transferWorker 5000 false [] ⟨List.replicate 4200 'a', [.ready 4200]⟩).isNone = true := by
  refine ⟨by decide, by decide, by decide, by decide, ?_⟩
  rw [transferWorker_overrun 5000 [] (List.replicate 4200 'a') []
    (by rw [List.length_replicate]; decide)]
  rfl

end grass

namespace grass

/-! ## C28: the `user` lines of the configuration file -/

/-- C28 (Config user directives), code defect: in the configuration text
`demoConfigText` the line `user bob` carries only a name; `parseFromFile` stores
the credential (bob, bob), so `checkLogin` accepts the password `bob` for `bob`
although no line `user bob <password>` exists. With no space in the rest of the
line `find` returns `npos`, which the test `index == line.length()` does not
catch; `substr(0, npos)` and `substr(npos + 1)` are both the whole name.
Likewise `user carol ` (trailing space) stores the empty password, and
`user a<TAB>b c` stores a name holding white space. -/
theorem name_only_user_line_adds_credential :
    (Config.parseFromFile demoConfigText).map (fun c => c.credentials "bob".toList)
      = .ok (some "bob".toList) ∧
    (Config.parseFromFile demoConfigText).map
      (fun c => c.checkLogin "bob".toList "bob".toList) = .ok true ∧
    (Config.parseFromFile demoConfigText).map
      (fun c => c.checkLogin "alice".toList "secret".toList) = .ok true ∧
    (Config.parseLine ⟨[], fun _ => none, -1⟩ "user bob".toList).credentials "bob".toList
      = some "bob".toList ∧
    (Config.parseFromFile "base /srv\nport 4000\nuser carol \n".toList).map
      (fun c => c.checkLogin "carol".toList []) = .ok true ∧
    (Config.parseFromFile "base /srv\nport 4000\nuser a\tb c\n".toList).map
      (fun c => c.checkLogin "a\tb".toList "c".toList) = .ok true := by
  refine ⟨by decide, by decide, by decide, by decide, by decide, by decide⟩

end grass

namespace grass

/-! ## C21: the size argument of `put` -/

theorem digit_plain (c : Char) (h : c.isDigit = true) :
    isspace c = false ∧ c ≠ '+' ∧ c ≠ '-' := by
  refine ⟨?_, ?_, ?_⟩
  · cases hs : isspace c with
    | false => rfl
    | true =>
      unfold isspace at hs
      simp only [decide_eq_true_eq] at hs
      rcases hs with h1 | h1 | h1 | h1 | h1 | h1 <;> (rw [h1] at h; exact absurd h (by decide))
  · intro h1; rw [h1] at h; exact absurd h (by decide)
  · intro h1; rw [h1] at h; exact absurd h (by decide)

theorem takeWhile_digits (ds tail : Str) (hd : ∀ c ∈ ds, c.isDigit = true)
    (ht : ∀ c, tail.head? = some c → c.isDigit = false) :
    (ds ++ tail).takeWhile Char.isDigit = ds := by
  induction ds with
  | nil =>
    cases tail with
    | nil => rfl
    | cons t ts =>
      have := ht t rfl
      simp only [List.nil_append, List.takeWhile_cons, this]
      rfl
  | cons d ds ih =>
    have hd1 := hd d (List.mem_cons_self _ _)
    rw [List.cons_append, List.takeWhile_cons, hd1]
    simp only [if_true]
    rw [ih (fun c hc => hd c (List.mem_cons_of_mem _ hc))]

theorem strtoul_unsigned (ds tail : Str) (hne : ds ≠ []) (hd : ∀ c ∈ ds, c.isDigit = true)
    (ht : ∀ c, tail.head? = some c → c.isDigit = false) :
    strtoul (ds ++ tail) =
      min (ds.foldl (fun acc c => 10 * acc + (c.toNat - '0'.toNat)) 0) ULONG_MAX := by
  cases ds with
  | nil => exact absurd rfl hne
  | cons d ds =>
    obtain ⟨h1, h2, h3⟩ := digit_plain d (hd d (List.mem_cons_self _ _))
    have htw := takeWhile_digits (d :: ds) tail hd ht
    have hdrop : (d :: ds ++ tail).dropWhile isspace = d :: ds ++ tail := by
      rw [List.cons_append, List.dropWhile_cons, h1]
      rfl
    unfold strtoul
    dsimp only
    rw [hdrop]
    have hh : (d :: ds ++ tail).head? = some d := rfl
    rw [hh]
    have hm : ¬ (some d = some '-') := fun h => h3 (Option.some.inj h)
    have hp : ¬ (some d = some '+') := fun h => h2 (Option.some.inj h)
    have hor : ¬ (some d = some '-' ∨ some d = some '+') := fun h => h.elim hm hp
    simp only [if_neg hor, htw, if_neg hm]
    split <;> omega

theorem strtoul_plus (ds tail : Str) (hd : ∀ c ∈ ds, c.isDigit = true)
    (ht : ∀ c, tail.head? = some c → c.isDigit = false) :
    strtoul ('+' :: (ds ++ tail)) =
      min (ds.foldl (fun acc c => 10 * acc + (c.toNat - '0'.toNat)) 0) ULONG_MAX := by
  have htw := takeWhile_digits ds tail hd ht
  have hdrop : ('+' :: (ds ++ tail)).dropWhile isspace = '+' :: (ds ++ tail) := by
    rw [List.dropWhile_cons]
    rfl
  have e1 : (some '+' = some '-') = False := eq_false (by decide)
  have e2 : (some '+' = some '+') = True := eq_self _
  unfold strtoul
  dsimp only
  rw [hdrop]
  simp only [List.head?_cons, e1, e2, or_true, if_true, if_false, List.drop_one,
    List.tail_cons, htw]
  split <;> omega

theorem strtoul_minus (ds tail : Str) (hd : ∀ c ∈ ds, c.isDigit = true)
    (ht : ∀ c, tail.head? = some c → c.isDigit = false) :
    strtoul ('-' :: (ds ++ tail)) =
      if ds.foldl (fun acc c => 10 * acc + (c.toNat - '0'.toNat)) 0 > ULONG_MAX then ULONG_MAX
      else (2 ^ 64 - ds.foldl (fun acc c => 10 * acc + (c.toNat - '0'.toNat)) 0) % 2 ^ 64 := by
  have htw := takeWhile_digits ds tail hd ht
  have hdrop : ('-' :: (ds ++ tail)).dropWhile isspace = '-' :: (ds ++ tail) := by
    rw [List.dropWhile_cons]
    rfl
  have e2 : (some '-' = some '-') = True := eq_self _
  unfold strtoul
  dsimp only
  rw [hdrop]
  simp only [List.head?_cons, e2, true_or, if_true, List.drop_one, List.tail_cons, htw]

theorem strtoul_no_digit (tail : Str)
    (ht : ∀ c, tail.head? = some c →
      c.isDigit = false ∧ isspace c = false ∧ c ≠ '+' ∧ c ≠ '-') :
    strtoul tail = 0 := by
  cases tail with
  | nil => decide
  | cons t ts =>
    obtain ⟨h0, h1, h2, h3⟩ := ht t rfl
    have hdrop : (t :: ts).dropWhile isspace = t :: ts := by
      rw [List.dropWhile_cons, h1]
      rfl
    have htw : (t :: ts).takeWhile Char.isDigit = [] := by
      rw [List.takeWhile_cons, h0]
      rfl
    unfold strtoul
    dsimp only
    rw [hdrop]
    have hh : (t :: ts).head? = some t := rfl
    rw [hh]
    have hm : ¬ (some t = some '-') := fun h => h3 (Option.some.inj h)
    have hp : ¬ (some t = some '+') := fun h => h2 (Option.some.inj h)
    have hor : ¬ (some t = some '-' ∨ some t = some '+') := fun h => h.elim hm hp
    simp only [if_neg hor, htw, if_neg hm]
    decide

end grass

namespace grass

theorem executePrivileged_put_missing {W : Type} (sys : Sys W) (srv : ServerManager) (w : W)
    (s : Session) (rest : List Str) (h : rest.length < 2) :
    s.executePrivileged sys srv w ("put".toList :: rest) =
      ⟨.error "Missing arguments".toList, s, w⟩ := by
  have g1 : ¬ ("put".toList = "ls".toList) := by decide
  have g2 : ¬ ("put".toList = "cd".toList) := by decide
  have g3 : ¬ ("put".toList = "mkdir".toList) := by decide
  have g4 : ¬ ("put".toList = "rm".toList) := by decide
  have g5 : ¬ ("put".toList = "get".toList) := by decide
  have g6 : ("put".toList :: rest).length < 3 := by
    simp only [List.length_cons]; omega
  unfold Session.executePrivileged
  simp only [List.getD_cons_zero, if_neg g1, if_neg g2, if_neg g3, if_neg g4, if_neg g5,
    if_true, if_pos g6]

/-- C21 (amended): for every authenticated `put <rel> <size>` line (with a
path of at most 128 bytes), the command is accepted exactly when `strtoul`
gives a non-zero number for the size token, and then the size used for the
transfer is that number; when it gives zero the command is rejected with
"Invalid size", the world being untouched (no file is opened). For a token
that starts with decimal digits, `strtoul` gives the number they denote (at
most 2^64 - 1) whatever follows them; after a `+` sign likewise, and after a
`-` sign its negation modulo 2^64; for a token with no digit at its start or
after its sign it gives zero. Fewer than two arguments are rejected with "Missing
arguments". -/
theorem put_size_validation {W : Type} (sys : Sys W) (srv : ServerManager) (w : W)
    (s : Session) (line u rel sz : Str) (rest : List Str)
    (hu : s.state.username = some u) (hl : s.state.login_attempt = none)
    (hargs : splitArgs line = "put".toList :: rel :: sz :: rest)
    (hrel : rel.length ≤ MAX_PATH_LENGTH) :
    (strtoul sz = 0 → s.execute sys srv w line = ⟨.error "Invalid size".toList, s, w⟩) ∧
    (strtoul sz ≠ 0 → s.execute sys srv w line = s.executePut sys w rel (strtoul sz)) ∧
    (∀ (ds tail : Str), ds ≠ [] → (∀ c ∈ ds, c.isDigit = true) →
      (∀ c, tail.head? = some c → c.isDigit = false) →
      strtoul (ds ++ tail) =
        min (ds.foldl (fun acc c => 10 * acc + (c.toNat - '0'.toNat)) 0) ULONG_MAX ∧
      strtoul ('+' :: (ds ++ tail)) =
        min (ds.foldl (fun acc c => 10 * acc + (c.toNat - '0'.toNat)) 0) ULONG_MAX ∧
      strtoul ('-' :: (ds ++ tail)) =
        if ds.foldl (fun acc c => 10 * acc + (c.toNat - '0'.toNat)) 0 > ULONG_MAX then ULONG_MAX
        else (2 ^ 64 - ds.foldl (fun acc c => 10 * acc + (c.toNat - '0'.toNat)) 0) % 2 ^ 64) ∧
    (∀ tail : Str, (∀ c, tail.head? = some c → c.isDigit = false) →
      strtoul ('+' :: tail) = 0 ∧ strtoul ('-' :: tail) = 0 ∧
      ((∀ c, tail.head? = some c → isspace c = false ∧ c ≠ '+' ∧ c ≠ '-') →
        strtoul tail = 0)) ∧
    (∀ (line2 : Str) (args : List Str), splitArgs line2 = "put".toList :: args →
      args.length < 2 →
      s.execute sys srv w line2 = ⟨.error "Missing arguments".toList, s, w⟩) := by
  have hp : "put".toList ∈ PRIVILEGED_COMMANDS := by decide
  have hex := execute_authenticated_privileged sys srv w s line "put".toList u
    (rel :: sz :: rest) hu hl hargs hp
  rw [executePrivileged_put, if_neg (by omega)] at hex
  refine ⟨?_, ?_, ?_, ?_, ?_⟩
  · intro h0
    rw [hex, if_pos h0]
  · intro h0
    rw [hex, if_neg h0]
  · intro ds tail hne hd ht
    exact ⟨strtoul_unsigned ds tail hne hd ht, strtoul_plus ds tail hd ht,
      strtoul_minus ds tail hd ht⟩
  · intro tail ht
    have hp0 := strtoul_plus [] tail (fun c hc => absurd hc (List.not_mem_nil c)) ht
    have hm0 := strtoul_minus [] tail (fun c hc => absurd hc (List.not_mem_nil c)) ht
    refine ⟨?_, ?_, ?_⟩
    · rw [List.nil_append] at hp0
      rw [hp0]
      rfl
    · rw [List.nil_append] at hm0
      rw [hm0]
      decide
    · intro h2
      exact strtoul_no_digit tail (fun c hc => ⟨ht c hc, h2 c hc⟩)
  · intro line2 args hargs2 hlen
    rw [execute_authenticated_privileged sys srv w s line2 "put".toList u args hu hl hargs2 hp]
    exact executePrivileged_put_missing sys srv w s args hlen

/-- Witness for C21 (amended): `put f 12` in the session of alice uses the
size 12, and `put f 0` is refused. -/
theorem put_size_validation_witness :
    demoAlice.execute demoSizeSys demoServer [] "put f 12".toList =
      demoAlice.executePut demoSizeSys [] "f".toList (strtoul "12".toList) ∧
    demoAlice.execute demoSizeSys demoServer [] "put f 0".toList =
      ⟨.error "Invalid size".toList, demoAlice, []⟩ :=
  ⟨(put_size_validation demoSizeSys demoServer [] demoAlice "put f 12".toList "alice".toList
      "f".toList "12".toList [] (by decide) (by decide) (by decide) (by decide)).2.1
      (by decide),
   (put_size_validation demoSizeSys demoServer [] demoAlice "put f 0".toList "alice".toList
      "f".toList "0".toList [] (by decide) (by decide) (by decide) (by decide)).1
      (by decide)⟩

/-- C21 (counterexample): the size tokens `12abc` (trailing characters), `+5`
and `-1` (signs) are accepted: the transfer is started with the sizes 12, 5 and
2^64 - 1. -/
theorem put_size_counterexample :
    strtoul "12abc".toList = 12 ∧
    (demoAlice.execute demoSizeSys demoServer [] "put f 12abc".toList).result =
      .ok "put port: 4242".toList ∧
    (demoAlice.execute demoSizeSys demoServer [] "put f 12abc".toList).world = [12] ∧
    (demoAlice.execute demoSizeSys demoServer [] "put f +5".toList).result =
      .ok "put port: 4242".toList ∧
    (demoAlice.execute demoSizeSys demoServer [] "put f +5".toList).world = [5] ∧
    (demoAlice.execute demoSizeSys demoServer [] "put f -1".toList).result =
      .ok "put port: 4242".toList ∧
    (demoAlice.execute demoSizeSys demoServer [] "put f -1".toList).world = [2 ^ 64 - 1] := by
  refine ⟨by decide, by decide, by decide, by decide, by decide, by decide, by decide⟩

end grass

namespace grass

/-! ## Character classes of the host and directory name checks -/

theorem char_in_run (c : Char) (lo n : Nat) (chars : Str)
    (hall : ∀ k ∈ List.range n, Char.ofNat (lo + k) ∈ chars)
    (h1 : lo ≤ c.toNat) (h2 : c.toNat < lo + n) : c ∈ chars := by
  have hc : Char.ofNat (lo + (c.toNat - lo)) = c := by
    rw [Nat.add_sub_cancel' h1]
    exact Char.ofNat_toNat c
  rw [← hc]
  exact hall _ (List.mem_range.2 (by omega))

theorem lower_in_chars (c : Char) (chars : Str)
    (hall : ∀ k ∈ List.range 26, Char.ofNat (97 + k) ∈ chars) (h : c.isLower = true) :
    c ∈ chars := by
  unfold Char.isLower at h
  simp only [Bool.and_eq_true, decide_eq_true_eq, ge_iff_le] at h
  have h1n : 97 ≤ c.toNat := h.1
  have h2n : c.toNat ≤ 122 := h.2
  exact char_in_run c 97 26 chars hall h1n (by omega)

theorem upper_in_chars (c : Char) (chars : Str)
    (hall : ∀ k ∈ List.range 26, Char.ofNat (65 + k) ∈ chars) (h : c.isUpper = true) :
    c ∈ chars := by
  unfold Char.isUpper at h
  simp only [Bool.and_eq_true, decide_eq_true_eq, ge_iff_le] at h
  have h1n : 65 ≤ c.toNat := h.1
  have h2n : c.toNat ≤ 90 := h.2
  exact char_in_run c 65 26 chars hall h1n (by omega)

theorem digit_in_chars (c : Char) (chars : Str)
    (hall : ∀ k ∈ List.range 10, Char.ofNat (48 + k) ∈ chars) (h : c.isDigit = true) :
    c ∈ chars := by
  unfold Char.isDigit at h
  simp only [Bool.and_eq_true, decide_eq_true_eq, ge_iff_le] at h
  have h1n : 48 ≤ c.toNat := h.1
  have h2n : c.toNat ≤ 57 := h.2
  exact char_in_run c 48 10 chars hall h1n (by omega)

theorem host_chars_iff (c : Char) :
    c ∈ "abcdefghijklmnopqrstuvwxyz0123456789.-:".toList ↔
      (c.isLower = true ∨ c.isDigit = true ∨ c = '.' ∨ c = '-' ∨ c = ':') := by
  constructor
  · have hall : ∀ d ∈ "abcdefghijklmnopqrstuvwxyz0123456789.-:".toList,
        (d.isLower = true ∨ d.isDigit = true ∨ d = '.' ∨ d = '-' ∨ d = ':') := by decide
    exact hall c
  · rintro (h | h | h | h | h)
    · exact lower_in_chars c _ (by decide) h
    · exact digit_in_chars c _ (by decide) h
    · rw [h]; decide
    · rw [h]; decide
    · rw [h]; decide

theorem name_chars_iff (c : Char) :
    c ∈ valid_characters ↔
      (c.isLower = true ∨ c.isUpper = true ∨ c.isDigit = true ∨ c = '_' ∨ c = '-') := by
  constructor
  · have hall : ∀ d ∈ valid_characters,
        (d.isLower = true ∨ d.isUpper = true ∨ d.isDigit = true ∨ d = '_' ∨ d = '-') := by
      decide
    exact hall c
  · rintro (h | h | h | h | h)
    · exact lower_in_chars c _ (by decide) h
    · exact upper_in_chars c _ (by decide) h
    · exact digit_in_chars c _ (by decide) h
    · rw [h]; decide
    · rw [h]; decide

theorem hasCharOutside_iff (chars s : Str) :
    hasCharOutside chars s = true ↔ ∃ c ∈ s, c ∉ chars := by
  unfold hasCharOutside
  rw [List.any_eq_true]
  constructor
  · rintro ⟨c, hc, h⟩
    refine ⟨c, hc, ?_⟩
    intro hin
    have : chars.contains c = true := by simpa using hin
    rw [this] at h
    cases h
  · rintro ⟨c, hc, h⟩
    refine ⟨c, hc, ?_⟩
    cases hcon : chars.contains c with
    | false => rfl
    | true => exact absurd (by simpa using hcon) h

end grass

namespace grass

/-! ## C23: the host argument of `ping` -/

theorem execute_ping {W : Type} (sys : Sys W) (srv : ServerManager) (w : W) (s : Session)
    (line host : Str) (rest : List Str) (hl : s.state.login_attempt = none)
    (hargs : splitArgs line = "ping".toList :: host :: rest) :
    s.execute sys srv w line = s.executePing sys w host := by
  have h1 : ¬ ("ping".toList = "login".toList) := by decide
  have h2 : ¬ (("ping".toList :: host :: rest).length < 2) := by
    simp only [List.length_cons]; omega
  rw [execute_of_args sys srv w s line "ping".toList (host :: rest) hargs, hl]
  simp only [if_neg h1, if_true, if_neg h2, List.getD_cons_succ, List.getD_cons_zero]

/-- C23 (ping hostname validation): for every host argument,
`Session::executePing` raises "Invalid hostname", with session and world
untouched (no subprocess is run), if and only if the host contains a character
outside a-z, 0-9, `.`, `-` and `:`; otherwise the command line handed to
`popen` is exactly `ping -c 1 ` + host + ` 2>&1`. The check is reached by a
`ping <host>` line whenever no login is pending, whether the session is
anonymous or authenticated. -/
theorem ping_hostname_validation {W : Type} (sys : Sys W) (srv : ServerManager) (w : W)
    (s : Session) (host : Str) :
    ((s.executePing sys w host).result = .error "Invalid hostname".toList ↔
      ∃ c ∈ host, ¬ (c.isLower = true ∨ c.isDigit = true ∨ c = '.' ∨ c = '-' ∨ c = ':')) ∧
    ((∃ c ∈ host, ¬ (c.isLower = true ∨ c.isDigit = true ∨ c = '.' ∨ c = '-' ∨ c = ':')) →
      s.executePing sys w host = ⟨.error "Invalid hostname".toList, s, w⟩) ∧
    ((∀ c ∈ host, c.isLower = true ∨ c.isDigit = true ∨ c = '.' ∨ c = '-' ∨ c = ':') →
      s.executePing sys w host =
        match sys.popen w ("ping -c 1 ".toList ++ host ++ " 2>&1".toList) with
        | (none, w1) => ⟨.error "ping() failed".toList, s, w1⟩
        | (some result, w1) => ⟨.ok result, s, w1⟩) ∧
    (∀ (line : Str) (rest : List Str), s.state.login_attempt = none →
      splitArgs line = "ping".toList :: host :: rest →
      s.execute sys srv w line = s.executePing sys w host) := by
  have hbad : (∃ c ∈ host,
      ¬ (c.isLower = true ∨ c.isDigit = true ∨ c = '.' ∨ c = '-' ∨ c = ':')) →
      hasCharOutside "abcdefghijklmnopqrstuvwxyz0123456789.-:".toList host = true := by
    rintro ⟨c, hc, h⟩
    exact (hasCharOutside_iff _ host).2 ⟨c, hc, fun hin => h ((host_chars_iff c).1 hin)⟩
  have hgood : (∀ c ∈ host, c.isLower = true ∨ c.isDigit = true ∨ c = '.' ∨ c = '-' ∨ c = ':') →
      ¬ (hasCharOutside "abcdefghijklmnopqrstuvwxyz0123456789.-:".toList host = true) := by
    intro h hout
    obtain ⟨c, hc, hnot⟩ := (hasCharOutside_iff _ host).1 hout
    exact hnot ((host_chars_iff c).2 (h c hc))
  have h2 : (∃ c ∈ host,
      ¬ (c.isLower = true ∨ c.isDigit = true ∨ c = '.' ∨ c = '-' ∨ c = ':')) →
      s.executePing sys w host = ⟨.error "Invalid hostname".toList, s, w⟩ := by
    intro h
    unfold Session.executePing
    rw [if_pos (hbad h)]
  have h3 : (∀ c ∈ host, c.isLower = true ∨ c.isDigit = true ∨ c = '.' ∨ c = '-' ∨ c = ':') →
      s.executePing sys w host =
        match sys.popen w ("ping -c 1 ".toList ++ host ++ " 2>&1".toList) with
        | (none, w1) => ⟨.error "ping() failed".toList, s, w1⟩
        | (some result, w1) => ⟨.ok result, s, w1⟩ := by
    intro h
    unfold Session.executePing
    rw [if_neg (hgood h)]
  refine ⟨⟨?_, fun h => by rw [h2 h]⟩, h2, h3, ?_⟩
  · intro hres
    by_contra hno
    have hall : ∀ c ∈ host,
        c.isLower = true ∨ c.isDigit = true ∨ c = '.' ∨ c = '-' ∨ c = ':' := by
      intro c hc
      by_contra hc2
      exact hno ⟨c, hc, hc2⟩
    rw [h3 hall] at hres
    cases hp : sys.popen w ("ping -c 1 ".toList ++ host ++ " 2>&1".toList) with
    | mk r w1 =>
      rw [hp] at hres
      cases r with
      | none =>
        have hne : (Except.error "ping() failed".toList : Except Str Str) ≠
            .error "Invalid hostname".toList := by decide
        exact hne hres
      | some result => cases hres
  · intro line rest hl hargs
    exact execute_ping sys srv w s line host rest hl hargs

/-- Witness for C23: in the anonymous demo session `ping a;b` is refused and
`ping 8.8.8.8` runs `ping -c 1 8.8.8.8 2>&1`; the authenticated session of
alice reaches the same check. -/
theorem ping_hostname_validation_witness :
    demoSession.executePing demoSys () "a;b".toList =
      ⟨.error "Invalid hostname".toList, demoSession, ()⟩ ∧
    demoSession.execute demoSys demoServer () "ping 8.8.8.8".toList =
      demoSession.executePing demoSys () "8.8.8.8".toList ∧
    demoAlice.execute demoSys demoServer () "ping a;b".toList =
      demoAlice.executePing demoSys () "a;b".toList :=
  ⟨(ping_hostname_validation demoSys demoServer () demoSession "a;b".toList).2.1
      ⟨';', by decide, by decide⟩,
   (ping_hostname_validation demoSys demoServer () demoSession "8.8.8.8".toList).2.2.2
      "ping 8.8.8.8".toList [] (by decide) (by decide),
   (ping_hostname_validation demoSys demoServer () demoAlice "a;b".toList).2.2.2
      "ping a;b".toList [] (by decide) (by decide)⟩

end grass

namespace grass

/-! ## C24: the name argument of `mkdir` -/

theorem wordsFrom_nonempty : ∀ (s cur : Str), ∀ t ∈ wordsFrom cur s, t ≠ [] := by
  intro s
  induction s with
  | nil =>
    intro cur t ht
    unfold wordsFrom at ht
    by_cases hc : cur = []
    · rw [if_pos hc] at ht; cases ht
    · rw [if_neg hc] at ht
      rw [List.mem_singleton.1 ht]
      exact hc
  | cons c cs ih =>
    intro cur t ht
    unfold wordsFrom at ht
    by_cases hs : isspace c = true
    · rw [if_pos hs] at ht
      by_cases hc : cur = []
      · rw [if_pos hc] at ht
        exact ih [] t ht
      · rw [if_neg hc] at ht
        rcases List.mem_cons.1 ht with h | h
        · rw [h]; exact hc
        · exact ih [] t h
    · rw [if_neg hs] at ht
      exact ih _ t ht

theorem executePrivileged_mkdir {W : Type} (sys : Sys W) (srv : ServerManager) (w : W)
    (s : Session) (rest : List Str) :
    s.executePrivileged sys srv w ("mkdir".toList :: rest) =
      match ValidatePathArg ("mkdir".toList :: rest) with
      | some e => ⟨.error e, s, w⟩
      | none => s.executeMkdir sys w (rest.getD 0 []) := by
  have g1 : ¬ ("mkdir".toList = "ls".toList) := by decide
  have g2 : ¬ ("mkdir".toList = "cd".toList) := by decide
  unfold Session.executePrivileged
  simp only [List.getD_cons_zero, if_neg g1, if_neg g2, if_true, List.getD_cons_succ]

/-- C24 (amended): for every authenticated `mkdir <name>` whose name has at
most 128 bytes, if the name contains any character outside `[A-Za-z0-9_-]` the
command raises "Invalid directory name", the world being untouched (no
directory is created); if every character is inside that set, the path handed
to `mkdir` is the join of the base directory with cwd followed by the name, a
direct child of cwd (nothing is handed when that path exceeds 128 bytes). A
name of more than 128 bytes raises "The path is too long", whatever its
characters. -/
theorem mkdir_name_validation {W : Type} (sys : Sys W) (srv : ServerManager) (w : W)
    (s : Session) (line u name : Str) (rest : List Str)
    (hu : s.state.username = some u) (hl : s.state.login_attempt = none)
    (hargs : splitArgs line = "mkdir".toList :: name :: rest) :
    (name.length ≤ 128 →
      (∃ c ∈ name,
        ¬ (c.isLower = true ∨ c.isUpper = true ∨ c.isDigit = true ∨ c = '_' ∨ c = '-')) →
      s.execute sys srv w line = ⟨.error "Invalid directory name".toList, s, w⟩) ∧
    (name.length ≤ 128 →
      (∀ c ∈ name, c.isLower = true ∨ c.isUpper = true ∨ c.isDigit = true ∨ c = '_' ∨ c = '-') →
      s.execute sys srv w line =
        if (s.directory.root ++ segmentsText (s.directory.path ++ [name])).length ≤ 128 then
          match sys.mkdir w (s.directory.root ++ segmentsText (s.directory.path ++ [name])) with
          | (none, w1) => ⟨.ok "".toList, s, w1⟩
          | (some .ENOENT, w1) => ⟨.error "No such file or directory".toList, s, w1⟩
          | (some .EEXIST, w1) => ⟨.error "Directory already exists".toList, s, w1⟩
          | (some _, w1) => ⟨.error "mkdir() failed".toList, s, w1⟩
        else ⟨.error "The path is too long".toList, s, w⟩) ∧
    (128 < name.length →
      s.execute sys srv w line = ⟨.error "The path is too long".toList, s, w⟩) := by
  have hp : "mkdir".toList ∈ PRIVILEGED_COMMANDS := by decide
  have hex := execute_authenticated_privileged sys srv w s line "mkdir".toList u
    (name :: rest) hu hl hargs hp
  rw [executePrivileged_mkdir] at hex
  have hne : name ≠ [] :=
    wordsFrom_nonempty line [] name (by
      show name ∈ splitArgs line
      rw [hargs]
      exact List.mem_cons_of_mem _ (List.mem_cons_self _ _))
  have hlen2 : ¬ (("mkdir".toList :: name :: rest).length < 2) := by
    simp only [List.length_cons]; omega
  refine ⟨?_, ?_, ?_⟩
  · intro hlen hbad
    have hv : ValidatePathArg ("mkdir".toList :: name :: rest) = none := by
      unfold ValidatePathArg
      rw [if_neg hlen2, List.getD_cons_succ, List.getD_cons_zero,
        if_neg (by simp only [MAX_PATH_LENGTH]; omega)]
    rw [hex, hv]
    obtain ⟨c, hc, hnot⟩ := hbad
    have hout : hasCharOutside valid_characters name = true :=
      (hasCharOutside_iff _ name).2 ⟨c, hc, fun hin => hnot ((name_chars_iff c).1 hin)⟩
    show s.executeMkdir sys w name = _
    unfold valid_characters at hout
    unfold Session.executeMkdir
    rw [if_pos hout]
  · intro hlen hgood
    have hv : ValidatePathArg ("mkdir".toList :: name :: rest) = none := by
      unfold ValidatePathArg
      rw [if_neg hlen2, List.getD_cons_succ, List.getD_cons_zero,
        if_neg (by simp only [MAX_PATH_LENGTH]; omega)]
    rw [hex, hv]
    have hout : hasCharOutside valid_characters name = false := by
      cases h : hasCharOutside valid_characters name with
      | false => rfl
      | true =>
        obtain ⟨c, hc, hnot⟩ := (hasCharOutside_iff _ name).1 h
        exact absurd ((name_chars_iff c).2 (hgood c hc)) hnot
    have htok := TokenizePath_name s.directory name hne hout
    have hslash : '/' ∉ name := fun h => (valid_name_chars name hout '/' h).1 rfl
    have hpath := PathFromRoot_of_tokens s.directory name _ hslash htok
    show s.executeMkdir sys w name = _
    unfold valid_characters at hout
    unfold Session.executeMkdir
    rw [if_neg (by rw [hout]; exact Bool.false_ne_true), hpath]
    by_cases hl128 : (s.directory.root ++ segmentsText (s.directory.path ++ [name])).length ≤ 128
    · rw [if_pos hl128, if_pos hl128]
    · rw [if_neg hl128, if_neg hl128]
  · intro hlong
    have hv : ValidatePathArg ("mkdir".toList :: name :: rest) =
        some "The path is too long".toList := by
      unfold ValidatePathArg
      rw [if_neg hlen2, List.getD_cons_succ, List.getD_cons_zero,
        if_pos (by simp only [MAX_PATH_LENGTH]; omega)]
    rw [hex, hv]

/-- Witness for C24 (amended): in the session of alice, `mkdir a.b` is
refused and `mkdir docs` hands `/srv/docs` to `mkdir`. -/
theorem mkdir_name_validation_witness :
    demoAlice.execute demoSys demoServer () "mkdir a.b".toList =
      ⟨.error "Invalid directory name".toList, demoAlice, ()⟩ ∧
    demoAlice.execute demoSys demoServer () "mkdir docs".toList =
      if (demoAlice.directory.root ++
          segmentsText (demoAlice.directory.path ++ ["docs".toList])).length ≤ 128 then
        match demoSys.mkdir () (demoAlice.directory.root ++
          segmentsText (demoAlice.directory.path ++ ["docs".toList])) with
        | (none, w1) => ⟨.ok "".toList, demoAlice, w1⟩
        | (some .ENOENT, w1) => ⟨.error "No such file or directory".toList, demoAlice, w1⟩
        | (some .EEXIST, w1) => ⟨.error "Directory already exists".toList, demoAlice, w1⟩
        | (some _, w1) => ⟨.error "mkdir() failed".toList, demoAlice, w1⟩
      else ⟨.error "The path is too long".toList, demoAlice, ()⟩ :=
  ⟨(mkdir_name_validation demoSys demoServer () demoAlice "mkdir a.b".toList "alice".toList
      "a.b".toList [] (by decide) (by decide) (by decide)).1 (by decide)
      ⟨'.', by decide, by decide⟩,
   (mkdir_name_validation demoSys demoServer () demoAlice "mkdir docs".toList "alice".toList
      "docs".toList [] (by decide) (by decide) (by decide)).2.1 (by decide) (by decide)⟩

end grass

namespace grass

theorem execute_mkdir_long {W : Type} (sys : Sys W) (srv : ServerManager) (w : W)
    (s : Session) (line u name : Str) (rest : List Str)
    (hu : s.state.username = some u) (hl : s.state.login_attempt = none)
    (hargs : splitArgs line = "mkdir".toList :: name :: rest)
    (hlong : MAX_PATH_LENGTH < name.length) :
    s.execute sys srv w line = ⟨.error "The path is too long".toList, s, w⟩ := by
  have hp : "mkdir".toList ∈ PRIVILEGED_COMMANDS := by decide
  have hlen2 : ¬ (("mkdir".toList :: name :: rest).length < 2) := by
    simp only [List.length_cons]; omega
  have hv : ValidatePathArg ("mkdir".toList :: name :: rest) =
      some "The path is too long".toList := by
    unfold ValidatePathArg
    rw [if_neg hlen2, List.getD_cons_succ, List.getD_cons_zero, if_pos hlong]
  rw [execute_authenticated_privileged sys srv w s line "mkdir".toList u (name :: rest) hu hl
    hargs hp, executePrivileged_mkdir, hv]

/-- C24 (counterexample): in the session of alice, `mkdir` followed by a name
of 129 characters `!`, all of them outside `[A-Za-z0-9_-]`, raises "The path
is too long", not "Invalid directory name": the length of the argument is
checked before `executeMkdir` is called. -/
theorem mkdir_long_name_counterexample :
    (List.replicate 129 '!').length = 129 ∧
    (∀ c ∈ List.replicate 129 '!',
      ¬ (c.isLower = true ∨ c.isUpper = true ∨ c.isDigit = true ∨ c = '_' ∨ c = '-')) ∧
    demoAlice.execute demoSys demoServer () ("mkdir".toList ++ ' ' :: List.replicate 129 '!') =
      ⟨.error "The path is too long".toList, demoAlice, ()⟩ := by
  refine ⟨List.length_replicate _ _, ?_, ?_⟩
  · intro c hc
    rw [List.eq_of_mem_replicate hc]
    decide
  · have hword : IsWord (List.replicate 129 '!') := by
      refine ⟨?_, ?_⟩
      · intro h
        have hl := congrArg List.length h
        rw [List.length_replicate] at hl
        exact absurd hl (by decide)
      · intro d hd
        rw [List.eq_of_mem_replicate hd]
        decide
    have hargs := splitArgs_two "mkdir".toList (List.replicate 129 '!') (by decide) hword
    exact execute_mkdir_long demoSys demoServer () demoAlice _ "alice".toList
      (List.replicate 129 '!') [] (by decide) (by decide) hargs
      (by rw [List.length_replicate]; decide)

end grass
